import Mathlib

/-!
# TiledArray: process map, tile-op dispatch, reduce task and expressions

A shallow embedding of parts of the TiledArray expression-evaluation core:

* `TiledArray.detail.CyclicPmap` (`pmap/cyclic_pmap.h`),
* the binary tile-op dispatch of `tile_op/binary_interface.h` with the
  `ScalMult` kernels of `tile_op/scal_mult.h`,
* the `ReduceTask` engine of `reduce_task.h`,
* `Expr::make_array`, `Expr::eval_to` and the two `Expr::reduce` of
  `expressions/expr.h`,
* the `Noop` tile operation of `tile_op/noop.h` and the `Scal` tile operation
  exercised by `tests/tile_op_scal.cpp`,
* the checks and the size loops of the `ContractedArray` constructors of
  `math.h`,
* `to_sparse` of `conversions/dense_to_sparse.h`,
* `outer_fill` and `outer` of `math/outer.h`,
* the command line handling of the driver `examples/dgemm/ta_dense.cpp`.

`size_type` values are modelled as natural numbers: tile counts index an
in-memory tile list and stay far below the width of `size_type`, so no
arithmetic in these functions wraps. For the constructor of `CyclicPmap`,
whose checks multiply its arguments, `CyclicPmap.new_wrap` is the same
constructor in the arithmetic of a `size_type` of `w` bits; the two agree
where `(rows + 1) * (cols + 1) + proc_rows * proc_cols < 2 ^ w`
(`CyclicPmap.new_wrap_eq_new`).
-/

namespace TiledArray

/-- The exception thrown by a failed `TA_ASSERT` (`assertion`) or by
`TA_EXCEPTION` (`user`); `fuel` marks a loop of the model that was given too
few iterations (it never surfaces from the constructor `new`, see
`detail.CyclicPmap.new_never_out_of_fuel`). -/
inductive Exception where
  | assertion : Exception
  | fuel : Exception
  | user : Exception
  deriving DecidableEq

/-- Modelled from the spec: the `TA_ASSERT` macro of `error.h`, which is not
part of the sources at hand. A failed check aborts the enclosing operation
with an error (section 7 of the specification); a check that holds does
nothing. -/
def TA_ASSERT (cond : Bool) : Except Exception Unit :=
  if cond then pure () else throw Exception.assertion

/-- Modelled from the spec: the `TA_EXCEPTION(message)` macro of `error.h`,
which is not part of the sources at hand: it raises an error that carries the
message. The text of the message is not modelled. -/
def TA_EXCEPTION {α : Type} : Except Exception α :=
  throw Exception.user

/-- The part of `madness::World` a process map reads: `rank()` and `size()`. -/
structure World where
  rank : Nat
  size : Nat
  deriving DecidableEq

namespace detail

/-- Data members of `CyclicPmap` together with those inherited from `Pmap`.
`local_reserve` records the argument of `local_.reserve`. -/
structure CyclicPmap where
  rank_ : Nat
  procs_ : Nat
  size_ : Nat
  local_ : List Nat
  rows_ : Nat
  cols_ : Nat
  proc_cols_ : Nat
  proc_rows_ : Nat
  local_reserve : Nat
  deriving DecidableEq

namespace CyclicPmap

/-- `CyclicPmap::owner`. -/
def owner (p : CyclicPmap) (tile : Nat) : Except Exception Nat := do
  TA_ASSERT (decide (tile < p.size_))
  -- Compute tile coordinate in tile grid
  let tile_row := tile / p.cols_
  let tile_col := tile % p.cols_
  -- Compute process coordinate of tile in the process grid
  let proc_row := tile_row % p.proc_rows_
  let proc_col := tile_col % p.proc_cols_
  -- Compute the process that owns tile
  let proc := proc_row * p.proc_cols_ + proc_col
  TA_ASSERT (decide (proc < p.procs_))
  return proc

/-- `local_.push_back(tile)`. -/
def push_back (p : CyclicPmap) (tile : Nat) : CyclicPmap :=
  { p with local_ := p.local_ ++ [tile] }

/-- The inner loop of the constructor,
`for(tile = ...; tile < row_end; tile += proc_cols_)`, entered with the
current value of `tile`; `fuel` bounds the number of iterations. -/
def ctor_tile_loop (row_end : Nat) : Nat → Nat → CyclicPmap → Except Exception CyclicPmap
  | 0, tile, p => if tile < row_end then throw Exception.fuel else pure p
  | fuel + 1, tile, p =>
    if tile < row_end then do
      let o ← p.owner tile
      TA_ASSERT (decide (o = p.rank_))
      ctor_tile_loop row_end fuel (tile + p.proc_cols_) (p.push_back tile)
    else pure p

/-- The outer loop of the constructor,
`for(i = rank_row; i < rows_; i += proc_rows_)`, entered with the current
value of `i`; `fuel` bounds the number of iterations. -/
def ctor_row_loop (rank_col : Nat) : Nat → Nat → CyclicPmap → Except Exception CyclicPmap
  | 0, i, p => if i < p.rows_ then throw Exception.fuel else pure p
  | fuel + 1, i, p =>
    if i < p.rows_ then do
      let row_end := (i + 1) * p.cols_
      let tile := i * p.cols_ + rank_col
      let p ← ctor_tile_loop row_end (row_end - tile) tile p
      ctor_row_loop rank_col fuel (i + p.proc_rows_) p
    else pure p

/-- The constructor `CyclicPmap::CyclicPmap(world, rows, cols, proc_rows,
proc_cols)`. The base-class constructor `Pmap(world, rows * cols)` stores the
rank and size of the world and the number of tiles and leaves the local list
empty. Sums and products are those of natural numbers; `new_wrap` below has
those of the machine. -/
def new (world : World) (rows cols proc_rows proc_cols : Nat) :
    Except Exception CyclicPmap := do
  let p : CyclicPmap :=
    { rank_ := world.rank, procs_ := world.size, size_ := rows * cols, local_ := [],
      rows_ := rows, cols_ := cols, proc_cols_ := proc_cols, proc_rows_ := proc_rows,
      local_reserve := 0 }
  -- Check that the size is non-zero
  TA_ASSERT (decide (p.rows_ ≥ 1))
  TA_ASSERT (decide (p.cols_ ≥ 1))
  -- Check limits of process rows and columns
  TA_ASSERT (decide (p.proc_rows_ ≥ 1))
  TA_ASSERT (decide (p.proc_cols_ ≥ 1))
  TA_ASSERT (decide (p.proc_rows_ * p.proc_cols_ ≤ p.procs_))
  -- Initialize local tile list
  if p.rank_ < p.proc_rows_ * p.proc_cols_ then
    -- Compute rank coordinates
    let rank_row := p.rank_ / p.proc_cols_
    let rank_col := p.rank_ % p.proc_cols_
    let local_rows :=
      (p.rows_ / p.proc_rows_) + (if p.rows_ % p.proc_rows_ < rank_row then 1 else 0)
    let local_cols :=
      (p.cols_ / p.proc_cols_) + (if p.cols_ % p.proc_cols_ < rank_col then 1 else 0)
    -- Allocate memory for the local tile list
    let p := { p with local_reserve := local_rows * local_cols }
    -- Iterate over local tiles
    ctor_row_loop rank_col (p.rows_ - rank_row) rank_row p
  else
    pure p

/-- The local tile list the constructor builds on rank `rank` of a world of
`nprocs` processes (empty when construction fails). -/
def local_tiles (nprocs rows cols proc_rows proc_cols rank : Nat) : List Nat :=
  match CyclicPmap.new ⟨rank, nprocs⟩ rows cols proc_rows proc_cols with
  | .ok p => p.local_
  | .error _ => []

/-! The constructor once more, in the arithmetic of `size_type`: an unsigned
integer type of `w` bits, in which sums and products are taken modulo `2 ^ w`.
The arguments are the values of the `size_type` parameters. -/

/-- The value a sum or product takes in a `size_type` of `w` bits. -/
def size_type (w n : Nat) : Nat := n % 2 ^ w

/-- `CyclicPmap::owner` in the arithmetic of a `size_type` of `w` bits. -/
def owner_wrap (w : Nat) (p : CyclicPmap) (tile : Nat) : Except Exception Nat := do
  TA_ASSERT (decide (tile < p.size_))
  -- Compute tile coordinate in tile grid
  let tile_row := tile / p.cols_
  let tile_col := tile % p.cols_
  -- Compute process coordinate of tile in the process grid
  let proc_row := tile_row % p.proc_rows_
  let proc_col := tile_col % p.proc_cols_
  -- Compute the process that owns tile
  let proc := size_type w (size_type w (proc_row * p.proc_cols_) + proc_col)
  TA_ASSERT (decide (proc < p.procs_))
  return proc

/-- The inner loop of the constructor in the arithmetic of a `size_type` of
`w` bits. The fuel is what the loop needs when `tile += proc_cols_` does not
wrap; the error `fuel` marks a run that goes on beyond that. -/
def ctor_tile_loop_wrap (w row_end : Nat) :
    Nat → Nat → CyclicPmap → Except Exception CyclicPmap
  | 0, tile, p => if tile < row_end then throw Exception.fuel else pure p
  | fuel + 1, tile, p =>
    if tile < row_end then do
      let o ← p.owner_wrap w tile
      TA_ASSERT (decide (o = p.rank_))
      ctor_tile_loop_wrap w row_end fuel (size_type w (tile + p.proc_cols_)) (p.push_back tile)
    else pure p

/-- The outer loop of the constructor in the arithmetic of a `size_type` of
`w` bits. The fuel is what the loop needs when `i += proc_rows_` does not
wrap; the error `fuel` marks a run that goes on beyond that. -/
def ctor_row_loop_wrap (w rank_col : Nat) :
    Nat → Nat → CyclicPmap → Except Exception CyclicPmap
  | 0, i, p => if i < p.rows_ then throw Exception.fuel else pure p
  | fuel + 1, i, p =>
    if i < p.rows_ then do
      let row_end := size_type w (size_type w (i + 1) * p.cols_)
      let tile := size_type w (size_type w (i * p.cols_) + rank_col)
      let p ← ctor_tile_loop_wrap w row_end (row_end - tile) tile p
      ctor_row_loop_wrap w rank_col fuel (size_type w (i + p.proc_rows_)) p
    else pure p

/-- The constructor `CyclicPmap::CyclicPmap(world, rows, cols, proc_rows,
proc_cols)` in the arithmetic of a `size_type` of `w` bits: the products
`rows * cols` and `proc_rows_ * proc_cols_` are the ones the machine
computes. -/
def new_wrap (w : Nat) (world : World) (rows cols proc_rows proc_cols : Nat) :
    Except Exception CyclicPmap := do
  let p : CyclicPmap :=
    { rank_ := world.rank, procs_ := world.size, size_ := size_type w (rows * cols),
      local_ := [], rows_ := rows, cols_ := cols, proc_cols_ := proc_cols,
      proc_rows_ := proc_rows, local_reserve := 0 }
  -- Check that the size is non-zero
  TA_ASSERT (decide (p.rows_ ≥ 1))
  TA_ASSERT (decide (p.cols_ ≥ 1))
  -- Check limits of process rows and columns
  TA_ASSERT (decide (p.proc_rows_ ≥ 1))
  TA_ASSERT (decide (p.proc_cols_ ≥ 1))
  TA_ASSERT (decide (size_type w (p.proc_rows_ * p.proc_cols_) ≤ p.procs_))
  -- Initialize local tile list
  if p.rank_ < size_type w (p.proc_rows_ * p.proc_cols_) then
    -- Compute rank coordinates
    let rank_row := p.rank_ / p.proc_cols_
    let rank_col := p.rank_ % p.proc_cols_
    let local_rows := size_type w
      ((p.rows_ / p.proc_rows_) + (if p.rows_ % p.proc_rows_ < rank_row then 1 else 0))
    let local_cols := size_type w
      ((p.cols_ / p.proc_cols_) + (if p.cols_ % p.proc_cols_ < rank_col then 1 else 0))
    -- Allocate memory for the local tile list
    let p := { p with local_reserve := size_type w (local_rows * local_cols) }
    -- Iterate over local tiles
    ctor_row_loop_wrap w rank_col (p.rows_ - rank_row) rank_row p
  else
    pure p

end CyclicPmap
end detail
end TiledArray


namespace TiledArray

/-- Modelled from the spec: class `Permutation` of `permutation.h`, which is not
part of the sources at hand. A permutation is stored as its image sequence;
the empty sequence is the distinguished null value that means "no
permutation". -/
structure Permutation where
  p_ : List Nat
  deriving DecidableEq

namespace Permutation

/-- Modelled from the spec: the conversion of a `Permutation` to `bool` used in
`if(perm_)`: `true` exactly when the permutation is not the null value. -/
def to_bool (perm : Permutation) : Bool := !perm.p_.isEmpty

/-- Modelled from the spec: `is_identity()`: the image sequence maps every
position to itself (the null permutation included). -/
def is_identity (perm : Permutation) : Bool := perm.p_ == List.range perm.p_.length

end Permutation

/-- An array tile: a lazy tile that carries a runtime consumable flag
(`is_consumable()`) and converts to the evaluated tile
(`eval_trait<L>::type eval_first(first)`). -/
structure ArrayTile (T : Type) where
  eval : T
  is_consumable : Bool
  deriving DecidableEq

namespace math

/-- The template arguments `<Result, Left, Right, LeftConsumable,
RightConsumable>` of a binary tile operation, which
`BinaryTileOpPolicy<Op<...>>` is specialised on. Tile types are values of
`Ty`; `std::is_same` is equality in `Ty`. -/
structure BinaryTileOpPolicy (Ty : Type) where
  Result : Ty
  Left : Ty
  Right : Ty
  LeftConsumable : Bool
  RightConsumable : Bool
  deriving DecidableEq

namespace BinaryTileOpPolicy

variable {Ty : Type} [DecidableEq Ty]

/-- `BinaryTileOpPolicy::left_is_consumable`:
`LeftConsumable && std::is_same<Result, Left>::value`. -/
def left_is_consumable (a : BinaryTileOpPolicy Ty) : Bool :=
  a.LeftConsumable && decide (a.Result = a.Left)

/-- `BinaryTileOpPolicy::right_is_consumable`:
`RightConsumable && std::is_same<Result, Right>::value`. -/
def right_is_consumable (a : BinaryTileOpPolicy Ty) : Bool :=
  a.RightConsumable && decide (a.Result = a.Right)

end BinaryTileOpPolicy

/-- What `BinaryInterfaceBase` and `BinaryInterface` use of their `Derived`
class: its template arguments, `permutation()`, and the evaluation kernels
`permute_op` and `no_permute_op<LC, RC>`, each with its overloads for a
`ZeroTensor` operand. `Out` is what a kernel yields. -/
structure Derived (Ty L R Out : Type) where
  policy : BinaryTileOpPolicy Ty
  permutation : Permutation
  permute_op : L → R → Out
  permute_op_zero_left : R → Out
  permute_op_zero_right : L → Out
  no_permute_op : Bool → Bool → L → R → Out
  no_permute_op_zero_left : Bool → Bool → R → Out
  no_permute_op_zero_right : Bool → Bool → L → Out

namespace BinaryInterfaceBase

variable {Ty L R Out : Type} [DecidableEq Ty]

/-- `BinaryInterfaceBase::operator()(first_argument_type, second_argument_type)`:
evaluate two non-zero tiles and possibly permute. -/
def call (derived : Derived Ty L R Out) (first : L) (second : R) : Out :=
  if derived.permutation.to_bool then
    derived.permute_op first second
  else
    derived.no_permute_op derived.policy.left_is_consumable
      derived.policy.right_is_consumable first second

/-- `BinaryInterfaceBase::operator()(ZeroTensor, second_argument_type)`. -/
def call_zero_left (derived : Derived Ty L R Out) (second : R) : Out :=
  if derived.permutation.to_bool then
    derived.permute_op_zero_left second
  else
    derived.no_permute_op_zero_left derived.policy.left_is_consumable
      derived.policy.right_is_consumable second

/-- `BinaryInterfaceBase::operator()(first_argument_type, ZeroTensor)`. -/
def call_zero_right (derived : Derived Ty L R Out) (first : L) : Out :=
  if derived.permutation.to_bool then
    derived.permute_op_zero_right first
  else
    derived.no_permute_op_zero_right derived.policy.left_is_consumable
      derived.policy.right_is_consumable first

end BinaryInterfaceBase

/-! The specialisation `BinaryInterface<Op<Result, Left, Right, false, false>>`:
operands that are array tiles carry their consumability at run time. -/
namespace BinaryInterface

variable {Ty L R Out : Type}

/-- `operator()(const L& first, const R& second)` for two array tiles. -/
def call_array_array (derived : Derived Ty L R Out) (first : ArrayTile L)
    (second : ArrayTile R) : Out :=
  let eval_first := first.eval
  let eval_second := second.eval
  if derived.permutation.to_bool then
    derived.permute_op eval_first eval_second
  else if first.is_consumable then
    derived.no_permute_op true false eval_first eval_second
  else if second.is_consumable then
    derived.no_permute_op false true eval_first eval_second
  else
    derived.no_permute_op false false eval_first eval_second

/-- `operator()(const L& first, R& second)` for an array tile and a non-lazy
tile. -/
def call_array_tile (derived : Derived Ty L R Out) (first : ArrayTile L) (second : R) : Out :=
  let eval_first := first.eval
  if derived.permutation.to_bool then
    derived.permute_op eval_first second
  else if first.is_consumable then
    derived.no_permute_op true false eval_first second
  else
    derived.no_permute_op false false eval_first second

/-- `operator()(L& first, const R& second)` for a non-lazy tile and an array
tile. -/
def call_tile_array (derived : Derived Ty L R Out) (first : L) (second : ArrayTile R) : Out :=
  let eval_second := second.eval
  if derived.permutation.to_bool then
    derived.permute_op first eval_second
  else if second.is_consumable then
    derived.no_permute_op false true first eval_second
  else
    derived.no_permute_op false false first eval_second

end BinaryInterface

/-- The calls `ScalMult` makes into the numeric tile kernels, which are
external to the dispatch: `mult(first, second, factor_, perm)`,
`mult(first, second, factor_)`, `mult_to(first, second, factor_)` (the product
is stored in `first`), `mult_to(second, first, factor_)` (the product is
stored in `second`), and the default-constructed `result_type()`. -/
inductive KernelCall (L R S : Type) where
  | mult_perm (first : L) (second : R) (factor : S) (perm : Permutation)
  | mult (first : L) (second : R) (factor : S)
  | mult_to_first (first : L) (second : R) (factor : S)
  | mult_to_second (second : R) (first : L) (factor : S)
  | result_type
  deriving DecidableEq

/-- Data of a `ScalMult<Result, Left, Right, LeftConsumable, RightConsumable>`
object: its template arguments, the permutation held by its `BinaryInterface`
base, and the scaling factor. -/
structure ScalMult (Ty S : Type) where
  policy : BinaryTileOpPolicy Ty
  perm_ : Permutation
  factor_ : S
  deriving DecidableEq

namespace ScalMult

variable {Ty L R S : Type}

/-- `ScalMult::permute_op(first_argument_type, second_argument_type)`. -/
def permute_op (op : ScalMult Ty S) (first : L) (second : R) :
    Except Exception (KernelCall L R S) :=
  pure (KernelCall.mult_perm first second op.factor_ op.perm_)

/-- `ScalMult::permute_op(ZeroTensor, const Right&)`. -/
def permute_op_zero_left (_op : ScalMult Ty S) (_second : R) :
    Except Exception (KernelCall L R S) := do
  TA_ASSERT false -- Invalid arguments for this operation
  return KernelCall.result_type

/-- `ScalMult::permute_op(const Left&, ZeroTensor)`. -/
def permute_op_zero_right (_op : ScalMult Ty S) (_first : L) :
    Except Exception (KernelCall L R S) := do
  TA_ASSERT false -- Invalid arguments for this operation
  return KernelCall.result_type

/-- `ScalMult::no_permute_op<LC, RC>` on two non-zero tiles. The three
overloads are enabled by `!(LC || RC)`, by `LC`, and by `!LC && RC`. -/
def no_permute_op (op : ScalMult Ty S) (LC RC : Bool) (first : L) (second : R) :
    Except Exception (KernelCall L R S) :=
  if !(LC || RC) then
    pure (KernelCall.mult first second op.factor_)
  else if LC then
    pure (KernelCall.mult_to_first first second op.factor_)
  else -- !LC && RC
    pure (KernelCall.mult_to_second second first op.factor_)

/-- `ScalMult::no_permute_op<LC, RC>(ZeroTensor, ...)`: one overload enabled by
`!RC` and one by `RC`. -/
def no_permute_op_zero_left (_op : ScalMult Ty S) (_LC RC : Bool) (_second : R) :
    Except Exception (KernelCall L R S) :=
  if !RC then do
    TA_ASSERT false -- Invalid arguments for this operation
    return KernelCall.result_type
  else do
    TA_ASSERT false -- Invalid arguments for this operation
    return KernelCall.result_type

/-- `ScalMult::no_permute_op<LC, RC>(..., ZeroTensor)`: one overload enabled by
`!LC` and one by `LC`. -/
def no_permute_op_zero_right (_op : ScalMult Ty S) (LC _RC : Bool) (_first : L) :
    Except Exception (KernelCall L R S) :=
  if !LC then do
    TA_ASSERT false -- Invalid arguments for this operation
    return KernelCall.result_type
  else do
    TA_ASSERT false -- Invalid arguments for this operation
    return KernelCall.result_type

/-- `ScalMult` seen through its base classes (`derived()`). -/
def derived (op : ScalMult Ty S) : Derived Ty L R (Except Exception (KernelCall L R S)) :=
  { policy := op.policy
    permutation := op.perm_
    permute_op := op.permute_op
    permute_op_zero_left := op.permute_op_zero_left
    permute_op_zero_right := op.permute_op_zero_right
    no_permute_op := op.no_permute_op
    no_permute_op_zero_left := op.no_permute_op_zero_left
    no_permute_op_zero_right := op.no_permute_op_zero_right }

end ScalMult

/-- The actions of the binary dispatch table of the specification. -/
inductive SpecAction where
  | out_of_place_permuted
  | out_of_place
  | in_place_left
  | in_place_right
  deriving DecidableEq

/-- The binary dispatch table in the words of the specification: its rows are
indexed by whether the permutation is not the identity, by
`lc ∧ type ≡ Result` and by `rc ∧ type ≡ Result`. -/
def spec_dispatch_table (non_id lc_and_type rc_and_type : Bool) : SpecAction :=
  match non_id, lc_and_type, rc_and_type with
  | true, _, _ => SpecAction.out_of_place_permuted
  | false, false, false => SpecAction.out_of_place
  | false, true, _ => SpecAction.in_place_left
  | false, false, true => SpecAction.in_place_right

/-- The table action a kernel call carries out; `result_type()` is none of
them. -/
def KernelCall.action {L R S : Type} : KernelCall L R S → Option SpecAction
  | KernelCall.mult_perm _ _ _ _ => some SpecAction.out_of_place_permuted
  | KernelCall.mult _ _ _ => some SpecAction.out_of_place
  | KernelCall.mult_to_first _ _ _ => some SpecAction.in_place_left
  | KernelCall.mult_to_second _ _ _ => some SpecAction.in_place_right
  | KernelCall.result_type => none

end math
end TiledArray


namespace TiledArray
namespace detail

/-- The four call forms a reduction operation `opT` offers to `ReduceTask`:
`op()` makes an empty result, `op(result)` post-processes the result,
`op(result, result)` reduces two result objects and `op(result, arg)` reduces
an argument. The two reducing forms update their first argument in place;
here they return its new value. -/
structure ReduceOp (R A : Type) where
  empty : R
  post : R → R
  combine : R → R → R
  fold : R → A → R

/-- The laws the specification asks of a reduction operation: `op(result,
result)` is associative and commutative, `op()` is its identity, and
`op(result, arg)` is compatible with it. -/
structure ReduceOp.Lawful {R A : Type} (op : ReduceOp R A) : Prop where
  assoc : ∀ a b c, op.combine (op.combine a b) c = op.combine a (op.combine b c)
  comm : ∀ a b, op.combine a b = op.combine b a
  empty_combine : ∀ a, op.combine op.empty a = a
  fold_combine : ∀ r a, op.fold r a = op.combine r (op.fold op.empty a)

namespace ReduceTask

/-!
## The reduce task as a transition system

`ReduceTask` runs on several threads. Its shared state, `ready_result_` and
`ready_object_`, is read and written only inside the critical sections of
`ready` and `reduce`; the dependency counter is atomic; everything else a
sub-task touches (its `result`, the argument objects it has taken) is its
own. An execution is therefore a sequence of events, each of which is one
critical section, one statement of a sub-task outside the lock, one call of
`add` or `submit` by the user, one callback of a future, or the final `run`.
Any interleaving of the threads is such a sequence, and `exec` runs one.

The runtime the task relies on is external and enters as follows: a future
is set at most once and then invokes each registered callback once; the task
queue invokes `run` once the task has been submitted and its dependency
counter is zero; a sub-task added to the task queue is executed by some
worker thread at some later time.
-/

/-- What the futures of an argument answer to `probe()` when the argument is
registered: one answer for a `Future<T>`, two for a pair of futures. -/
inductive Probe where
  | single (ready : Bool)
  | pair (first second : Bool)
  deriving DecidableEq

/-- `ReduceTaskImpl::ReduceObject`: the reduction argument `arg_` and the
dependency counter `count_`; `id` stands for the address of the heap object. -/
structure ReduceObject (A : Type) where
  id : Nat
  arg_ : A
  count_ : Int
  deriving DecidableEq

/-- `ReduceObject::register_callbacks`: `none` when the object is ready at once
(`parent_->ready(this)` is called), otherwise the value of `count_` once the
callbacks are registered. Registering a callback with a future that is
already set invokes `notify()` on the spot, which decrements `count_`. -/
def register_callbacks : Probe → Option Int
  | Probe.single ready => if ready then none else some 1
  | Probe.pair first second =>
    if first && second then none
    else
      let count_ : Int := 2
      let count_ := if first then count_ - 1 else count_
      let count_ := if second then count_ - 1 else count_
      some count_

/-- The statements of the sub-tasks `reduce_result_object` and
`reduce_object_object` and of the loop body of `reduce`, each executed by the
worker thread that runs the sub-task:
`new_result` is `std::shared_ptr<result_type> result(new result_type(op_()))`,
`fold object` is `op_(*result, object->arg())`,
`combine ready_result` is `op_(*result, *ready_result); ready_result.reset()`,
`destroy object` is `ReduceObject::destroy(object)`,
`reduce` is the head of the loop `while(result)` of `reduce(result)` with the
critical section of one iteration, and `dec` is `this->dec()`. -/
inductive Instr (R A : Type) where
  | new_result
  | fold (object : ReduceObject A)
  | combine (ready_result : R)
  | destroy (object : ReduceObject A)
  | reduce
  | dec

/-- A sub-task in the task queue: the local variable `result` (`none` is the
null pointer) and the statements it still has to execute. -/
structure SubTask (R A : Type) where
  result : Option R
  pc : List (Instr R A)

/-- `ReduceTaskImpl::reduce_result_object(result, object)`:
`op_(*result, object->arg()); destroy(object); reduce(result); this->dec();`. -/
def reduce_result_object {R A : Type} (result : R) (object : ReduceObject A) : SubTask R A :=
  { result := some result
    pc := [Instr.fold object, Instr.destroy object, Instr.reduce, Instr.dec] }

/-- `ReduceTaskImpl::reduce_object_object(object1, object2)`: make an empty
result, reduce the two arguments, destroy them, `reduce(result)`, and
decrement the dependency counter twice. -/
def reduce_object_object {R A : Type} (object1 object2 : ReduceObject A) : SubTask R A :=
  { result := none
    pc := [Instr.new_result, Instr.fold object1, Instr.fold object2, Instr.destroy object1,
      Instr.destroy object2, Instr.reduce, Instr.dec, Instr.dec] }

/-- The state of a `ReduceTask` and of its implementation object:
`ready_result_`, `ready_object_` and `result_` of `ReduceTaskImpl`; `ndep`, the
dependency counter of `madness::TaskInterface`; `count_` of `ReduceTask`;
`submitted`, set once `submit()` has handed the task to the task queue;
`ran` and `assert_failed`, set by `run`; `waiting`, the objects registered as
callbacks of futures that are not set yet; `taskq`, the sub-tasks spawned with
`world_.taskq.add`; and the history of the execution: the objects created by
`add`, those reduced by `op_(*result, object->arg())`, and those destroyed. -/
structure State (R A : Type) where
  ready_result_ : Option R
  ready_object_ : Option (ReduceObject A)
  result_ : Option R
  ndep : Int
  count_ : Nat
  submitted : Bool
  ran : Bool
  assert_failed : Bool
  waiting : List (ReduceObject A)
  taskq : List (SubTask R A)
  added : List (ReduceObject A)
  folded : List (ReduceObject A)
  destroyed : List (ReduceObject A)

/-- The constructors `ReduceTask(world, op, callback)` and
`ReduceTaskImpl(world, op, callback)`: one dependency, the ready result holds
`op()`, and no argument is ready. -/
def init {R A : Type} (op : ReduceOp R A) : State R A :=
  { ready_result_ := some op.empty
    ready_object_ := none
    result_ := none
    ndep := 1
    count_ := 0
    submitted := false
    ran := false
    assert_failed := false
    waiting := []
    taskq := []
    added := []
    folded := []
    destroyed := [] }

/-- `ReduceTaskImpl::ready(object)`: the critical section and the spawn that
follows it. -/
def ready {R A : Type} (s : State R A) (object : ReduceObject A) : State R A :=
  match s.ready_result_ with
  | some ready_result =>
    { s with
      ready_result_ := none
      taskq := s.taskq ++ [reduce_result_object ready_result object] }
  | none =>
    match s.ready_object_ with
    | some ready_object =>
      { s with
        ready_object_ := none
        taskq := s.taskq ++ [reduce_object_object object ready_object] }
    | none => { s with ready_object_ := some object }

/-- `ReduceTask::add(arg, callback)`: not available after `submit()`
(`MADNESS_ASSERT(pimpl_)`); `pimpl_->inc()`, then the new `ReduceObject`
registers its callbacks or reports itself ready, then `++count_`. -/
def add {R A : Type} (s : State R A) (arg : A) (probe : Probe) : Option (State R A) :=
  if s.submitted then none
  else
    let s := { s with ndep := s.ndep + 1 }
    let s :=
      match register_callbacks probe with
      | none =>
        let object : ReduceObject A := { id := s.count_, arg_ := arg, count_ := 0 }
        ready { s with added := s.added ++ [object] } object
      | some count_ =>
        let object : ReduceObject A := { id := s.count_, arg_ := arg, count_ := count_ }
        { s with added := s.added ++ [object], waiting := s.waiting ++ [object] }
    some { s with count_ := s.count_ + 1 }

/-- `ReduceObject::notify()` of the `j`-th waiting object, invoked when one of
its futures is set: `if((--count_) == 0) parent_->ready(this);`. -/
def notify {R A : Type} (s : State R A) (j : Nat) : Option (State R A) :=
  match s.waiting[j]? with
  | none => none
  | some object =>
    let object := { object with count_ := object.count_ - 1 }
    if object.count_ = 0 then
      some (ready { s with waiting := s.waiting.eraseIdx j } object)
    else
      some { s with waiting := s.waiting.set j object }

/-- One statement of the `i`-th sub-task, executed by a worker thread. The
critical section of `reduce` is executed as a whole; the statements outside
the lock are executed one at a time. Not defined when the sub-task has
finished, or when a statement would dereference a null `result`. -/
def task {R A : Type} (op : ReduceOp R A) (s : State R A) (i : Nat) : Option (State R A) :=
  match s.taskq[i]? with
  | none => none
  | some t =>
    match t.pc with
    | [] => none
    | Instr.new_result :: rest =>
      some { s with taskq := s.taskq.set i { result := some op.empty, pc := rest } }
    | Instr.fold object :: rest =>
      match t.result with
      | none => none
      | some result =>
        some { s with
          taskq := s.taskq.set i { result := some (op.fold result object.arg_), pc := rest }
          folded := s.folded ++ [object] }
    | Instr.combine ready_result :: rest =>
      match t.result with
      | none => none
      | some result =>
        some { s with
          taskq := s.taskq.set i { result := some (op.combine result ready_result), pc := rest } }
    | Instr.destroy object :: rest =>
      some { s with
        taskq := s.taskq.set i { t with pc := rest }
        destroyed := s.destroyed ++ [object] }
    | Instr.dec :: rest =>
      some { s with
        ndep := s.ndep - 1
        taskq := s.taskq.set i { t with pc := rest } }
    | Instr.reduce :: rest =>
      match t.result with
      | none =>
        -- while(result) is false
        some { s with taskq := s.taskq.set i { t with pc := rest } }
      | some result =>
        match s.ready_object_ with
        | some ready_object =>
          -- Get the ready argument
          some { s with
            ready_object_ := none
            taskq := s.taskq.set i { t with
              pc := Instr.fold ready_object :: Instr.destroy ready_object :: Instr.dec ::
                Instr.reduce :: rest } }
        | none =>
          match s.ready_result_ with
          | some ready_result =>
            -- Get the ready result
            some { s with
              ready_result_ := none
              taskq := s.taskq.set i { t with
                pc := Instr.combine ready_result :: Instr.reduce :: rest } }
          | none =>
            -- Nothing is ready, so place result in the ready state.
            some { s with
              ready_result_ := some result
              taskq := s.taskq.set i { result := none, pc := Instr.reduce :: rest } }

/-- `ReduceTask::submit()`: `pimpl_->dec(); world.taskq.add(pimpl_);
pimpl_ = nullptr;`. -/
def submit {R A : Type} (s : State R A) : Option (State R A) :=
  if s.submitted then none
  else some { s with ndep := s.ndep - 1, submitted := true }

/-- `ReduceTaskImpl::run`, which the task queue invokes once the task has been
submitted and its dependency counter is zero:
`MADNESS_ASSERT(ready_result_); result_.set(op_(*ready_result_));`. -/
def run {R A : Type} (op : ReduceOp R A) (s : State R A) : Option (State R A) :=
  if s.submitted && decide (s.ndep = 0) && !s.ran then
    match s.ready_result_ with
    | some ready_result => some { s with result_ := some (op.post ready_result), ran := true }
    | none => some { s with ran := true, assert_failed := true }
  else none

/-- What can happen next to a `ReduceTask`: the user adds an argument or
submits the task, a future of a waiting argument is set, a worker thread
executes a statement of a sub-task, or the task queue runs the task. -/
inductive Event (A : Type) where
  | add (arg : A) (probe : Probe)
  | notify (j : Nat)
  | task (i : Nat)
  | submit
  | run

/-- One step of an execution; `none` when the event cannot happen in `s`. -/
def step {R A : Type} (op : ReduceOp R A) (s : State R A) : Event A → Option (State R A)
  | Event.add arg probe => add s arg probe
  | Event.notify j => notify s j
  | Event.task i => task op s i
  | Event.submit => submit s
  | Event.run => run op s

/-- An execution: the events of a schedule, one after the other. -/
def exec {R A : Type} (op : ReduceOp R A) : List (Event A) → State R A → Option (State R A)
  | [], s => some s
  | e :: es, s =>
    match step op s e with
    | none => none
    | some s1 => exec op es s1

/-- `ReduceTask::~ReduceTask()`: `delete pimpl_;`. The argument is `pimpl_`
(`none` is the null pointer) with the state of the implementation object it
points to; the outcome is what is left of that object: nothing, since it is
deleted (deleting a null pointer does nothing). -/
def destructor {R A : Type} (pimpl_ : Option (State R A)) : Option (State R A) :=
  match pimpl_ with
  | some _ => none
  | none => none

/-- Summation of natural numbers as a reduction operation with no
post-processing. -/
def sum_op : ReduceOp Nat Nat :=
  { empty := 0, post := fun r => r, combine := fun a b => a + b, fold := fun r a => r + a }

/-- A schedule of a summation of three arguments: the first waits for its
future, the second is reduced into the initial result by a sub-task, the third
is parked and reduced together with the first by a second sub-task, which
then takes over the result of the first sub-task; the task is submitted and
run. -/
def example_schedule : List (Event Nat) :=
  [Event.add 5 (Probe.single false), Event.add 7 (Probe.single true),
    Event.add 9 (Probe.single true), Event.task 0, Event.notify 0, Event.task 0,
    Event.task 0, Event.task 0, Event.task 0, Event.task 1, Event.task 1, Event.task 1,
    Event.task 1, Event.task 1, Event.task 1, Event.task 1, Event.task 1, Event.task 1,
    Event.submit, Event.task 1, Event.task 1, Event.run]

/-- The same three arguments added in another order and reduced by another
schedule: all three are ready when added, and the task is submitted before
the sub-tasks start. -/
def example_schedule_permuted : List (Event Nat) :=
  [Event.add 9 (Probe.single true), Event.add 5 (Probe.single true),
    Event.add 7 (Probe.single true), Event.submit, Event.task 1, Event.task 0,
    Event.task 1, Event.task 0, Event.task 1, Event.task 1, Event.task 1, Event.task 0,
    Event.task 0, Event.task 0, Event.task 1, Event.task 1, Event.task 1, Event.task 1,
    Event.task 1, Event.task 1, Event.run]

/-- Summation of natural numbers whose post-processing `op(result)` adds one
to the sum, so that `op(op())` is 1 while `op()` is 0. -/
def offset_sum_op : ReduceOp Nat Nat :=
  { empty := 0, post := fun r => r + 1, combine := fun a b => a + b, fold := fun r a => r + a }

/-- The schedule of a reduction with no argument: the task is submitted and
run. -/
def empty_schedule : List (Event Nat) :=
  [Event.submit, Event.run]

/-! Measures of a state, used to state the invariants of an execution. -/

/-- What identifies an argument in the history: the object and its value. -/
def key {A : Type} (o : ReduceObject A) : Nat × A := (o.id, o.arg_)

/-- The arguments held by a list of objects, as a multiset. -/
def keys {A : Type} (l : List (ReduceObject A)) : Multiset (Nat × A) :=
  Multiset.ofList (l.map key)

/-- The argument a statement is about to reduce, if it is a `fold`. -/
def Instr.fold_keys {R A : Type} : Instr R A → Multiset (Nat × A)
  | Instr.fold object => {key object}
  | _ => 0

/-- The argument a statement is about to destroy, if it is a `destroy`. -/
def Instr.destroy_keys {R A : Type} : Instr R A → Multiset (Nat × A)
  | Instr.destroy object => {key object}
  | _ => 0

/-- Counts a statement `dec`. -/
def Instr.decs {R A : Type} : Instr R A → Nat
  | Instr.dec => 1
  | _ => 0

/-- The result object a statement `combine` holds. -/
def Instr.held {R A : Type} : Instr R A → List R
  | Instr.combine ready_result => [ready_result]
  | _ => []

/-- The arguments the sub-tasks of a task queue have still to reduce. -/
def taskq_folds {R A : Type} (q : List (SubTask R A)) : Multiset (Nat × A) :=
  (q.map (fun t => (t.pc.map Instr.fold_keys).sum)).sum

/-- The arguments the sub-tasks of a task queue have still to destroy. -/
def taskq_destroys {R A : Type} (q : List (SubTask R A)) : Multiset (Nat × A) :=
  (q.map (fun t => (t.pc.map Instr.destroy_keys).sum)).sum

/-- The number of decrements of the dependency counter the sub-tasks of a task
queue have still to make. -/
def taskq_decs {R A : Type} (q : List (SubTask R A)) : Nat :=
  (q.map (fun t => (t.pc.map Instr.decs).sum)).sum

/-- The result objects a sub-task holds: its `result` and those taken from the
ready slot and not combined yet. -/
def SubTask.held {R A : Type} (t : SubTask R A) : List R :=
  t.result.toList ++ (t.pc.map Instr.held).flatten

/-- All result objects of a state: the ready one and those held by sub-tasks. -/
def held {R A : Type} (s : State R A) : List R :=
  s.ready_result_.toList ++ (s.taskq.map SubTask.held).flatten

/-- Shape of the statements left to a sub-task: a sub-task with statements
left ends with a `dec`; it holds a `result` only while its loop `reduce` is
ahead; `new_result` can only be its next statement, is followed by `reduce`,
and is executed while `result` is still null. -/
structure SubTask.WF {R A : Type} (t : SubTask R A) : Prop where
  last_dec : t.pc = [] ∨ ∃ pc, t.pc = pc ++ [Instr.dec]
  result_reduce : t.result.isSome = true → Instr.reduce ∈ t.pc
  new_reduce : Instr.new_result ∈ t.pc → Instr.reduce ∈ t.pc
  new_head : Instr.new_result ∉ t.pc.tail
  new_none : Instr.new_result ∈ t.pc → t.result = none

/-- The invariant of every execution. The dependency counter counts the
pending `submit`, the arguments that wait for their futures, the parked
argument and the decrements the sub-tasks still owe; every added argument is
waiting, parked, about to be reduced by a sub-task, or reduced, and likewise
for destruction; objects are numbered in the order of their creation; once
`run` has been called the counter is zero, and `result_` holds the
post-processed ready result unless the assertion of `run` failed. -/
structure Inv {R A : Type} (op : ReduceOp R A) (s : State R A) : Prop where
  dep : s.ndep = (if s.submitted then 0 else 1) + (s.waiting.length : Int)
    + ((s.ready_object_.toList.length + taskq_decs s.taskq : Nat) : Int)
  folds : keys s.added = keys s.waiting
    + (keys s.ready_object_.toList + taskq_folds s.taskq) + keys s.folded
  destroys : keys s.added = keys s.waiting
    + (keys s.ready_object_.toList + taskq_destroys s.taskq) + keys s.destroyed
  wf : ∀ t ∈ s.taskq, t.WF
  ids : s.added.map (fun o => o.id) = List.range s.count_
  ran_dep : s.ran = true → s.ndep = 0 ∧ s.submitted = true
  result_ran : s.result_ = if s.ran then s.ready_result_.map op.post else none
  failed_ran : s.assert_failed = (s.ran && s.ready_result_.isNone)

/-- The state of a task no argument has been added to: the ready result still
holds `op()`, nothing waits, no sub-task exists, the dependency counter is 1
until `submit()` and 0 afterwards, and the result is unset until `run`, which
sets it to `op(op())`. -/
def Untouched {R A : Type} (op : ReduceOp R A) (s : State R A) : Prop :=
  s.ready_result_ = some op.empty ∧ s.ready_object_ = none ∧ s.waiting = [] ∧
  s.taskq = [] ∧ s.assert_failed = false ∧
  s.ndep = (if s.submitted then 0 else 1) ∧
  s.result_ = (if s.ran then some (op.post op.empty) else none)

/-- A sub-task holds an accumulator, or is about to make one: its `result` is
not null, or `new result_type(op_())` is its next statement. -/
def SubTask.live {R A : Type} (t : SubTask R A) : Prop :=
  t.result.isSome = true ∨ Instr.new_result ∈ t.pc

/-- An accumulator is alive: the slot `ready_result_` is occupied, or a
sub-task holds or is about to make one. -/
def Alive {R A : Type} (s : State R A) : Prop :=
  s.ready_result_.isSome = true ∨ ∃ t ∈ s.taskq, t.live

/-- An accumulator is held: the slot `ready_result_` is occupied, or the
`result` of a sub-task is not null. -/
def Holding {R A : Type} (s : State R A) : Prop :=
  s.ready_result_.isSome = true ∨ ∃ t ∈ s.taskq, t.result.isSome = true

/-- The two slots are not both occupied: while an argument is parked in
`ready_object_`, the slot `ready_result_` is empty. -/
def Exclusive {R A : Type} (s : State R A) : Prop :=
  s.ready_object_.isSome = true → s.ready_result_ = none

end ReduceTask
end detail
end TiledArray


namespace TiledArray

/-- Modelled from the spec: the base class `Pmap` of `pmap/pmap.h`, which is not
part of the sources at hand: the rank of this process, the number of
processes, the number of tiles, and the list of local tiles, which iteration
from `begin()` to `end()` yields in order. -/
structure Pmap where
  rank_ : Nat
  procs_ : Nat
  size_ : Nat
  local_ : List Nat
  deriving DecidableEq

/-- A `Future<T>` of the runtime: the value it holds or will hold, and what
`probe()` answers now. -/
structure Future (T : Type) where
  value : T
  probe : Bool
  deriving DecidableEq

/-- An initialised `Array`: `(world, tiled_range, shape, pmap, tile_store)`.
The tile store is the list of the calls `set(index, future)` made on the
array, in order. -/
structure Array (TR Sh Tile : Type) where
  world : World
  trange : TR
  shape : Sh
  pmap : Pmap
  tiles : List (Nat × Future Tile)
  deriving DecidableEq

/-- `Array::set(index, future)`. -/
def Array.set {TR Sh Tile : Type} (array : Array TR Sh Tile) (index : Nat)
    (tile : Future Tile) : Array TR Sh Tile :=
  { array with tiles := array.tiles ++ [(index, tile)] }

namespace expressions

/-- What `Expr` uses of a distributed evaluator (`dist_eval_type`): `id()`,
`get_world()`, `trange()`, `shape()`, `pmap()`, `is_zero(index)`,
`get(index)`, `eval()` and `wait()`. The last three can fail. -/
structure DistEval (TR Sh V : Type) where
  id : Nat
  world : World
  trange : TR
  shape : Sh
  pmap : Pmap
  is_zero : Nat → Bool
  get : Nat → Except Exception (Future V)
  eval : Except Exception Unit
  wait : Except Exception Unit

/-- The ordinals the iteration over `pmap()` yields for which `is_zero` is
false, in the order of the iteration: the local non-zero tiles. -/
def DistEval.local_nonzero {TR Sh V : Type} (dist_eval : DistEval TR Sh V) : List Nat :=
  dist_eval.pmap.local_.filter (fun t => !dist_eval.is_zero t)

/-- An expression engine after `init`: `pmap()`, `vars()` and
`make_dist_eval()`. -/
structure Engine (TR Sh V VL : Type) where
  pmap : Option Pmap
  vars : VL
  make_dist_eval : Except Exception (DistEval TR Sh V)

/-- What `Expr<Derived>` uses of its derived expression: the construction of
its engine, `engine_type engine(derived())`, followed by
`engine.init(world, pmap, target_vars)`. A null process-map pointer is
`none`. -/
structure Expr (TR Sh V VL : Type) where
  init : World → Option Pmap → VL → Except Exception (Engine TR Sh V VL)

/-- `TsrExpr<A>`: the array the expression refers to, which may be
uninitialised (`none`), and the variable string. -/
structure TsrExpr (TR Sh Tile : Type) where
  array_ : Option (Array TR Sh Tile)
  vars_ : String

/-- What `Expr` uses of its surroundings: `World::get_default()`, the
constructor `VariableList(const std::string&)`, which parses an annotation and
can fail, and the default constructor `VariableList()`. -/
structure Globals (VL : Type) where
  get_default : World
  variable_list : String → Except Exception VL
  empty_variable_list : VL

namespace Expr

variable {TR Sh V VL Tile R : Type}

/-- `Expr::set_tile(array, index, tile)`. For a lazy tile the future that is
stored is the one returned by `taskq.add(eval_tile<T>, tile)`, for any other
tile it is `tile` itself; `convert` is that step. -/
def set_tile (convert : Future V → Future Tile) (array : Array TR Sh Tile) (index : Nat)
    (tile : Future V) : Array TR Sh Tile :=
  array.set index (convert tile)

/-- The loop of `make_array` that moves the data from `dist_eval` into the
result array, entered with the part of the iteration over `dist_eval.pmap()`
that is still ahead. Returns the list of the indices `get` has been called
with, and the result array unless a call of `get` failed. -/
def move_tiles (dist_eval : DistEval TR Sh V) (convert : Future V → Future Tile) :
    List Nat → Array TR Sh Tile → List Nat → List Nat × Except Exception (Array TR Sh Tile)
  | [], result, gets => (gets, .ok result)
  | index :: it, result, gets =>
    if !dist_eval.is_zero index then
      match dist_eval.get index with
      | .error e => (gets ++ [index], .error e)
      | .ok tile => move_tiles dist_eval convert it (set_tile convert result index tile)
          (gets ++ [index])
    else
      move_tiles dist_eval convert it result gets

/-- `Expr::make_array<A>(world, pmap, target_vars)`. Returns the list of the
indices `dist_eval.get` has been called with, and the result array unless a
step failed. -/
def make_array (expr : Expr TR Sh V VL) (convert : Future V → Future Tile) (world : World)
    (pmap : Option Pmap) (target_vars : VL) :
    List Nat × Except Exception (Array TR Sh Tile) :=
  -- Construct the expression engine
  match expr.init world pmap target_vars with
  | .error e => ([], .error e)
  | .ok engine =>
    -- Create the distributed evaluator from this expression
    match engine.make_dist_eval with
    | .error e => ([], .error e)
    | .ok dist_eval =>
      match dist_eval.eval with
      | .error e => ([], .error e)
      | .ok _ =>
        -- Create the result array
        let result : Array TR Sh Tile :=
          { world := dist_eval.world, trange := dist_eval.trange, shape := dist_eval.shape,
            pmap := dist_eval.pmap, tiles := [] }
        -- Move the data from dist_eval into the result array
        match move_tiles dist_eval convert dist_eval.pmap.local_ result [] with
        | (gets, .error e) => (gets, .error e)
        | (gets, .ok result) =>
          -- Wait for child expressions of dist_eval
          match dist_eval.wait with
          | .error e => (gets, .error e)
          | .ok _ => (gets, .ok result)

/-- `Expr::eval_to(tsr)`. Returns the state of `tsr` afterwards and whether
the evaluation failed. -/
def eval_to (globals : Globals VL) (expr : Expr TR Sh V VL)
    (convert : Future V → Future Tile) (tsr : TsrExpr TR Sh Tile) :
    TsrExpr TR Sh Tile × Except Exception Unit :=
  -- Get the target world.
  let world : World :=
    match tsr.array_ with
    | some array => array.world
    | none => globals.get_default
  -- Get the output process map.
  let pmap : Option Pmap :=
    match tsr.array_ with
    | some array => some array.pmap
    | none => none
  -- Get result variable list.
  match globals.variable_list tsr.vars_ with
  | .error e => (tsr, .error e)
  | .ok target_vars =>
    match (make_array expr convert world pmap target_vars).2 with
    | .error e => (tsr, .error e)
    | .ok result =>
      -- Swap the new array with the result array object.
      ({ tsr with array_ := some result }, .ok ())

/-- What a reduction has done so far: the indices `get` has been called with
on the left (or only) evaluator and on the right one, and the calls made on
the local reduction task. -/
structure ReduceTrace (A : Type) where
  left_gets : List Nat
  right_gets : List Nat
  task_events : List (detail.ReduceTask.Event A)

/-- The future a reduction returns:
`world.gop.all_reduce(key_type(dist_eval.id()), reduce_task.submit(), op)`,
the all-reduce under `op`, keyed by the identifier of the evaluator, of the
future that `submit()` of the local reduction task returns. -/
structure AllReduce (R A : Type) where
  key : Nat
  op : detail.ReduceOp R A

/-- The loop of the unary `reduce` that moves the data from `dist_eval` into
the local reduction task. -/
def reduce_loop (dist_eval : DistEval TR Sh V) :
    List Nat → ReduceTrace V → ReduceTrace V × Except Exception Unit
  | [], trace => (trace, .ok ())
  | index :: it, trace =>
    if !dist_eval.is_zero index then
      match dist_eval.get index with
      | .error e => ({ trace with left_gets := trace.left_gets ++ [index] }, .error e)
      | .ok tile =>
        reduce_loop dist_eval it
          { trace with
            left_gets := trace.left_gets ++ [index]
            task_events := trace.task_events ++
              [detail.ReduceTask.Event.add tile.value (detail.ReduceTask.Probe.single tile.probe)] }
    else
      reduce_loop dist_eval it trace

/-- The unary `Expr::reduce(op, world)`. The reduction operation handed to the
local reduction task is `op` wrapped so that it accepts the tiles of the
evaluator. -/
def reduce (globals : Globals VL) (expr : Expr TR Sh V VL) (op : detail.ReduceOp R V)
    (world : World) : ReduceTrace V × Except Exception (AllReduce R V) :=
  -- Construct the expression engine
  match expr.init world none globals.empty_variable_list with
  | .error e => (⟨[], [], []⟩, .error e)
  | .ok engine =>
    -- Create the distributed evaluator from this expression
    match engine.make_dist_eval with
    | .error e => (⟨[], [], []⟩, .error e)
    | .ok dist_eval =>
      match dist_eval.eval with
      | .error e => (⟨[], [], []⟩, .error e)
      | .ok _ =>
        -- Move the data from dist_eval into the local reduction task
        match reduce_loop dist_eval dist_eval.pmap.local_ ⟨[], [], []⟩ with
        | (trace, .error e) => (trace, .error e)
        | (trace, .ok _) =>
          -- All reduce the result of the expression
          ({ trace with task_events := trace.task_events ++ [detail.ReduceTask.Event.submit] },
            .ok { key := dist_eval.id, op := op })

/-- The loop of the binary `reduce` that moves the data from the two
evaluators into the local pair-reduction task. -/
def reduce_pair_loop {VR : Type} (left_dist_eval : DistEval TR Sh V)
    (right_dist_eval : DistEval TR Sh VR) :
    List Nat → ReduceTrace (V × VR) → ReduceTrace (V × VR) × Except Exception Unit
  | [], trace => (trace, .ok ())
  | index :: it, trace =>
    let left_not_zero := !left_dist_eval.is_zero index
    let right_not_zero := !right_dist_eval.is_zero index
    if left_not_zero && right_not_zero then
      match left_dist_eval.get index with
      | .error e => ({ trace with left_gets := trace.left_gets ++ [index] }, .error e)
      | .ok left =>
        match right_dist_eval.get index with
        | .error e =>
          ({ trace with
              left_gets := trace.left_gets ++ [index]
              right_gets := trace.right_gets ++ [index] }, .error e)
        | .ok right =>
          reduce_pair_loop left_dist_eval right_dist_eval it
            { left_gets := trace.left_gets ++ [index]
              right_gets := trace.right_gets ++ [index]
              task_events := trace.task_events ++
                [detail.ReduceTask.Event.add (left.value, right.value)
                  (detail.ReduceTask.Probe.pair left.probe right.probe)] }
    else
      -- if(left_not_zero) left_dist_eval.get(index);
      let left_done : ReduceTrace (V × VR) × Except Exception Unit :=
        if left_not_zero then
          match left_dist_eval.get index with
          | .error e => ({ trace with left_gets := trace.left_gets ++ [index] }, .error e)
          | .ok _ => ({ trace with left_gets := trace.left_gets ++ [index] }, .ok ())
        else (trace, .ok ())
      match left_done with
      | (trace, .error e) => (trace, .error e)
      | (trace, .ok _) =>
        -- if(right_not_zero) right_dist_eval.get(index);
        if right_not_zero then
          match right_dist_eval.get index with
          | .error e => ({ trace with right_gets := trace.right_gets ++ [index] }, .error e)
          | .ok _ =>
            reduce_pair_loop left_dist_eval right_dist_eval it
              { trace with right_gets := trace.right_gets ++ [index] }
        else
          reduce_pair_loop left_dist_eval right_dist_eval it trace

/-- The binary `Expr::reduce(right_expr, op, world)`. `debug` says that
`NDEBUG` is not defined; the message printed on rank 0 before the exception
is not modelled. -/
def reduce_pair {VR : Type} [DecidableEq TR] (globals : Globals VL) (debug : Bool)
    (expr : Expr TR Sh V VL) (right_expr : Expr TR Sh VR VL)
    (op : detail.ReduceOp R (V × VR)) (world : World) :
    ReduceTrace (V × VR) × Except Exception (AllReduce R (V × VR)) :=
  -- Evaluate this expression
  match expr.init world none globals.empty_variable_list with
  | .error e => (⟨[], [], []⟩, .error e)
  | .ok left_engine =>
    -- Create the distributed evaluator for this expression
    match left_engine.make_dist_eval with
    | .error e => (⟨[], [], []⟩, .error e)
    | .ok left_dist_eval =>
      match left_dist_eval.eval with
      | .error e => (⟨[], [], []⟩, .error e)
      | .ok _ =>
        -- Evaluate the right-hand expression
        match right_expr.init world left_engine.pmap left_engine.vars with
        | .error e => (⟨[], [], []⟩, .error e)
        | .ok right_engine =>
          -- Create the distributed evaluator for the right-hand expression
          match right_engine.make_dist_eval with
          | .error e => (⟨[], [], []⟩, .error e)
          | .ok right_dist_eval =>
            match right_dist_eval.eval with
            | .error e => (⟨[], [], []⟩, .error e)
            | .ok _ =>
              if debug && decide (left_dist_eval.trange ≠ right_dist_eval.trange) then
                (⟨[], [], []⟩, TA_EXCEPTION)
              else
                -- Move the data from dist_eval into the local reduction task
                match reduce_pair_loop left_dist_eval right_dist_eval
                    left_dist_eval.pmap.local_ ⟨[], [], []⟩ with
                | (trace, .error e) => (trace, .error e)
                | (trace, .ok _) =>
                  ({ trace with
                      task_events := trace.task_events ++ [detail.ReduceTask.Event.submit] },
                    .ok { key := left_dist_eval.id, op := op })

/-- The process map of a 4-tile array on a single process: every tile is
local. -/
def example_pmap : Pmap :=
  { rank_ := 0, procs_ := 1, size_ := 4, local_ := [0, 1, 2, 3] }

/-- An evaluator with the zero mask `mask` (a tile beyond the mask is zero):
the non-zero tile `t` holds the value `10 * t + 1`, and `get` of a zero tile
fails. -/
def example_dist_eval (world : World) (pmap : Pmap) (trange : List Nat) (mask : List Bool)
    (wait : Except Exception Unit) : DistEval (List Nat) (List Bool) Nat :=
  { id := 7, world := world, trange := trange, shape := mask, pmap := pmap,
    is_zero := fun t => mask.getD t true,
    get := fun t =>
      if mask.getD t true then throw Exception.assertion
      else pure { value := 10 * t + 1, probe := true },
    eval := pure (), wait := wait }

/-- An expression whose evaluator is `example_dist_eval` on the given world and
process map, or on `example_pmap` when the process map is null. -/
def example_expr (trange : List Nat) (mask : List Bool) (wait : Except Exception Unit) :
    Expr (List Nat) (List Bool) Nat String :=
  { init := fun world pmap vars =>
      pure
        { pmap := some (pmap.getD example_pmap), vars := vars,
          make_dist_eval :=
            pure (example_dist_eval world (pmap.getD example_pmap) trange mask wait) } }

/-- An expression that checks the inputs of `init` against the expected
ones and fails on any other; on the expected inputs it is `example_expr`. -/
def example_probe_expr (world : World) (pmap : Option Pmap) (vars : String)
    (trange : List Nat) (mask : List Bool) : Expr (List Nat) (List Bool) Nat String :=
  { init := fun w p v =>
      if w = world ∧ p = pmap ∧ v = vars then (example_expr trange mask (pure ())).init w p v
      else throw Exception.assertion }

/-- An initialised 2-tile array on rank 1 of a world of 3 processes, which
holds the tile 1. -/
def example_array : Array (List Nat) (List Bool) Nat :=
  { world := ⟨1, 3⟩, trange := [0, 2], shape := [true, false],
    pmap := { rank_ := 1, procs_ := 3, size_ := 2, local_ := [1] },
    tiles := [(1, { value := 5, probe := true })] }

/-- Surroundings in which the default world has one process and a variable
list is its annotation string. -/
def example_globals : Globals String :=
  { get_default := ⟨0, 1⟩, variable_list := fun s => pure s, empty_variable_list := "" }

/-- The dot product as a pair-reduction operation. -/
def dot_op : detail.ReduceOp Nat (Nat × Nat) :=
  { empty := 0, post := fun r => r, combine := fun a b => a + b,
    fold := fun r a => r + a.1 * a.2 }

end Expr
end expressions
end TiledArray


namespace TiledArray
namespace math

/-- Modelled from the spec: the tile kernels `clone` and `permute` of the
numeric collaborator (section 6), which are not part of the sources at hand.
`value` is what two tiles equal in value agree on (range and elements) and
`data` is the address of the storage of a tile. A clone has the value of the
tile it is cloned from, and `clone` and `permute`, being out-of-place, return
a tile in storage of its own. -/
structure TileKernels (T Val : Type) where
  value : T → Val
  data : T → Nat
  clone : T → T
  permute : T → Permutation → T
  clone_value : ∀ a, value (clone a) = value a
  clone_data : ∀ a, data (clone a) ≠ data a
  permute_data : ∀ a perm, data (permute a perm) ≠ data a

/-- The template arguments `<Result, Arg, Consumable>` of a unary tile
operation. -/
structure UnaryTileOpPolicy (Ty : Type) where
  Result : Ty
  Arg : Ty
  Consumable : Bool
  deriving DecidableEq

/-- Modelled from the spec: `is_consumable` of `UnaryInterface`
(`unary_interface.h` is not part of the sources at hand), which mirrors
`BinaryTileOpPolicy::left_is_consumable`:
`Consumable && std::is_same<Result, Arg>::value`. -/
def UnaryTileOpPolicy.is_consumable {Ty : Type} [DecidableEq Ty]
    (a : UnaryTileOpPolicy Ty) : Bool :=
  a.Consumable && decide (a.Result = a.Arg)

/-- Data of a `Noop<Result, Arg, Consumable>` object: its template arguments
and the permutation held by its `UnaryInterface` base. -/
structure Noop (Ty : Type) where
  policy : UnaryTileOpPolicy Ty
  perm_ : Permutation
  deriving DecidableEq

namespace Noop

variable {Ty T Val : Type}

/-- The default constructor `Noop()`: "a no operation that does not permute
the result tile"; the base is default-constructed and holds the null
permutation. -/
def new (policy : UnaryTileOpPolicy Ty) : Noop Ty :=
  { policy := policy, perm_ := ⟨[]⟩ }

/-- The permute constructor `Noop(const Permutation& perm)`. -/
def new_perm (policy : UnaryTileOpPolicy Ty) (perm : Permutation) : Noop Ty :=
  { policy := policy, perm_ := perm }

/-- `Noop::permute_op(const Arg& arg)`: `permute(arg, permutation())`. -/
def permute_op (kernels : TileKernels T Val) (op : Noop Ty) (arg : T) : T :=
  kernels.permute arg op.perm_

/-- `Noop::no_permute_op<C>`: the overload enabled by `!C` returns
`clone(arg)`, the one enabled by `C` returns `arg`. -/
def no_permute_op (kernels : TileKernels T Val) (C : Bool) (arg : T) : T :=
  if !C then kernels.clone arg else arg

end Noop

/-- Modelled from the spec: `UnaryInterface::operator()(argument_type)`, which
is not part of the sources at hand. Unary dispatch mirrors
`BinaryInterfaceBase::operator()` with a single argument: the permuting
kernel with a non-null permutation, otherwise `no_permute_op<is_consumable>`. -/
def UnaryInterface.call {Ty T Val : Type} [DecidableEq Ty] (kernels : TileKernels T Val)
    (op : Noop Ty) (arg : T) : T :=
  if op.perm_.to_bool then
    op.permute_op kernels arg
  else
    Noop.no_permute_op kernels op.policy.is_consumable arg

/-- A one-dimensional tensor for examples: the address of its storage and its
elements. -/
structure ExampleTensor where
  data : Nat
  elems : List Int
  deriving DecidableEq

/-- Tile kernels for `ExampleTensor`: a clone and a permuted tile are stored
at the next address; permuting moves element `i` to position `perm[i]`. -/
def example_kernels : TileKernels ExampleTensor (List Int) :=
  { value := fun a => a.elems
    data := fun a => a.data
    clone := fun a => { data := a.data + 1, elems := a.elems }
    permute := fun a perm =>
      { data := a.data + 1
        elems := (List.range a.elems.length).map
          (fun j => a.elems.getD (perm.p_.indexOf j) 0) }
    clone_value := fun _ => rfl
    clone_data := fun a => Nat.succ_ne_self a.data
    permute_data := fun a _ => Nat.succ_ne_self a.data }

end math
end TiledArray


namespace TiledArray
namespace math

/-- `std::lexicographical_compare(first1, last1, first2, last2)` of the C++
standard library on two sequences of integers: `true` exactly when the first
sequence comes strictly before the second in lexicographic order. -/
def lexicographical_compare : List Int → List Int → Bool
  | [], [] => false
  | [], _ :: _ => true
  | _ :: _, [] => false
  | a :: l1, b :: l2 =>
    if a < b then true
    else if b < a then false
    else lexicographical_compare l1 l2

/-- Modelled from the spec: the three-argument form
`TA_ASSERT(cond, exception, message)` of `error.h`, which is not part of the
sources at hand: a failed check raises the exception with the message, a
check that holds does nothing. The error is modelled by its message. -/
def TA_ASSERT_MSG (cond : Bool) (message : String) : Except String Unit :=
  if cond then pure () else throw message

namespace ContractedArray

/-- `ContractedArray::get_common_range_iterators(first, d1, d2)`: the pair of
iterators `(first + d1, first + d2)`, here the part of the sequence they
delimit. -/
def get_common_range_iterators (first : List Int) (d1 d2 : Nat) : List Int :=
  (first.drop d1).take (d2 - d1)

/-- The checks of the size-based constructor
`ContractedArray(lsize, lvars, rsize, rvars, o)`. `lvars_common` and
`rvars_common` are the positions `find_common` (of `variable_list.h`, not part
of the sources at hand) returns for the common variables in `lvars` and in
`rvars`, as distances from `begin()`. The computation of the result
dimensions, which follows the check, is not modelled. -/
def new_sizes (lsize rsize : List Int) (lvars_common rvars_common : Nat × Nat) :
    Except String Unit := do
  let lsize_common := get_common_range_iterators lsize lvars_common.1 lvars_common.2
  let rsize_common := get_common_range_iterators rsize rvars_common.1 rvars_common.2
  TA_ASSERT_MSG (lexicographical_compare lsize_common rsize_common)
    "The common start dimensions do not match."

/-- The checks of the bounds-based constructor
`ContractedArray(lstart, lfinish, lvars, rstart, rfinish, rvars, o)`, with
`lvars_common` and `rvars_common` as in `new_sizes`. The computation of the
result dimensions, which follows the checks, is not modelled. -/
def new_bounds (lstart lfinish rstart rfinish : List Int)
    (lvars_common rvars_common : Nat × Nat) : Except String Unit := do
  let lstart_common := get_common_range_iterators lstart lvars_common.1 lvars_common.2
  let rstart_common := get_common_range_iterators rstart rvars_common.1 rvars_common.2
  let lfinish_common := get_common_range_iterators lfinish lvars_common.1 lvars_common.2
  let rfinish_common := get_common_range_iterators rfinish rvars_common.1 rvars_common.2
  TA_ASSERT_MSG (lexicographical_compare lstart_common rstart_common)
    "The common start dimensions do not match."
  TA_ASSERT_MSG (lexicographical_compare lfinish_common rfinish_common)
    "The common finish dimensions do not match."

/-- Modelled from the spec: the product `lvars * rvars` of two variable lists
(`variable_list.h` is not part of the sources at hand): "the ordered union
minus the intersection (contracted indices); order follows A's surviving axes
then B's". -/
def vars_product (lvars rvars : List String) : List String :=
  lvars.filter (fun v => !rvars.contains v) ++ rvars.filter (fun v => !lvars.contains v)

/-- The members `size_`, `start_` and `finish_` of a `ContractedArray`. -/
structure Dims where
  size_ : List Int
  start_ : List Int
  finish_ : List Int
  deriving DecidableEq

/-- The loop of the size-based constructor that finds the dimensions of the
result tile, entered with the part of `vars_` still ahead; it returns the
entries of `size_` and of `finish_` it writes, or `none` when it reads outside
`lsize`. `std::find` followed by `std::distance` is the position of the
variable, the length of the list when it is absent. -/
def size_loop (lsize : List Int) (lvars rvars : List String) :
    List String → Option (List Int × List Int)
  | [] => some ([], [])
  | v :: vars =>
    let entry : Option Int :=
      if lvars.indexOf v ≠ lvars.length then
        let n := lvars.indexOf v
        -- *size_it = *finish_it = lsize[n];
        lsize[n]?
      else
        let n := rvars.indexOf v
        -- *size_it = *finish_it = lsize[n];
        lsize[n]?
    match entry, size_loop lsize lvars rvars vars with
    | some e, some (size_, finish_) => some (e :: size_, e :: finish_)
    | _, _ => none

/-- The loop of the bounds-based constructor that finds the dimensions of the
result tile; it returns the entries of `size_`, `start_` and `finish_` it
writes, or `none` when it reads outside a vector. -/
def bounds_loop (lstart lfinish rstart rfinish : List Int) (lvars rvars : List String) :
    List String → Option Dims
  | [] => some ⟨[], [], []⟩
  | v :: vars =>
    let entry : Option (Int × Int) :=
      if lvars.indexOf v ≠ lvars.length then
        let n := lvars.indexOf v
        match lstart[n]?, lfinish[n]? with
        | some s, some f => some (s, f)
        | _, _ => none
      else
        let n := rvars.indexOf v
        match rstart[n]?, rfinish[n]? with
        | some s, some f => some (s, f)
        | _, _ => none
    match entry, bounds_loop lstart lfinish rstart rfinish lvars rvars vars with
    | some (s, f), some d =>
      some { size_ := (f - s) :: d.size_, start_ := s :: d.start_, finish_ := f :: d.finish_ }
    | _, _ => none

/-- The size-based constructor `ContractedArray(lsize, lvars, rsize, rvars, o)`
up to the dimensions of the result tile: the check of `new_sizes`, then
`size_`, `start_` and `finish_` resized to `vars_.dim()` zeros and filled by
`size_loop`. The packed sizes are not modelled. -/
def new_from_sizes (lsize : List Int) (lvars : List String) (rsize : List Int)
    (rvars : List String) (lvars_common rvars_common : Nat × Nat) :
    Except String (Option Dims) := do
  let vars_ := vars_product lvars rvars
  new_sizes lsize rsize lvars_common rvars_common
  -- find dimensions of the result tile
  match size_loop lsize lvars rvars vars_ with
  | some (size_, finish_) =>
    pure (some { size_ := size_, start_ := List.replicate vars_.length 0, finish_ := finish_ })
  | none => pure none

end ContractedArray

end math
end TiledArray


namespace TiledArray

/-- What `to_sparse` uses of the array, tensor and shape classes, which are
not part of the sources at hand: the number of tiles
`trange().tiles().volume()`, the value `0.0` a norm tensor is filled with,
`norm()` and `clone()` of a tile, the constructor
`SparseShape<float>(world, tile_norms, trange)`, `is_zero(ord)` of the shape
of an array, and the process map the constructor `Array(world, trange, shape)`
chooses. -/
structure SparseEnv (TR Sh Tile N : Type) where
  tiles_volume : TR → Nat
  zero : N
  norm : Tile → N
  clone : Tile → Tile
  sparse_shape : World → List N → TR → Sh
  is_zero : Sh → Nat → Bool
  default_pmap : World → TR → Pmap

namespace to_sparse

variable {TR DSh Sh Tile N : Type}

/-- The first loop of `to_sparse`: for every local tile of the dense array,
`tile_norms[it.ordinal()] = it->get().norm()`. Entered with the part of the
iteration from `begin()` to `end()` that is still ahead. -/
def norms_loop (env : SparseEnv TR Sh Tile N) : List (Nat × Future Tile) → List N → List N
  | [], tile_norms => tile_norms
  | it :: rest, tile_norms =>
    norms_loop env rest (tile_norms.set it.1 (env.norm it.2.value))

/-- The norm tensor `to_sparse` hands to the shape constructor:
`Tensor<float> tile_norms(dense_array.trange().tiles(), 0.0)` after the first
loop. -/
def tile_norms (env : SparseEnv TR Sh Tile N) (dense_array : Array TR DSh Tile) : List N :=
  norms_loop env dense_array.tiles
    (List.replicate (env.tiles_volume dense_array.trange) env.zero)

/-- The second loop of `to_sparse`: for every local tile of the dense array,
`if (!sparse_array.is_zero(ord)) sparse_array.set(ord, it->get().clone())`. -/
def set_loop (env : SparseEnv TR Sh Tile N) :
    List (Nat × Future Tile) → Array TR Sh Tile → Array TR Sh Tile
  | [], sparse_array => sparse_array
  | it :: rest, sparse_array =>
    let ord := it.1
    if !env.is_zero sparse_array.shape ord then
      set_loop env rest (sparse_array.set ord { value := env.clone it.2.value, probe := true })
    else
      set_loop env rest sparse_array

end to_sparse

/-- The overload `to_sparse(Array<T, DIM, Tile, DensePolicy> const&)`. The
iteration from `dense_array.begin()` to `dense_array.end()` visits the local
tiles, which are the entries of `tiles`. -/
def to_sparse {TR DSh Sh Tile N : Type} (env : SparseEnv TR Sh Tile N)
    (dense_array : Array TR DSh Tile) : Array TR Sh Tile :=
  -- Constructing a tensor to hold the norm of each tile in the Dense Array
  let tile_norms := to_sparse.tile_norms env dense_array
  -- Construct a sparse shape
  let shape := env.sparse_shape dense_array.world tile_norms dense_array.trange
  let sparse_array : Array TR Sh Tile :=
    { world := dense_array.world, trange := dense_array.trange, shape := shape,
      pmap := env.default_pmap dense_array.world dense_array.trange, tiles := [] }
  -- Loop over the local dense tiles
  to_sparse.set_loop env dense_array.tiles sparse_array

/-- The overload `to_sparse(Array<T, DIM, Tile, SparsePolicy> const&)`:
`return sparse_array;`. -/
def to_sparse_of_sparse {TR Sh Tile : Type} (sparse_array : Array TR Sh Tile) :
    Array TR Sh Tile :=
  sparse_array

/-- A dense 4-tile array on one process for examples: the tiles hold the
vectors `[3, 4]`, `[0, 0]`, `[0, 0]` and `[1, 0]`. -/
def example_dense_array : Array (List Nat) Unit (List Int) :=
  { world := ⟨0, 1⟩, trange := [0, 2, 4, 6, 8], shape := (),
    pmap := { rank_ := 0, procs_ := 1, size_ := 4, local_ := [0, 1, 2, 3] },
    tiles := [(0, ⟨[3, 4], true⟩), (1, ⟨[0, 0], true⟩), (2, ⟨[0, 0], true⟩),
      (3, ⟨[1, 0], true⟩)] }

/-- Surroundings for examples: the norm of a tile is the sum of the squares
of its elements, the shape is the norm tensor itself, and a tile is zero when
its norm is. -/
def example_sparse_env : SparseEnv (List Nat) (List Int) (List Int) Int :=
  { tiles_volume := fun trange => trange.length - 1
    zero := 0
    norm := fun tile => (tile.map (fun x => x * x)).sum
    clone := fun tile => tile
    sparse_shape := fun _ tile_norms _ => tile_norms
    is_zero := fun shape ord => shape.getD ord 0 == 0
    default_pmap := fun world _ =>
      { rank_ := world.rank, procs_ := world.size, size_ := 4, local_ := [0, 1, 2, 3] } }

end TiledArray


namespace TiledArray
namespace math

/-!
## The outer-product kernels of `math/outer.h`

A pointer is a memory, a function from offsets to elements, together with the
offset it points to; a block is a function on `0 .. TILEDARRAY_LOOP_UNWIND - 1`.
The unwinding width `TILEDARRAY_LOOP_UNWIND` is the parameter `W`. A loop
`for(; i < mx; i += W)` with `mx` a multiple of `W` visits `i = b * W` for
`b < mx / W`.
-/

section binders

variable {T A : Type}

/-- `bind_first(t, op)` for a value-returning `op`
(`BinderFirstHelper::operator()`): `op_(t_, arg)`. -/
def bind_first (t : T) (op : T → T → A) : T → A :=
  fun arg => op t arg

/-- `bind_first(t, op)` for an in-place `op` (`BinderFirstHelper<T, Op, void>`):
`op_(result, t_, arg)`. -/
def bind_first_void (t : T) (op : A → T → T → A) : A → T → A :=
  fun result arg => op result t arg

/-- `bind_second(t, op)` for a value-returning `op`
(`BinderSecondHelper::operator()`): `op_(t_, arg)`, as the source has it. The
bound value is passed where the left operand goes, so the two element types
of `op` are one type here. -/
def bind_second (t : T) (op : T → T → A) : T → A :=
  fun arg => op t arg

/-- `bind_second(t, op)` for an in-place `op`
(`BinderSecondHelper<T, Op, void>`): `op_(result, arg, t_)`. -/
def bind_second_void (t : T) (op : A → T → T → A) : A → T → A :=
  fun result arg => op result arg t

end binders

namespace VecOpUnwindN

variable {T A : Type}

/-- Modelled from the spec: `VecOpUnwindN::copy(arg, result)` of
`vector_op.h`, which is not part of the sources at hand, reading from memory
into a block: `result[k] = arg[k]` for `k < W`. The specification leaves the
vector kernels to the numeric collaborator; their meaning is taken from their
use in `outer.h`. -/
def load (arg : Nat → A) (off : Nat) : Nat → A :=
  fun k => arg (off + k)

/-- Modelled from the spec: `VecOpUnwindN::scatter(arg, result, stride)` of
`vector_op.h`, which is not part of the sources at hand:
`result[k * stride] = arg[k]` for `k < W`. -/
def scatter (W : Nat) (arg : Nat → A) (result : Nat → A) (off stride : Nat) : Nat → A :=
  (List.range W).foldl (fun r k => Function.update r (off + k * stride) (arg k)) result

/-- Modelled from the spec: `VecOpUnwindN::copy(arg, result)` of
`vector_op.h`, which is not part of the sources at hand, writing a block to
memory: `result[k] = arg[k]` for `k < W`. -/
def store (W : Nat) (arg : Nat → A) (result : Nat → A) (off : Nat) : Nat → A :=
  scatter W arg result off 1

/-- Modelled from the spec: `VecOpUnwindN::gather(arg, result, stride)` of
`vector_op.h`, which is not part of the sources at hand:
`result[k] = arg[k * stride]` for `k < W`. -/
def gather (arg : Nat → A) (off stride : Nat) : Nat → A :=
  fun k => arg (off + k * stride)

/-- Modelled from the spec: `VecOpUnwindN::unary(arg, result, op)` of
`vector_op.h`, which is not part of the sources at hand:
`result[k] = op(arg[k])` for `k < W`. -/
def unary (arg : Nat → T) (op : T → A) : Nat → A :=
  fun k => op (arg k)

/-- Modelled from the spec: `VecOpUnwindN::binary(arg, result, op)` of
`vector_op.h`, which is not part of the sources at hand:
`op(result[k], arg[k])` for `k < W`, where `op` updates its first argument. -/
def binary (arg : Nat → T) (result : Nat → A) (op : A → T → A) : Nat → A :=
  fun k => op (result k) (arg k)

end VecOpUnwindN

section vector_op

variable {T A : Type}

/-- Modelled from the spec: `unary_vector_op(n, arg, result, op)` of
`vector_op.h`, which is not part of the sources at hand:
`result[j] = op(arg[j])` for `j < n`. -/
def unary_vector_op (n : Nat) (arg : Nat → T) (result : Nat → A) (off : Nat) (op : T → A) :
    Nat → A :=
  (List.range n).foldl (fun r j => Function.update r (off + j) (op (arg j))) result

/-- Modelled from the spec: `binary_vector_op(n, arg, result, op)` of
`vector_op.h`, which is not part of the sources at hand:
`op(result[j], arg[j])` for `j < n`, where `op` updates its first argument. -/
def binary_vector_op (n : Nat) (arg : Nat → T) (result : Nat → A) (off : Nat)
    (op : A → T → A) : Nat → A :=
  (List.range n).foldl (fun r j => Function.update r (off + j) (op (r (off + j)) (arg j)))
    result

end vector_op

namespace OuterVectorOpUnwind

variable {T A : Type}

/-- `OuterVectorOpUnwind<N>::outer(x_block, y_block, a, stride, op)`, with
`offset = TILEDARRAY_LOOP_UNWIND - N - 1`; `<0>` is the end of the
recursion. -/
def outer (W : Nat) : Nat → (Nat → T) → (Nat → T) → (Nat → A) → Nat → Nat →
    (A → T → T → A) → Nat → A
  | 0, x_block, y_block, a, off, _, op =>
    let offset := W - 1
    let a_block := VecOpUnwindN.load a off
    let a_block := VecOpUnwindN.binary y_block a_block (bind_first_void (x_block offset) op)
    VecOpUnwindN.store W a_block a off
  | N + 1, x_block, y_block, a, off, stride, op =>
    let offset := W - (N + 1) - 1
    let a_block := VecOpUnwindN.load a off
    let a_block := VecOpUnwindN.binary y_block a_block (bind_first_void (x_block offset) op)
    let a := VecOpUnwindN.store W a_block a off
    outer W N x_block y_block a (off + stride) stride op

/-- `OuterVectorOpUnwind<N>::fill(x_block, y_block, a, stride, op)`, the
overload with one matrix. -/
def fill (W : Nat) : Nat → (Nat → T) → (Nat → T) → (Nat → A) → Nat → Nat →
    (T → T → A) → Nat → A
  | 0, x_block, y_block, a, off, _, op =>
    let offset := W - 1
    let a_block := VecOpUnwindN.unary y_block (bind_first (x_block offset) op)
    VecOpUnwindN.store W a_block a off
  | N + 1, x_block, y_block, a, off, stride, op =>
    let offset := W - (N + 1) - 1
    let a_block := VecOpUnwindN.unary y_block (bind_first (x_block offset) op)
    let a := VecOpUnwindN.store W a_block a off
    fill W N x_block y_block a (off + stride) stride op

end OuterVectorOpUnwind

section outer

variable {T A : Type}

/-- `outer_fill(m, n, x, y, a, op)`, documented as
`a[i][j] = op(x[i], y[j])`. `index_mask::value` makes
`mx = m - m % TILEDARRAY_LOOP_UNWIND`, as the comment in the source says. -/
def outer_fill (W m n : Nat) (x y : Nat → T) (a : Nat → A) (op : T → T → A) : Nat → A :=
  -- Compute block iteration limit
  let mx := m - m % W
  let nx := n - n % W
  let a :=
    if W > 1 then
      (List.range (mx / W)).foldl (fun a b =>
        let i := b * W
        -- Load x block
        let x_block := VecOpUnwindN.load x i
        let a_i := i * n
        let a := (List.range (nx / W)).foldl (fun a c =>
          let j := c * W
          -- Load y block
          let y_block := VecOpUnwindN.load y j
          -- Compute and store a block
          OuterVectorOpUnwind.fill W (W - 1) x_block y_block a (a_i + j) n op) a
        (List.range' nx (n - nx)).foldl (fun a j =>
          -- Load y block
          let y_j := y j
          -- Compute a block
          let a_block := VecOpUnwindN.unary x_block (bind_second y_j op)
          -- Store a block
          VecOpUnwindN.scatter W a_block a (a_i + j) n) a) a
    else a
  let i := if W > 1 then mx else 0
  (List.range' i (m - i)).foldl (fun a i =>
    let x_i := x i
    unary_vector_op n y a 0 (bind_second x_i op)) a

/-- `outer(m, n, x, y, a, op)`, documented as computing
`op(a[i][j], x[i], y[j])` for each `i` and `j` pair. -/
def outer (W m n : Nat) (x y : Nat → T) (a : Nat → A) (op : A → T → T → A) : Nat → A :=
  -- Compute block iteration limit
  let mx := m - m % W
  let nx := n - n % W
  let a :=
    if W > 1 then
      (List.range (mx / W)).foldl (fun a b =>
        let i := b * W
        -- Load x block
        let x_block := VecOpUnwindN.load x i
        -- Compute pointer offset
        let a_i := i * n
        let a := (List.range (nx / W)).foldl (fun a c =>
          let j := c * W
          -- Load y block
          let y_block := VecOpUnwindN.load y j
          -- Load, compute, and store a block
          OuterVectorOpUnwind.outer W (W - 1) x_block y_block a (a_i + j) n op) a
        (List.range' nx (n - nx)).foldl (fun a j =>
          -- Load a block
          let a_ij := a_i + j
          let a_block := VecOpUnwindN.gather a a_ij n
          -- Load y block
          let y_j := y j
          -- Compute a block
          let a_block := VecOpUnwindN.binary x_block a_block (bind_second_void y_j op)
          -- Store a block
          VecOpUnwindN.scatter W a_block a a_ij n) a) a
    else a
  let i := if W > 1 then mx else 0
  (List.range' i (m - i)).foldl (fun a i =>
    let x_i := x i
    binary_vector_op n y a 0 (bind_second_void x_i op)) a

/-- The vector `(1, 2, 3)` as a pointer for examples; beyond it lies 0. -/
def example_x : Nat → Int := fun i => [1, 2, 3].getD i 0

/-- The vector `(10)` as a pointer for examples; beyond it lies 0. -/
def example_y : Nat → Int := fun j => [10].getD j 0

/-- A matrix of zeros as a pointer for examples. -/
def example_a : Nat → Int := fun _ => 0

/-- A value-returning operation that is not commutative, for examples. -/
def example_fill_op : Int → Int → Int := fun x y => x - y

/-- An in-place operation that tells its operands apart, for examples:
`a += 100 * x + y`. -/
def example_outer_op : Int → Int → Int → Int := fun a x y => a + 100 * x + y

end outer

end math
end TiledArray


namespace TiledArray

/-!
## The scaling tile operation `Scal`

`tile_op/scal.h`, `tile_op/unary_interface.h`, `tensor.h`, `range.h` and
`permutation.h` are not part of the sources at hand; the test
`tests/tile_op_scal.cpp` is. The operation is modelled from the
specification (sections 4.2, 4.6 and 6) and from what the test calls and
checks.
-/

namespace Range

/-- Modelled from the spec: the number of elements of a range with the given
extents (`Range::volume()` of `range.h`, not part of the sources at hand). A
range is modelled by its extents, with lower bound 0 in every dimension. -/
def volume (extents : List Nat) : Nat := extents.prod

/-- Modelled from the spec: `Range::idx(i)`, the coordinate of the ordinal `i`
in row-major order, the last dimension running fastest. -/
def idx : List Nat → Nat → List Nat
  | [], _ => []
  | _ :: extents, i => (i / volume extents) :: idx extents (i % volume extents)

/-- Modelled from the spec: `Range::ord(index)`, the ordinal of a coordinate
in row-major order. -/
def ord : List Nat → List Nat → Nat
  | _ :: extents, c :: index => c * volume extents + ord extents index
  | _, _ => 0

/-- A coordinate lies in a range: it has one component per dimension, each
below the extent of its dimension. -/
def includes (extents index : List Nat) : Prop :=
  List.Forall₂ (fun c e => c < e) index extents

end Range

namespace Permutation

/-- Modelled from the spec: the application `perm * a` of a permutation to a
coordinate tuple or to the extents of a range, which "reorders its
components": component `k` of `a` becomes component `perm[k]` of the result.
The null permutation changes nothing. -/
def apply (perm : Permutation) (a : List Nat) : List Nat :=
  if perm.to_bool then
    (List.range a.length).map (fun m => a.getD (perm.p_.indexOf m) 0)
  else a

/-- Modelled from the spec: a permutation of dimension `n` is a bijection on
`0 .. n-1`, stored as its image sequence. -/
def valid (perm : Permutation) (n : Nat) : Prop :=
  perm.p_.Perm (List.range n)

end Permutation

/-- Modelled from the spec: `Tensor<int>` of `tensor.h`, which is not part of
the sources at hand: its range, the address `data()` of its storage, and its
elements in row-major order. -/
structure Tensor where
  range : List Nat
  data : Nat
  elems : List Int
  deriving DecidableEq

namespace Tensor

/-- Modelled from the spec: `operator[](i)` with an ordinal. -/
def at_ord (a : Tensor) (i : Nat) : Int := a.elems.getD i 0

/-- Modelled from the spec: `operator[](index)` with a coordinate. -/
def at_idx (a : Tensor) (index : List Nat) : Int := a.elems.getD (Range.ord a.range index) 0

/-- Modelled from the spec: the kernel `scale(a, factor)` of section 6, out of
place: the result has the range of `a`, storage of its own (here: the next
address), and the elements of `a` times `factor`. -/
def scale (a : Tensor) (factor : Int) : Tensor :=
  { range := a.range, data := a.data + 1, elems := a.elems.map (fun e => e * factor) }

/-- Modelled from the spec: the kernel `scale_to(a, factor)` of section 6, in
place: the elements of `a` are multiplied by `factor` in the storage of `a`. -/
def scale_to (a : Tensor) (factor : Int) : Tensor :=
  { a with elems := a.elems.map (fun e => e * factor) }

/-- Modelled from the spec: the kernel `scale(a, factor, perm)` of section 6,
out of place: the result has the permuted range and storage of its own, and
its element at a coordinate is `factor` times the element of `a` at the
coordinate that `perm` sends there; the result is filled in the order of its
ordinals. -/
def scale_perm (a : Tensor) (factor : Int) (perm : Permutation) : Tensor :=
  { range := perm.apply a.range
    data := a.data + 1
    elems := (List.range (Range.volume (perm.apply a.range))).map (fun j =>
      a.at_idx (perm.p_.map (fun pk => (Range.idx (perm.apply a.range) j).getD pk 0))
        * factor) }

end Tensor

namespace math

/-- What `UnaryInterface<Derived>` uses of a derived unary tile operation:
its permutation, `is_consumable`, and its kernels `permute_op` and
`no_permute_op<C>`. -/
structure UnaryDerived (T : Type) where
  perm_ : Permutation
  is_consumable : Bool
  permute_op : T → T
  no_permute_op : Bool → T → T

/-- Modelled from the spec: `UnaryInterface::operator()(arg)` for any derived
operation (`unary_interface.h` is not part of the sources at hand): "unary
dispatch mirrors binary with a single argument". -/
def UnaryInterface.call_op {T : Type} (op : UnaryDerived T) (arg : T) : T :=
  if op.perm_.to_bool then op.permute_op arg
  else op.no_permute_op op.is_consumable arg

/-- Modelled from the spec: `UnaryInterface::operator()(arg, consume)`, the
call with a runtime consumable flag (`unary_interface.h` is not part of the
sources at hand). It mirrors the binary dispatch on array tiles: the permuting
kernel with a non-null permutation, `no_permute_op<true>` when the flag is
set, and otherwise the kernel the compile-time flag selects, as the test
`unary_scale_runtime_no_consume` requires. -/
def UnaryInterface.call_op_consume {T : Type} (op : UnaryDerived T) (arg : T)
    (consume : Bool) : T :=
  if op.perm_.to_bool then op.permute_op arg
  else if consume then op.no_permute_op true arg
  else op.no_permute_op op.is_consumable arg

/-- A `Noop` object seen through its `UnaryInterface` base. -/
def Noop.derived {Ty T Val : Type} [DecidableEq Ty] (kernels : TileKernels T Val)
    (op : Noop Ty) : UnaryDerived T :=
  { perm_ := op.perm_, is_consumable := op.policy.is_consumable,
    permute_op := op.permute_op kernels, no_permute_op := Noop.no_permute_op kernels }

/-- Modelled from the spec: data of a `Scal<Result, Arg, Consumable>` object
(`tile_op/scal.h` is not part of the sources at hand): its template arguments,
the permutation held by its `UnaryInterface` base, and the scaling factor it
carries. -/
structure Scal (Ty : Type) where
  policy : UnaryTileOpPolicy Ty
  perm_ : Permutation
  factor_ : Int
  deriving DecidableEq

namespace Scal

variable {Ty : Type}

/-- Modelled from the spec: the constructor `Scal(factor)`, without
permutation. -/
def new (policy : UnaryTileOpPolicy Ty) (factor : Int) : Scal Ty :=
  { policy := policy, perm_ := ⟨[]⟩, factor_ := factor }

/-- Modelled from the spec: the constructor `Scal(perm, factor)`. -/
def new_perm (policy : UnaryTileOpPolicy Ty) (perm : Permutation) (factor : Int) : Scal Ty :=
  { policy := policy, perm_ := perm, factor_ := factor }

/-- Modelled from the spec: `Scal::permute_op(arg)`, which folds the factor
into the permuting kernel: `scale(arg, factor_, permutation())`. -/
def permute_op (op : Scal Ty) (arg : Tensor) : Tensor :=
  arg.scale_perm op.factor_ op.perm_

/-- Modelled from the spec: `Scal::no_permute_op<C>(arg)`: the in-place
kernel `scale_to(arg, factor_)` when the argument is consumable, the
out-of-place kernel `scale(arg, factor_)` otherwise. -/
def no_permute_op (op : Scal Ty) (C : Bool) (arg : Tensor) : Tensor :=
  if C then arg.scale_to op.factor_ else arg.scale op.factor_

/-- A `Scal` object seen through its `UnaryInterface` base. -/
def derived [DecidableEq Ty] (op : Scal Ty) : UnaryDerived Tensor :=
  { perm_ := op.perm_, is_consumable := op.policy.is_consumable,
    permute_op := op.permute_op, no_permute_op := op.no_permute_op }

end Scal

/-- A tensor with the range `2 x 3 x 2` for examples, stored at address
100. -/
def example_tensor : Tensor :=
  { range := [2, 3, 2], data := 100, elems := [5, 1, 4, 1, 5, 9, 2, 6, 5, 3, 5, 8] }

end math
end TiledArray


namespace TiledArray
namespace math

namespace ScalMult

variable {Ty S : Type}

/-- `ScalMult()`: the default constructor, `BinaryInterface_(), factor_(1)`.
The base class constructs its permutation by `perm_()`, the null
permutation. -/
def new_default [One S] (policy : BinaryTileOpPolicy Ty) : ScalMult Ty S :=
  { policy := policy, perm_ := ⟨[]⟩, factor_ := 1 }

/-- `ScalMult(const scalar_type factor)`: `BinaryInterface_(), factor_(factor)`. -/
def new (policy : BinaryTileOpPolicy Ty) (factor : S) : ScalMult Ty S :=
  { policy := policy, perm_ := ⟨[]⟩, factor_ := factor }

/-- `ScalMult(const Permutation& perm, const scalar_type factor)`:
`BinaryInterface_(perm), factor_(factor)`. -/
def new_perm (policy : BinaryTileOpPolicy Ty) (perm : Permutation) (factor : S) :
    ScalMult Ty S :=
  { policy := policy, perm_ := perm, factor_ := factor }

end ScalMult

/-- Modelled from the spec: the numeric kernels that `ScalMult` reaches by
`using TiledArray::mult` and `using TiledArray::mult_to`, the default
constructor of the result tile and the element access of tiles, none of which
is part of the sources at hand. `mult_to_left` is `mult_to` on
`(Left&, Right, factor)`, `mult_to_right` is `mult_to` on
`(Right&, Left, factor)`; what they compute is left to the hypotheses of the
theorems about them. -/
structure MultKernels (L R Res S E I : Type) where
  mult_perm : L → R → S → Permutation → Res
  mult : L → R → S → Res
  mult_to_left : L → R → S → Res
  mult_to_right : R → L → S → Res
  result_type : Res
  left_at : L → I → E
  right_at : R → I → E
  result_at : Res → I → E

/-- The tile a kernel call of `ScalMult` returns, given the kernels. -/
def KernelCall.eval {L R Res S E I : Type} (kernels : MultKernels L R Res S E I) :
    KernelCall L R S → Res
  | KernelCall.mult_perm first second factor perm => kernels.mult_perm first second factor perm
  | KernelCall.mult first second factor => kernels.mult first second factor
  | KernelCall.mult_to_first first second factor => kernels.mult_to_left first second factor
  | KernelCall.mult_to_second second first factor => kernels.mult_to_right second first factor
  | KernelCall.result_type => kernels.result_type

/-- Example kernels on tiles that are lists of integers: the element at `i` is
the `i`-th entry (0 beyond the end), `mult` builds the list of the scaled
products, and `mult_to(a, b, f)` yields `a` after each of its entries has been
replaced by the scaled product with the entry of `b`. -/
def example_mult_kernels : MultKernels (List Int) (List Int) (List Int) Int Int Nat :=
  { mult_perm := fun first second factor _ =>
      List.zipWith (fun l r => factor * (l * r)) first second
    mult := fun first second factor => List.zipWith (fun l r => factor * (l * r)) first second
    mult_to_left := fun first second factor =>
      List.zipWith (fun l r => factor * (l * r)) first second
    mult_to_right := fun second first factor =>
      List.zipWith (fun r l => factor * (r * l)) second first
    result_type := []
    left_at := fun a i => a.getD i 0
    right_at := fun a i => a.getD i 0
    result_at := fun a i => a.getD i 0 }

end math
end TiledArray


/-! The driver `examples/dgemm/ta_dense.cpp`. -/
namespace ta_dense

/-- How a run of `main` ends: the usage line on `std::cout` and `return 0`; a
message on `std::cerr` and `return 1`; the evaluation of `argv[index]` as a
string where `index` is not below `argc` (`argv[argc]` is the null pointer
that ends the vector), which has no defined behaviour; or the call of
`gemm<double>` or `gemm<std::complex<double>>` on the tiled range built from
the sizes. -/
inductive Outcome where
  | usage
  | error (message : String)
  | undefined (index : Nat)
  | gemm (use_complex : Bool) (matrix_size block_size repeat_ : Int)
  deriving DecidableEq

/-- The value `main` returns, where the run gets that far (`gemm` is taken to
return without an exception). -/
def Outcome.rc : Outcome → Option Nat
  | Outcome.usage => some 0
  | Outcome.error _ => some 1
  | Outcome.undefined _ => none
  | Outcome.gemm _ _ _ _ => some 0

/-- A run of `main` keeps the list of the indices `i` of the `argv[i]` it has
evaluated, and stops early with an `Outcome`. -/
abbrev Run := ExceptT Outcome (StateM (List Nat))

/-- The evaluation of `argv[i]` as a string, by `atol` or `strcmp`. -/
def arg (argv : List String) (i : Nat) : Run String := do
  modify (fun reads => reads ++ [i])
  match argv[i]? with
  | some str => pure str
  | none => throw (Outcome.undefined i)

/-- The function `to_bool`; the `std::runtime_error` it throws is the error
value. -/
def to_bool (str : String) : Except String Bool :=
  if str = "0" ∨ str = "no" ∨ str = "false" then
    pure false
  else if str = "1" ∨ str = "yes" ∨ str = "true" then
    pure true
  else
    throw "unrecognized string specification of bool"

/-- The function `main` from the reading of the command line arguments to the
call of `gemm`. `argv` holds the `argc` arguments as they stand after
`TiledArray::initialize(argc, argv)`, `atol` is the function of the C library. A `return` inside an `if` is the branch that ends the run, and
what follows the `if` in the source is its `else` branch. The exception of
`to_bool` is caught by `catch(std::exception& e)`. -/
def main (atol : String → Int) (argv : List String) : Run Outcome := do
  let argc := argv.length
  -- Get command line arguments
  if argc < 2 then
    throw Outcome.usage
  else
    let matrix_size := atol (← arg argv 1)
    let block_size := atol (← arg argv 2)
    if matrix_size ≤ 0 then
      throw (Outcome.error "Error: matrix size must greater than zero.\n")
    else if block_size ≤ 0 then
      throw (Outcome.error "Error: block size must greater than zero.\n")
    else if matrix_size.tmod block_size ≠ 0 then
      throw (Outcome.error "Error: matrix size must be evenly divisible by block size.\n")
    else
      let repeat_ ← (if argc ≥ 4 then do pure (atol (← arg argv 3)) else pure 5)
      if repeat_ ≤ 0 then
        throw (Outcome.error "Error: number of repetitions must greater than zero.\n")
      else
        let use_complex ← (if argc ≥ 5 then do
            match to_bool (← arg argv 4) with
            | .ok b => pure b
            | .error what => throw (Outcome.error ("!! std exception: " ++ what ++ "\n"))
          else pure false)
        pure (Outcome.gemm use_complex matrix_size block_size repeat_)

/-- A run of `main` from the empty list of reads: how it ends and the indices
of the `argv[i]` it has evaluated, in order. -/
def run (atol : String → Int) (argv : List String) : Outcome × List Nat :=
  match (main atol argv).run.run [] with
  | (.ok outcome, reads) => (outcome, reads)
  | (.error outcome, reads) => (outcome, reads)

/-- An `atol` for the examples, defined on the strings they use. -/
def example_atol (str : String) : Int :=
  if str = "1024" then 1024
  else if str = "128" then 128
  else if str = "3" then 3
  else 0

end ta_dense

namespace TiledArray
namespace detail
namespace CyclicPmap

theorem owner_push_back (p : CyclicPmap) (t tile : Nat) :
    (p.push_back t).owner tile = p.owner tile := rfl

theorem owner_of_lt (p : CyclicPmap) (t : Nat) (h1 : t < p.size_)
    (h2 : (t / p.cols_ % p.proc_rows_) * p.proc_cols_ + t % p.cols_ % p.proc_cols_ < p.procs_) :
    p.owner t = .ok ((t / p.cols_ % p.proc_rows_) * p.proc_cols_ + t % p.cols_ % p.proc_cols_) := by
  simp [owner, TA_ASSERT, h1, h2]
  rfl

theorem ctor_tile_loop_spec (row_end : Nat) : ∀ (fuel tile : Nat) (p : CyclicPmap),
    row_end - tile ≤ fuel → 0 < p.proc_cols_ →
    (∀ k, tile + k * p.proc_cols_ < row_end → p.owner (tile + k * p.proc_cols_) = .ok p.rank_) →
    ∃ l : List Nat, ctor_tile_loop row_end fuel tile p = .ok { p with local_ := p.local_ ++ l } ∧
      (∀ t, t ∈ l ↔ t < row_end ∧ ∃ k, t = tile + k * p.proc_cols_) ∧
      l.Pairwise (· < ·) := by
  intro fuel
  induction fuel with
  | zero =>
    intro tile p hf hpc hown
    refine ⟨[], ?_, ?_, List.Pairwise.nil⟩
    · have : ¬ tile < row_end := by omega
      simp [ctor_tile_loop, this]
      rfl
    · intro t
      simp only [List.not_mem_nil, false_iff, not_and, not_exists]
      intro ht k hk
      have : tile ≤ t := by rw [hk]; exact Nat.le_add_right _ _
      omega
  | succ fuel ih =>
    intro tile p hf hpc hown
    by_cases hlt : tile < row_end
    · have h0 := hown 0 (by simpa using hlt)
      simp only [Nat.zero_mul, Nat.add_zero] at h0
      obtain ⟨l, hl, hmem, hsorted⟩ := ih (tile + p.proc_cols_) (p.push_back tile) (by omega) hpc
        (by
          intro k hk
          have e : tile + p.proc_cols_ + k * (p.push_back tile).proc_cols_
              = tile + (k + 1) * p.proc_cols_ := by
            show tile + p.proc_cols_ + k * p.proc_cols_ = _
            ring
          rw [e] at hk ⊢
          rw [owner_push_back]
          exact hown (k + 1) hk)
      refine ⟨tile :: l, ?_, ?_, ?_⟩
      · simp only [ctor_tile_loop, hlt, if_true, h0]
        simp [TA_ASSERT, bind, Except.bind]
        rw [hl]
        simp [push_back]
        rfl
      · intro t
        rw [List.mem_cons, hmem]
        constructor
        · rintro (rfl | ⟨h1, k, hk⟩)
          · exact ⟨hlt, 0, by simp⟩
          · refine ⟨h1, k + 1, ?_⟩
            rw [hk]
            show tile + p.proc_cols_ + k * p.proc_cols_ = _
            ring
        · rintro ⟨h1, k, hk⟩
          cases k with
          | zero => left; simpa using hk
          | succ k =>
            right
            refine ⟨h1, k, ?_⟩
            rw [hk]
            show _ = tile + p.proc_cols_ + k * p.proc_cols_
            ring
      · rw [List.pairwise_cons]
        refine ⟨?_, hsorted⟩
        intro t ht
        obtain ⟨_, k, hk⟩ := (hmem t).1 ht
        have : tile + p.proc_cols_ ≤ t := by rw [hk]; exact Nat.le_add_right _ _
        omega
    · refine ⟨[], ?_, ?_, List.Pairwise.nil⟩
      · simp [ctor_tile_loop, hlt]
        rfl
      · intro t
        simp only [List.not_mem_nil, false_iff, not_and, not_exists]
        intro ht k hk
        have : tile ≤ t := by rw [hk]; exact Nat.le_add_right _ _
        omega

theorem owner_with_local (p : CyclicPmap) (l : List Nat) (tile : Nat) :
    ({ p with local_ := l } : CyclicPmap).owner tile = p.owner tile := rfl

theorem ctor_row_loop_spec (rank_col : Nat) : ∀ (fuel i : Nat) (p : CyclicPmap),
    p.rows_ - i ≤ fuel → 0 < p.proc_rows_ → 0 < p.proc_cols_ →
    (∀ j k, i + j * p.proc_rows_ < p.rows_ → rank_col + k * p.proc_cols_ < p.cols_ →
      p.owner ((i + j * p.proc_rows_) * p.cols_ + rank_col + k * p.proc_cols_) = .ok p.rank_) →
    ∃ l : List Nat, ctor_row_loop rank_col fuel i p = .ok { p with local_ := p.local_ ++ l } ∧
      (∀ t, t ∈ l ↔ ∃ j k, i + j * p.proc_rows_ < p.rows_ ∧ rank_col + k * p.proc_cols_ < p.cols_ ∧
        t = (i + j * p.proc_rows_) * p.cols_ + rank_col + k * p.proc_cols_) ∧
      l.Pairwise (· < ·) ∧ ∀ t ∈ l, i * p.cols_ ≤ t := by
  intro fuel
  induction fuel with
  | zero =>
    intro i p hf hpr hpc hown
    have hi : ¬ i < p.rows_ := by omega
    refine ⟨[], ?_, ?_, List.Pairwise.nil, by simp⟩
    · simp [ctor_row_loop, hi]
      rfl
    · intro t
      simp only [List.not_mem_nil, false_iff, not_exists, not_and]
      intro j k hj
      have : i ≤ i + j * p.proc_rows_ := Nat.le_add_right _ _
      omega
  | succ fuel ih =>
    intro i p hf hpr hpc hown
    by_cases hi : i < p.rows_
    · -- the tiles of row i
      obtain ⟨l1, hl1, hmem1, hs1⟩ := ctor_tile_loop_spec ((i + 1) * p.cols_)
        ((i + 1) * p.cols_ - (i * p.cols_ + rank_col)) (i * p.cols_ + rank_col) p (le_refl _) hpc
        (by
          intro k hk
          have h := hown 0 k (by simpa using hi) (by rw [Nat.add_mul, Nat.one_mul] at hk; omega)
          simpa using h)
      -- the remaining rows
      obtain ⟨l2, hl2, hmem2, hs2, hlb2⟩ := ih (i + p.proc_rows_)
        ({ p with local_ := p.local_ ++ l1 }) (by show p.rows_ - (i + p.proc_rows_) ≤ fuel; omega)
        hpr hpc
        (by
          intro j k hj hk
          have e : i + p.proc_rows_ + j * p.proc_rows_ = i + (j + 1) * p.proc_rows_ := by ring
          show p.owner ((i + p.proc_rows_ + j * p.proc_rows_) * p.cols_ + rank_col
            + k * p.proc_cols_) = .ok p.rank_
          rw [e]
          exact hown (j + 1) k (by rw [← e]; exact hj) hk)
      refine ⟨l1 ++ l2, ?_, ?_, ?_, ?_⟩
      · simp only [ctor_row_loop, hi, if_true, hl1]
        simp only [bind, Except.bind]
        rw [hl2]
        simp
      · intro t
        rw [List.mem_append, hmem1, hmem2]
        constructor
        · rintro (⟨h1, k, hk⟩ | ⟨j, k, hj, hk, ht⟩)
          · refine ⟨0, k, by simpa using hi, ?_, by simpa using hk⟩
            rw [hk, Nat.add_mul, Nat.one_mul] at h1
            omega
          · refine ⟨j + 1, k, ?_, hk, ?_⟩
            · have e : i + p.proc_rows_ + j * p.proc_rows_ = i + (j + 1) * p.proc_rows_ := by ring
              rw [← e]; exact hj
            · have e : i + p.proc_rows_ + j * p.proc_rows_ = i + (j + 1) * p.proc_rows_ := by ring
              rw [← e]; exact ht
        · rintro ⟨j, k, hj, hk, ht⟩
          cases j with
          | zero =>
            left
            simp only [Nat.zero_mul, Nat.add_zero] at ht
            refine ⟨?_, k, ht⟩
            rw [ht, Nat.add_mul, Nat.one_mul]
            omega
          | succ j =>
            right
            have e : i + p.proc_rows_ + j * p.proc_rows_ = i + (j + 1) * p.proc_rows_ := by ring
            exact ⟨j, k, by rw [e]; exact hj, hk, by rw [e]; exact ht⟩
      · rw [List.pairwise_append]
        refine ⟨hs1, hs2, ?_⟩
        intro a ha b hb
        have h1 := ((hmem1 a).1 ha).1
        have h2 : (i + p.proc_rows_) * p.cols_ ≤ b := hlb2 b hb
        have h3 : (i + 1) * p.cols_ ≤ (i + p.proc_rows_) * p.cols_ :=
          Nat.mul_le_mul_right _ (by omega)
        omega
      · intro t ht
        rcases List.mem_append.1 ht with h | h
        · obtain ⟨_, k, hk⟩ := (hmem1 t).1 h
          rw [hk]; omega
        · have h2 : (i + p.proc_rows_) * p.cols_ ≤ t := hlb2 t h
          have h3 : i * p.cols_ ≤ (i + p.proc_rows_) * p.cols_ :=
            Nat.mul_le_mul_right _ (by omega)
          omega
    · refine ⟨[], ?_, ?_, List.Pairwise.nil, by simp⟩
      · simp [ctor_row_loop, hi]
        rfl
      · intro t
        simp only [List.not_mem_nil, false_iff, not_exists, not_and]
        intro j k hj
        have : i ≤ i + j * p.proc_rows_ := Nat.le_add_right _ _
        omega

/-- Row-major ordinals of the tiles in grid rows `rank / pc + j * pr` and grid
columns `rank % pc + k * pc` are exactly the ordinals whose cyclic owner is
`rank`. -/
theorem grid_coords (pr pc rows cols rank t : Nat) (hpc : 0 < pc)
    (hcols : 0 < cols) (hrank : rank < pr * pc) :
    (∃ j k, rank / pc + j * pr < rows ∧ rank % pc + k * pc < cols ∧
      t = (rank / pc + j * pr) * cols + rank % pc + k * pc) ↔
    (t < rows * cols ∧ (t / cols % pr) * pc + t % cols % pc = rank) := by
  have hrr : rank / pc < pr := Nat.div_lt_of_lt_mul (by rw [Nat.mul_comm]; exact hrank)
  constructor
  · rintro ⟨j, k, hj, hk, ht⟩
    have ht2 : t = (rank % pc + k * pc) + (rank / pc + j * pr) * cols := by rw [ht]; ring
    have hdiv : t / cols = rank / pc + j * pr := by
      rw [ht2, Nat.add_mul_div_right _ _ hcols, Nat.div_eq_of_lt hk, Nat.zero_add]
    have hmod : t % cols = rank % pc + k * pc := by
      rw [ht2, Nat.add_mul_mod_self_right, Nat.mod_eq_of_lt hk]
    refine ⟨?_, ?_⟩
    · have h1 : (rank / pc + j * pr + 1) * cols ≤ rows * cols := Nat.mul_le_mul_right _ hj
      rw [Nat.add_mul, Nat.one_mul] at h1
      omega
    · rw [hdiv, hmod, Nat.add_mul_mod_self_right, Nat.add_mul_mod_self_right,
        Nat.mod_eq_of_lt hrr, Nat.mod_mod]
      exact Nat.div_add_mod' rank pc
  · rintro ⟨hlt, hown⟩
    have hc : t % cols % pc < pc := Nat.mod_lt _ hpc
    have hr1 : rank / pc = t / cols % pr := by
      rw [← hown, Nat.add_comm, Nat.add_mul_div_right _ _ hpc, Nat.div_eq_of_lt hc, Nat.zero_add]
    have hr2 : rank % pc = t % cols % pc := by
      rw [← hown, Nat.add_comm, Nat.add_mul_mod_self_right, Nat.mod_mod]
    refine ⟨t / cols / pr, t % cols / pc, ?_, ?_, ?_⟩
    · rw [hr1, Nat.mod_add_div']
      exact Nat.div_lt_of_lt_mul (by rw [Nat.mul_comm]; exact hlt)
    · rw [hr2, Nat.mod_add_div']
      exact Nat.mod_lt _ hcols
    · rw [hr1, hr2, Nat.mod_add_div', Nat.add_assoc, Nat.mod_add_div']
      exact (Nat.div_add_mod' t cols).symm

/-- The constructor succeeds on every valid configuration; the map it returns
stores the arguments, and its local list is strictly increasing and holds
exactly the tile ordinals below `rows * cols` whose cyclic owner is the rank
of the world. -/
theorem new_ok (world : World) (rows cols pr pc : Nat) (hrows : 1 ≤ rows) (hcols : 1 ≤ cols)
    (hpr : 1 ≤ pr) (hpc : 1 ≤ pc) (hgrid : pr * pc ≤ world.size) :
    ∃ p : CyclicPmap, CyclicPmap.new world rows cols pr pc = .ok p ∧
      p.rank_ = world.rank ∧ p.procs_ = world.size ∧ p.size_ = rows * cols ∧
      p.rows_ = rows ∧ p.cols_ = cols ∧ p.proc_rows_ = pr ∧ p.proc_cols_ = pc ∧
      (∀ t, t ∈ p.local_ ↔
        (t < rows * cols ∧ (t / cols % pr) * pc + t % cols % pc = world.rank)) ∧
      p.local_.Pairwise (· < ·) := by
  by_cases hin : world.rank < pr * pc
  · obtain ⟨l, hl, hmem, hs, -⟩ := ctor_row_loop_spec (world.rank % pc)
      (rows - world.rank / pc) (world.rank / pc)
      { rank_ := world.rank, procs_ := world.size, size_ := rows * cols, local_ := [],
        rows_ := rows, cols_ := cols, proc_cols_ := pc, proc_rows_ := pr,
        local_reserve :=
          (rows / pr + (if rows % pr < world.rank / pc then 1 else 0)) *
          (cols / pc + (if cols % pc < world.rank % pc then 1 else 0)) }
      (le_refl _) hpr hpc
      (by
        intro j k hj hk
        have h := (grid_coords pr pc rows cols world.rank _ hpc hcols hin).1
          ⟨j, k, hj, hk, rfl⟩
        have := owner_of_lt
          { rank_ := world.rank, procs_ := world.size, size_ := rows * cols, local_ := [],
            rows_ := rows, cols_ := cols, proc_cols_ := pc, proc_rows_ := pr,
            local_reserve :=
              (rows / pr + (if rows % pr < world.rank / pc then 1 else 0)) *
              (cols / pc + (if cols % pc < world.rank % pc then 1 else 0)) }
          ((world.rank / pc + j * pr) * cols + world.rank % pc + k * pc) h.1
          (by show _ < world.size; rw [h.2]; omega)
        rw [this, h.2])
    refine ⟨CyclicPmap.mk world.rank world.size (rows * cols) ([] ++ l) rows cols pc pr
        ((rows / pr + (if rows % pr < world.rank / pc then 1 else 0)) *
          (cols / pc + (if cols % pc < world.rank % pc then 1 else 0))),
      ?_, rfl, rfl, rfl, rfl, rfl, rfl, rfl, ?_, ?_⟩
    · simp only [CyclicPmap.new, TA_ASSERT, ge_iff_le, hrows, hcols, hpr, hpc, hgrid, hin,
        decide_True, if_true]
      exact hl
    · intro t
      show t ∈ [] ++ l ↔ _
      rw [List.nil_append, hmem]
      exact grid_coords pr pc rows cols world.rank t hpc hcols hin
    · show ([] ++ l).Pairwise _
      rw [List.nil_append]; exact hs
  · refine ⟨CyclicPmap.mk world.rank world.size (rows * cols) [] rows cols pc pr 0,
      ?_, rfl, rfl, rfl, rfl, rfl, rfl, rfl, ?_, ?_⟩
    · simp only [CyclicPmap.new, TA_ASSERT, ge_iff_le, hrows, hcols, hpr, hpc, hgrid, hin,
        decide_True, if_true, if_false]
      rfl
    · intro t
      show t ∈ [] ↔ _
      simp only [List.not_mem_nil, false_iff, not_and]
      intro _ h
      have h1 : t / cols % pr < pr := Nat.mod_lt _ hpr
      have h2 : t % cols % pc < pc := Nat.mod_lt _ hpc
      have h3 : (t / cols % pr + 1) * pc ≤ pr * pc := Nat.mul_le_mul_right _ h1
      rw [Nat.add_mul, Nat.one_mul] at h3
      omega
    · exact List.Pairwise.nil

end CyclicPmap
end detail
end TiledArray

namespace TiledArray
namespace detail
namespace CyclicPmap

/-- The loops of the constructor never run out of fuel: whatever the
arguments, construction either succeeds or fails on an assertion. -/
theorem new_never_out_of_fuel (world : World) (rows cols pr pc : Nat) :
    CyclicPmap.new world rows cols pr pc ≠ .error Exception.fuel := by
  by_cases h1 : 1 ≤ rows
  · by_cases h2 : 1 ≤ cols
    · by_cases h3 : 1 ≤ pr
      · by_cases h4 : 1 ≤ pc
        · by_cases h5 : pr * pc ≤ world.size
          · obtain ⟨p, hp, -⟩ := new_ok world rows cols pr pc h1 h2 h3 h4 h5
            rw [hp]
            intro h; cases h
          · simp only [CyclicPmap.new, TA_ASSERT, ge_iff_le, h1, h2, h3, h4, h5,
              decide_True, decide_False, if_true]
            intro h; cases h
        · simp only [CyclicPmap.new, TA_ASSERT, ge_iff_le, h1, h2, h3, h4,
            decide_True, decide_False, if_true]
          intro h; cases h
      · simp only [CyclicPmap.new, TA_ASSERT, ge_iff_le, h1, h2, h3,
          decide_True, decide_False, if_true]
        intro h; cases h
    · simp only [CyclicPmap.new, TA_ASSERT, ge_iff_le, h1, h2,
        decide_True, decide_False, if_true]
      intro h; cases h
  · simp only [CyclicPmap.new, TA_ASSERT, ge_iff_le, h1, decide_False]
    intro h; cases h

/-- C8, as stated, fails: on a 6 x 6 tile grid with a 2 x 3 process grid the
local list of rank 4 is `[7, 10, 19, 22, 31, 34]`; it holds 19, which the
claimed set `{7, 10, 13, 25, 28, 31}` lacks, and it lacks 13 (tile `(2, 1)`,
in an even row), which the claimed set holds. -/
theorem C8_claimed_ordinals_wrong :
    (CyclicPmap.new ⟨4, 6⟩ 6 6 2 3).map (fun p => p.local_) = .ok [7, 10, 19, 22, 31, 34] ∧
    ¬ (∀ t, t ∈ local_tiles 6 6 6 2 3 4 ↔ t ∈ [7, 10, 13, 25, 28, 31]) := by
  refine ⟨rfl, ?_⟩
  intro h
  have h13 : (13 : Nat) ∈ local_tiles 6 6 6 2 3 4 := (h 13).2 (by decide)
  have e : local_tiles 6 6 6 2 3 4 = [7, 10, 19, 22, 31, 34] := rfl
  rw [e] at h13
  exact absurd h13 (by decide)

/-- C8, amended: for `rows = cols = 6`, `proc_rows = 2`, `proc_cols = 3` and any
world of at least 6 processes, the local tile list of rank 4 is
`[7, 10, 19, 22, 31, 34]`, which is the set of row-major ordinals of the tiles
`(r, c)` with `r mod 2 = 1` and `c mod 3 = 1`. -/
theorem C8_rank4_local_tiles (nprocs : Nat) (hn : 6 ≤ nprocs) :
    ∃ p : CyclicPmap, CyclicPmap.new ⟨4, nprocs⟩ 6 6 2 3 = .ok p ∧
      p.local_ = [7, 10, 19, 22, 31, 34] ∧
      ∀ t, t ∈ p.local_ ↔ (t < 6 * 6 ∧ (t / 6) % 2 = 1 ∧ (t % 6) % 3 = 1) := by
  obtain ⟨p, hp, -, -, -, -, -, -, -, hmem0, hs⟩ := new_ok ⟨4, nprocs⟩ 6 6 2 3 (by decide)
    (by decide) (by decide) (by decide) hn
  have hmem : ∀ t, t ∈ p.local_ ↔ (t < 6 * 6 ∧ (t / 6 % 2) * 3 + t % 6 % 3 = 4) := hmem0
  have hmem2 : ∀ t, t ∈ p.local_ ↔ t ∈ [7, 10, 19, 22, 31, 34] := by
    intro t
    rw [hmem]
    simp only [List.mem_cons, List.mem_singleton, List.not_mem_nil, or_false]
    omega
  have hlist : p.local_ = [7, 10, 19, 22, 31, 34] := by
    apply List.eq_of_perm_of_sorted (r := (· < ·)) _ hs (by decide)
    exact (List.perm_ext_iff_of_nodup (hs.imp (fun h => Nat.ne_of_lt h)) (by decide)).2 hmem2
  refine ⟨p, hp, hlist, ?_⟩
  intro t
  rw [hmem]
  omega

/-- Witness of C8 (amended): a world of 8 processes. -/
theorem C8_rank4_local_tiles_witness :
    ∃ p : CyclicPmap, CyclicPmap.new ⟨4, 8⟩ 6 6 2 3 = .ok p ∧
      p.local_ = [7, 10, 19, 22, 31, 34] ∧
      ∀ t, t ∈ p.local_ ↔ (t < 6 * 6 ∧ (t / 6) % 2 = 1 ∧ (t % 6) % 3 = 1) :=
  C8_rank4_local_tiles 8 (by decide)

end CyclicPmap
end detail
end TiledArray


namespace TiledArray
namespace detail
namespace CyclicPmap

/-- A value below `2 ^ w` is itself in a `size_type` of `w` bits. -/
theorem size_type_of_lt (w n : Nat) (h : n < 2 ^ w) : size_type w n = n :=
  Nat.mod_eq_of_lt h

/-- Where the process grid has fewer than `2 ^ w` cells, `owner` computes no
value that wraps. -/
theorem owner_wrap_eq (w : Nat) (p : CyclicPmap) (hpr : 1 ≤ p.proc_rows_)
    (hpc : 1 ≤ p.proc_cols_) (hfit : p.proc_rows_ * p.proc_cols_ < 2 ^ w) (tile : Nat) :
    p.owner_wrap w tile = p.owner tile := by
  have h1 : tile / p.cols_ % p.proc_rows_ < p.proc_rows_ := Nat.mod_lt _ hpr
  have h2 : tile % p.cols_ % p.proc_cols_ < p.proc_cols_ := Nat.mod_lt _ hpc
  have h3 : (tile / p.cols_ % p.proc_rows_ + 1) * p.proc_cols_ ≤ p.proc_rows_ * p.proc_cols_ :=
    Nat.mul_le_mul_right _ h1
  rw [Nat.add_mul, Nat.one_mul] at h3
  have e1 : size_type w (tile / p.cols_ % p.proc_rows_ * p.proc_cols_)
      = tile / p.cols_ % p.proc_rows_ * p.proc_cols_ := size_type_of_lt _ _ (by omega)
  have e2 : size_type w (tile / p.cols_ % p.proc_rows_ * p.proc_cols_
      + tile % p.cols_ % p.proc_cols_)
      = tile / p.cols_ % p.proc_rows_ * p.proc_cols_ + tile % p.cols_ % p.proc_cols_ :=
    size_type_of_lt _ _ (by omega)
  simp only [owner_wrap, owner, e1, e2]

/-- The inner loop computes no value that wraps when `row_end + proc_cols_`
is at most `2 ^ w`. -/
theorem ctor_tile_loop_wrap_eq (w row_end : Nat) : ∀ (fuel tile : Nat) (p : CyclicPmap),
    1 ≤ p.proc_rows_ → 1 ≤ p.proc_cols_ → p.proc_rows_ * p.proc_cols_ < 2 ^ w →
    row_end + p.proc_cols_ ≤ 2 ^ w →
    ctor_tile_loop_wrap w row_end fuel tile p = ctor_tile_loop row_end fuel tile p
  | 0, tile, p, _, _, _, _ => rfl
  | fuel + 1, tile, p, hpr, hpc, hfit, hend => by
    by_cases hlt : tile < row_end
    · have e : size_type w (tile + p.proc_cols_) = tile + p.proc_cols_ :=
        size_type_of_lt _ _ (by omega)
      simp only [ctor_tile_loop_wrap, ctor_tile_loop, hlt, if_true, e,
        owner_wrap_eq w p hpr hpc hfit]
      rw [ctor_tile_loop_wrap_eq w row_end fuel (tile + p.proc_cols_) (p.push_back tile)
        hpr hpc hfit hend]
    · simp only [ctor_tile_loop_wrap, ctor_tile_loop, hlt, if_false]

/-- The inner loop changes the local list only. -/
theorem ctor_tile_loop_frame (row_end : Nat) : ∀ (fuel tile : Nat) (p q : CyclicPmap),
    ctor_tile_loop row_end fuel tile p = .ok q →
    q.rows_ = p.rows_ ∧ q.cols_ = p.cols_ ∧ q.proc_rows_ = p.proc_rows_ ∧
      q.proc_cols_ = p.proc_cols_
  | 0, tile, p, q, h => by
    by_cases hlt : tile < row_end
    · simp [ctor_tile_loop, hlt, throw, throwThe, MonadExceptOf.throw] at h
    · simp only [ctor_tile_loop, hlt, if_false, pure, Except.pure, Except.ok.injEq] at h
      subst h
      exact ⟨rfl, rfl, rfl, rfl⟩
  | fuel + 1, tile, p, q, h => by
    by_cases hlt : tile < row_end
    · simp only [ctor_tile_loop, hlt, if_true] at h
      cases ho : p.owner tile with
      | error e => simp [ho, bind, Except.bind] at h
      | ok o =>
        by_cases hor : o = p.rank_
        · simp only [ho, bind, Except.bind, TA_ASSERT, hor, decide_True, if_true, pure,
            Except.pure] at h
          exact ctor_tile_loop_frame row_end fuel _ (p.push_back tile) q h
        · simp [ho, bind, Except.bind, TA_ASSERT, hor, throw, throwThe,
            MonadExceptOf.throw] at h
    · simp only [ctor_tile_loop, hlt, if_false, pure, Except.pure, Except.ok.injEq] at h
      subst h
      exact ⟨rfl, rfl, rfl, rfl⟩

/-- The outer loop computes no value that wraps when the tile grid with one
more row and column, and the process grid, fit together below `2 ^ w`. -/
theorem ctor_row_loop_wrap_eq (w rank_col : Nat) : ∀ (fuel i : Nat) (p : CyclicPmap),
    1 ≤ p.proc_rows_ → 1 ≤ p.proc_cols_ → rank_col < p.proc_cols_ →
    (p.rows_ + 1) * (p.cols_ + 1) + p.proc_rows_ * p.proc_cols_ < 2 ^ w →
    ctor_row_loop_wrap w rank_col fuel i p = ctor_row_loop rank_col fuel i p
  | 0, i, p, _, _, _, _ => rfl
  | fuel + 1, i, p, hpr, hpc, hrc, hfit => by
    by_cases hi : i < p.rows_
    · have g1 : (i + 1) * p.cols_ ≤ p.rows_ * p.cols_ := Nat.mul_le_mul_right _ hi
      have g2 : i * p.cols_ ≤ (i + 1) * p.cols_ := Nat.mul_le_mul_right _ (Nat.le_succ i)
      have g3 : (p.rows_ + 1) * (p.cols_ + 1) = p.rows_ * p.cols_ + p.rows_ + p.cols_ + 1 := by
        ring
      have g4 : p.proc_cols_ ≤ p.proc_rows_ * p.proc_cols_ := Nat.le_mul_of_pos_left _ hpr
      have g5 : p.proc_rows_ ≤ p.proc_rows_ * p.proc_cols_ := Nat.le_mul_of_pos_right _ hpc
      have e1 : size_type w (i + 1) = i + 1 := size_type_of_lt _ _ (by omega)
      have e2 : size_type w ((i + 1) * p.cols_) = (i + 1) * p.cols_ :=
        size_type_of_lt _ _ (by omega)
      have e3 : size_type w (i * p.cols_) = i * p.cols_ := size_type_of_lt _ _ (by omega)
      have e4 : size_type w (i * p.cols_ + rank_col) = i * p.cols_ + rank_col :=
        size_type_of_lt _ _ (by omega)
      have e5 : size_type w (i + p.proc_rows_) = i + p.proc_rows_ :=
        size_type_of_lt _ _ (by omega)
      have hfit2 : p.proc_rows_ * p.proc_cols_ < 2 ^ w := by omega
      simp only [ctor_row_loop_wrap, ctor_row_loop, hi, if_true, e1, e2, e3, e4]
      rw [ctor_tile_loop_wrap_eq w _ _ _ p hpr hpc hfit2 (by omega)]
      cases hq : ctor_tile_loop ((i + 1) * p.cols_)
          ((i + 1) * p.cols_ - (i * p.cols_ + rank_col)) (i * p.cols_ + rank_col) p with
      | error e => rfl
      | ok q =>
        obtain ⟨q1, q2, q3, q4⟩ := ctor_tile_loop_frame _ _ _ p q hq
        simp only [bind, Except.bind, q3]
        rw [e5]
        exact ctor_row_loop_wrap_eq w rank_col fuel (i + p.proc_rows_) q (by omega) (by omega)
          (by omega) (by rw [q1, q2, q3, q4]; exact hfit)
    · simp only [ctor_row_loop_wrap, ctor_row_loop, hi, if_false]

/-- Where the tile grid with one more row and column, and the process grid,
fit together below `2 ^ w`, the constructor computes no value that wraps: it
is the constructor on natural numbers. -/
theorem new_wrap_eq_new (w : Nat) (world : World) (rows cols pr pc : Nat)
    (hfit : (rows + 1) * (cols + 1) + pr * pc < 2 ^ w) :
    new_wrap w world rows cols pr pc = CyclicPmap.new world rows cols pr pc := by
  have g3 : (rows + 1) * (cols + 1) = rows * cols + rows + cols + 1 := by ring
  have e1 : size_type w (rows * cols) = rows * cols := size_type_of_lt _ _ (by omega)
  have e2 : size_type w (pr * pc) = pr * pc := size_type_of_lt _ _ (by omega)
  by_cases h1 : 1 ≤ rows
  swap
  · simp only [new_wrap, CyclicPmap.new, TA_ASSERT, ge_iff_le, h1, decide_False]
    rfl
  by_cases h2 : 1 ≤ cols
  swap
  · simp only [new_wrap, CyclicPmap.new, TA_ASSERT, ge_iff_le, h1, h2, decide_True,
      decide_False, if_true]
    rfl
  by_cases h3 : 1 ≤ pr
  swap
  · simp only [new_wrap, CyclicPmap.new, TA_ASSERT, ge_iff_le, h1, h2, h3, decide_True,
      decide_False, if_true]
    rfl
  by_cases h4 : 1 ≤ pc
  swap
  · simp only [new_wrap, CyclicPmap.new, TA_ASSERT, ge_iff_le, h1, h2, h3, h4, decide_True,
      decide_False, if_true]
    rfl
  by_cases h5 : pr * pc ≤ world.size
  swap
  · simp only [new_wrap, CyclicPmap.new, TA_ASSERT, ge_iff_le, h1, h2, h3, h4, h5, e2,
      decide_True, decide_False, if_true]
    rfl
  by_cases h6 : world.rank < pr * pc
  swap
  · simp only [new_wrap, CyclicPmap.new, TA_ASSERT, ge_iff_le, h1, h2, h3, h4, h5, h6, e1, e2,
      decide_True, if_true, if_false]
  have b1 : rows / pr ≤ rows := Nat.div_le_self _ _
  have b2 : cols / pc ≤ cols := Nat.div_le_self _ _
  have b3 : ∀ c : Prop, [Decidable c] → (rows / pr + if c then 1 else 0) ≤ rows + 1 := by
    intro c _
    split <;> omega
  have b4 : ∀ c : Prop, [Decidable c] → (cols / pc + if c then 1 else 0) ≤ cols + 1 := by
    intro c _
    split <;> omega
  have e3 : ∀ c : Prop, [Decidable c] →
      size_type w (rows / pr + if c then 1 else 0) = rows / pr + if c then 1 else 0 := by
    intro c _
    exact size_type_of_lt _ _ (by have := b3 c; omega)
  have e4 : ∀ c : Prop, [Decidable c] →
      size_type w (cols / pc + if c then 1 else 0) = cols / pc + if c then 1 else 0 := by
    intro c _
    exact size_type_of_lt _ _ (by have := b4 c; omega)
  have e5 : ∀ c d : Prop, [Decidable c] → [Decidable d] →
      size_type w ((rows / pr + if c then 1 else 0) * (cols / pc + if d then 1 else 0))
        = (rows / pr + if c then 1 else 0) * (cols / pc + if d then 1 else 0) := by
    intro c d _ _
    apply size_type_of_lt
    have := Nat.mul_le_mul (b3 c) (b4 d)
    omega
  simp only [new_wrap, CyclicPmap.new, TA_ASSERT, ge_iff_le, h1, h2, h3, h4, h5, h6, e1, e2, e3,
    e4, e5, decide_True, if_true]
  simp only [bind, Except.bind, pure, Except.pure]
  exact ctor_row_loop_wrap_eq w _ _ _ _ h3 h4 (Nat.mod_lt _ h4) hfit

/-- In the arithmetic of a `size_type` of `w` bits the constructor fails on an
assertion as soon as one of its five checks fails; the fifth check compares
the wrapped product. -/
theorem new_wrap_error_of_invalid (w : Nat) (world : World) (rows cols pr pc : Nat)
    (h : rows = 0 ∨ cols = 0 ∨ pr = 0 ∨ pc = 0 ∨ world.size < size_type w (pr * pc)) :
    new_wrap w world rows cols pr pc = .error Exception.assertion := by
  by_cases h1 : 1 ≤ rows
  · by_cases h2 : 1 ≤ cols
    · by_cases h3 : 1 ≤ pr
      · by_cases h4 : 1 ≤ pc
        · by_cases h5 : size_type w (pr * pc) ≤ world.size
          · exfalso
            omega
          · simp only [new_wrap, TA_ASSERT, ge_iff_le, h1, h2, h3, h4, h5,
              decide_True, decide_False, if_true]
            rfl
        · simp only [new_wrap, TA_ASSERT, ge_iff_le, h1, h2, h3, h4,
            decide_True, decide_False, if_true]
          rfl
      · simp only [new_wrap, TA_ASSERT, ge_iff_le, h1, h2, h3,
          decide_True, decide_False, if_true]
        rfl
    · simp only [new_wrap, TA_ASSERT, ge_iff_le, h1, h2,
        decide_True, decide_False, if_true]
      rfl
  · simp only [new_wrap, TA_ASSERT, ge_iff_le, h1, decide_False]
    rfl

/-- A rank that is not below the wrapped product of a grid that passes the
five checks gets a map with an empty local list. -/
theorem new_wrap_empty (w : Nat) (world : World) (rows cols pr pc : Nat)
    (hrows : 1 ≤ rows) (hcols : 1 ≤ cols) (hpr : 1 ≤ pr) (hpc : 1 ≤ pc)
    (hgrid : size_type w (pr * pc) ≤ world.size)
    (hrank : size_type w (pr * pc) ≤ world.rank) :
    new_wrap w world rows cols pr pc =
      .ok (CyclicPmap.mk world.rank world.size (size_type w (rows * cols)) [] rows cols pc pr
        0) := by
  have hr : ¬ (world.rank < size_type w (pr * pc)) := by omega
  simp only [new_wrap, TA_ASSERT, ge_iff_le, hrows, hcols, hpr, hpc, hgrid, hr,
    decide_True, if_true, if_false]
  rfl

/-- C17: the constructor, in the arithmetic of a `size_type` of `w` bits,
fails with an error (a failed `TA_ASSERT`), and so builds no map and no local
tile list, when one of `rows`, `cols`, `proc_rows`, `proc_cols` is zero or
when the product `proc_rows * proc_cols` as the machine computes it, modulo
`2 ^ w`, is above `nprocs`; this covers every product above `nprocs` that is
below `2 ^ w`. A product that wraps is not rejected: whenever it wraps to 0,
a grid with non-zero arguments is accepted on every rank, with an empty local
list. With 64 bits, `proc_rows = proc_cols = 2 ^ 32` in a world of 1 process,
on a 2 x 1 tile grid, is accepted although `2 ^ 32 * 2 ^ 32 > 1`; on the map
built, rank 0 has an empty local list although `owner(0)` is 0, and `owner(1)`
fails on its assertion `proc < procs_`. -/
theorem C17_grid_check_compares_wrapped_product (w : Nat) (world : World)
    (rows cols pr pc : Nat) :
    ((rows = 0 ∨ cols = 0 ∨ pr = 0 ∨ pc = 0 ∨ world.size < size_type w (pr * pc)) →
      new_wrap w world rows cols pr pc = .error Exception.assertion ∧
      ∀ p, new_wrap w world rows cols pr pc ≠ .ok p) ∧
    (pr * pc < 2 ^ w → world.size < pr * pc →
      new_wrap w world rows cols pr pc = .error Exception.assertion) ∧
    (1 ≤ rows → 1 ≤ cols → 1 ≤ pr → 1 ≤ pc → size_type w (pr * pc) = 0 →
      ∃ p, new_wrap w world rows cols pr pc = .ok p ∧ p.local_ = []) ∧
    (∃ p, new_wrap 64 ⟨0, 1⟩ 2 1 (2 ^ 32) (2 ^ 32) = .ok p ∧ p.local_ = [] ∧
      (1 : Nat) < 2 ^ 32 * 2 ^ 32 ∧
      p.owner_wrap 64 0 = .ok 0 ∧ p.owner_wrap 64 1 = .error Exception.assertion) := by
  refine ⟨?_, ?_, ?_, ⟨_, rfl, rfl, by norm_num, rfl, rfl⟩⟩
  · intro h
    have e := new_wrap_error_of_invalid w world rows cols pr pc h
    refine ⟨e, ?_⟩
    intro p hp
    rw [e] at hp
    cases hp
  · intro hlt h
    apply new_wrap_error_of_invalid
    rw [size_type_of_lt w _ hlt]
    exact Or.inr (Or.inr (Or.inr (Or.inr h)))
  · intro hrows hcols hpr hpc hzero
    exact ⟨_, new_wrap_empty w world rows cols pr pc hrows hcols hpr hpc (by omega) (by omega),
      rfl⟩

/-- Witness of C17, with 64 bits: a 2 x 3 process grid does not fit into a
world of 5 processes and is rejected; a `2 ^ 32 x 2 ^ 32` process grid in a
world of 1 process, on a 1 x 1 tile grid, is accepted with an empty local
list. -/
theorem C17_grid_check_compares_wrapped_product_witness :
    (new_wrap 64 ⟨0, 5⟩ 6 6 2 3 = .error Exception.assertion ∧
      ∀ p, new_wrap 64 ⟨0, 5⟩ 6 6 2 3 ≠ .ok p) ∧
    new_wrap 64 ⟨0, 5⟩ 6 6 2 3 = .error Exception.assertion ∧
    ∃ p, new_wrap 64 ⟨0, 1⟩ 1 1 (2 ^ 32) (2 ^ 32) = .ok p ∧ p.local_ = [] :=
  ⟨(C17_grid_check_compares_wrapped_product 64 ⟨0, 5⟩ 6 6 2 3).1 (by decide),
    (C17_grid_check_compares_wrapped_product 64 ⟨0, 5⟩ 6 6 2 3).2.1 (by norm_num)
      (by decide),
    (C17_grid_check_compares_wrapped_product 64 ⟨0, 1⟩ 1 1 (2 ^ 32) (2 ^ 32)).2.2.1
      (by decide) (by decide) (by norm_num) (by norm_num) (by decide)⟩

/-- C18: the constructor does not check `proc_rows` against `rows` nor
`proc_cols` against `cols`, although its documentation promises an exception.
In a world of 2 processes, a 1 x 1 tile grid on a 2 x 1 process grid
(`proc_rows > rows`) and on a 1 x 2 process grid (`proc_cols > cols`) are both
accepted, and rank 0 gets the local list `[0]`. Only the third documented
condition is checked: a 1 x 2 process grid in a world of 1 process is
rejected. -/
theorem C18_no_check_of_process_grid_against_tile_grid :
    (CyclicPmap.new ⟨0, 2⟩ 1 1 2 1).map (fun p => p.local_) = .ok [0] ∧
    (CyclicPmap.new ⟨0, 2⟩ 1 1 1 2).map (fun p => p.local_) = .ok [0] ∧
    CyclicPmap.new ⟨0, 1⟩ 1 1 1 2 = .error Exception.assertion :=
  ⟨rfl, rfl, rfl⟩

/-- C34: the capacity the constructor reserves for the local list is not the
number of tiles its loops append. The test `(rows_ % proc_rows_) < rank_row`
adds a row to the ranks above the remainder instead of those below it. On a
3 x 1 tile grid with a 2 x 1 process grid, rank 0 reserves room for 1 tile and
appends the 2 tiles `[0, 2]`; on a 2 x 1 tile grid with a 2 x 1 process grid,
rank 1 reserves room for 2 tiles and appends the 1 tile `[1]`. -/
theorem C34_reserve_is_not_local_count :
    (CyclicPmap.new ⟨0, 2⟩ 3 1 2 1).map (fun p => (p.local_reserve, p.local_)) = .ok (1, [0, 2]) ∧
    (CyclicPmap.new ⟨1, 2⟩ 2 1 2 1).map (fun p => (p.local_reserve, p.local_)) = .ok (2, [1]) :=
  ⟨rfl, rfl⟩

end CyclicPmap
end detail
end TiledArray


namespace TiledArray
namespace math

/-- A permutation that is not the identity is not the null permutation. -/
theorem Permutation_to_bool_of_not_identity (perm : Permutation)
    (h : perm.is_identity = false) : perm.to_bool = true := by
  rcases perm with ⟨p⟩
  cases p with
  | nil => simp [Permutation.is_identity] at h
  | cons a l => simp [Permutation.to_bool]

/-- For every pair of template flags exactly one of the three overloads of
`ScalMult::no_permute_op` on non-zero tiles is enabled. -/
theorem ScalMult_no_permute_op_overloads (LC RC : Bool) :
    ((!(LC || RC)) = true ∧ LC = false ∧ (!LC && RC) = false) ∨
    ((!(LC || RC)) = false ∧ LC = true ∧ (!LC && RC) = false) ∨
    ((!(LC || RC)) = false ∧ LC = false ∧ (!LC && RC) = true) := by
  cases LC <;> cases RC <;> simp

/-- C4: dispatch of `ScalMult` on two non-zero tiles is the function of the
specification's table. A kernel is always called; with a non-null permutation
(in particular with every permutation that is not the identity) it is the
out-of-place permuting kernel whatever the consumability flags are; with the
null permutation it is the in-place-into-left kernel iff `LeftConsumable` and
`Left` is the `Result` type, otherwise the in-place-into-right kernel iff
`RightConsumable` and `Right` is the `Result` type, otherwise the out-of-place
kernel; when both sides are consumable the left one wins. -/
theorem C4_binary_dispatch_table {Ty L R S : Type} [DecidableEq Ty] (op : ScalMult Ty S)
    (first : L) (second : R) :
    ∃ k : KernelCall L R S,
      BinaryInterfaceBase.call op.derived first second = .ok k ∧
      k.action = some (spec_dispatch_table op.perm_.to_bool
        (op.policy.LeftConsumable && decide (op.policy.Result = op.policy.Left))
        (op.policy.RightConsumable && decide (op.policy.Result = op.policy.Right))) ∧
      (op.perm_.to_bool = true → k = KernelCall.mult_perm first second op.factor_ op.perm_) ∧
      (op.perm_.is_identity = false →
        k = KernelCall.mult_perm first second op.factor_ op.perm_) ∧
      (op.perm_.to_bool = false →
        (k = KernelCall.mult_to_first first second op.factor_ ↔
          (op.policy.LeftConsumable = true ∧ op.policy.Result = op.policy.Left)) ∧
        (k = KernelCall.mult_to_second second first op.factor_ ↔
          (¬ (op.policy.LeftConsumable = true ∧ op.policy.Result = op.policy.Left) ∧
            (op.policy.RightConsumable = true ∧ op.policy.Result = op.policy.Right))) ∧
        (k = KernelCall.mult first second op.factor_ ↔
          (¬ (op.policy.LeftConsumable = true ∧ op.policy.Result = op.policy.Left) ∧
            ¬ (op.policy.RightConsumable = true ∧ op.policy.Result = op.policy.Right))) ∧
        (op.policy.LeftConsumable = true → op.policy.RightConsumable = true →
          op.policy.Result = op.policy.Left → op.policy.Result = op.policy.Right →
          k = KernelCall.mult_to_first first second op.factor_)) := by
  rcases op with ⟨⟨Res, Lf, Rt, lc, rc⟩, perm, factor⟩
  have hid := Permutation_to_bool_of_not_identity perm
  by_cases hp : perm.to_bool = true
  · refine ⟨KernelCall.mult_perm first second factor perm, ?_, ?_, ?_, ?_, ?_⟩
    · simp [BinaryInterfaceBase.call, ScalMult.derived, ScalMult.permute_op, hp]
      rfl
    · simp [KernelCall.action, spec_dispatch_table, hp]
    · intro _; rfl
    · intro _; rfl
    · intro h; simp [hp] at h
  · have hp' : perm.to_bool = false := by simpa using hp
    have hid' : ¬ (perm.is_identity = false) := fun h => hp (hid h)
    obtain ⟨dL, hdL⟩ : ∃ dL : Bool, dL = decide (Res = Lf) := ⟨_, rfl⟩
    obtain ⟨dR, hdR⟩ : ∃ dR : Bool, dR = decide (Res = Rt) := ⟨_, rfl⟩
    have hL : (Res = Lf) ↔ dL = true := by simp [hdL]
    have hR : (Res = Rt) ↔ dR = true := by simp [hdR]
    simp only [BinaryInterfaceBase.call, ScalMult.derived, ScalMult.no_permute_op,
      BinaryTileOpPolicy.left_is_consumable, BinaryTileOpPolicy.right_is_consumable, hp',
      ← hdL, ← hdR, hL, hR]
    cases lc <;> cases rc <;> cases dL <;> cases dR <;>
      simp [KernelCall.action, spec_dispatch_table, pure, Except.pure, hid']

/-- C9: every invocation of `ScalMult` in which an operand is a `ZeroTensor`
fails on the always-false assertion and returns no tile, for every permutation
(null or not) and every combination of consumability flags: both zero-operand
call operators of the interface, and each zero-operand overload of
`permute_op` and of `no_permute_op<LC, RC>`. -/
theorem C9_scal_mult_zero_operand_fails {Ty L R S : Type} [DecidableEq Ty]
    (op : ScalMult Ty S) (first : L) (second : R) (LC RC : Bool) :
    BinaryInterfaceBase.call_zero_left (L := L) op.derived second
      = .error Exception.assertion ∧
    BinaryInterfaceBase.call_zero_right (R := R) op.derived first
      = .error Exception.assertion ∧
    (∀ k : KernelCall L R S,
      BinaryInterfaceBase.call_zero_left (L := L) op.derived second ≠ .ok k ∧
      BinaryInterfaceBase.call_zero_right (R := R) op.derived first ≠ .ok k) ∧
    op.permute_op_zero_left (L := L) second = .error Exception.assertion ∧
    op.permute_op_zero_right (R := R) first = .error Exception.assertion ∧
    op.no_permute_op_zero_left (L := L) LC RC second = .error Exception.assertion ∧
    op.no_permute_op_zero_right (R := R) LC RC first = .error Exception.assertion := by
  have h1 : ∀ a b, op.no_permute_op_zero_left (L := L) a b second
      = .error Exception.assertion := by
    intro a b; cases b <;> rfl
  have h2 : ∀ a b, op.no_permute_op_zero_right (R := R) a b first
      = .error Exception.assertion := by
    intro a b; cases a <;> rfl
  have h3 : BinaryInterfaceBase.call_zero_left (L := L) op.derived second
      = .error Exception.assertion := by
    unfold BinaryInterfaceBase.call_zero_left
    split
    · rfl
    · exact h1 op.policy.left_is_consumable op.policy.right_is_consumable
  have h4 : BinaryInterfaceBase.call_zero_right (R := R) op.derived first
      = .error Exception.assertion := by
    unfold BinaryInterfaceBase.call_zero_right
    split
    · rfl
    · exact h2 op.policy.left_is_consumable op.policy.right_is_consumable
  refine ⟨h3, h4, ?_, rfl, rfl, h1 LC RC, h2 LC RC⟩
  intro k
  rw [h3, h4]
  exact ⟨(by intro h; cases h), (by intro h; cases h)⟩

/-- C10, as stated, fails: with `Left` different from the `Result` type, the
null permutation and a consumable first array tile, the run-time dispatch
calls the in-place-into-left kernel, while the compile-time dispatch with the
run-time flags in place of the compile-time ones, and the table of the
specification, choose the out-of-place kernel. Types are tagged 0 (`Result`
and `Right`) and 1 (`Left`). -/
theorem C10_runtime_dispatch_ignores_types :
    BinaryInterface.call_array_array
      (ScalMult.derived (L := Nat) (R := Nat)
        ({ policy := ⟨0, 1, 0, false, false⟩, perm_ := ⟨[]⟩, factor_ := 2 } : ScalMult Nat Nat))
      ⟨10, true⟩ ⟨20, false⟩ = .ok (KernelCall.mult_to_first 10 20 2) ∧
    BinaryInterfaceBase.call
      (ScalMult.derived (L := Nat) (R := Nat)
        ({ policy := ⟨0, 1, 0, true, false⟩, perm_ := ⟨[]⟩, factor_ := 2 } : ScalMult Nat Nat))
      10 20 = .ok (KernelCall.mult 10 20 2) ∧
    (KernelCall.mult_to_first 10 20 2 : KernelCall Nat Nat Nat).action
      ≠ some (spec_dispatch_table false (true && decide ((0 : Nat) = 1))
        (false && decide ((0 : Nat) = 0))) := by
  refine ⟨rfl, rfl, by decide⟩

/-- C10, amended: for an operation declared with both compile-time
consumability flags false, dispatch on array tiles picks, with a non-null
permutation, always `permute_op`; otherwise `no_permute_op<true,false>` (in
place into the first operand) iff `first.is_consumable()`, else
`no_permute_op<false,true>` (in place into the second operand) iff
`second.is_consumable()`, else `no_permute_op<false,false>` (out of place);
an operand that is an ordinary tile is never consumed; and whenever `Left`
and `Right` are the `Result` type this is the kernel the compile-time dispatch
and the table of the specification pick with the run-time flags in place of
the compile-time ones (an ordinary tile counting as not consumable). -/
theorem C10_runtime_dispatch {Ty L R S : Type} [DecidableEq Ty] (op : ScalMult Ty S)
    (_hlc : op.policy.LeftConsumable = false) (_hrc : op.policy.RightConsumable = false)
    (first : ArrayTile L) (second : ArrayTile R) (tile1 : L) (tile2 : R) :
    -- two array tiles
    (∃ k : KernelCall L R S,
      BinaryInterface.call_array_array op.derived first second = .ok k ∧
      (op.perm_.to_bool = true →
        k = KernelCall.mult_perm first.eval second.eval op.factor_ op.perm_) ∧
      (op.perm_.to_bool = false →
        (k = KernelCall.mult_to_first first.eval second.eval op.factor_ ↔
          first.is_consumable = true) ∧
        (k = KernelCall.mult_to_second second.eval first.eval op.factor_ ↔
          (first.is_consumable = false ∧ second.is_consumable = true)) ∧
        (k = KernelCall.mult first.eval second.eval op.factor_ ↔
          (first.is_consumable = false ∧ second.is_consumable = false))) ∧
      (op.policy.Result = op.policy.Left → op.policy.Result = op.policy.Right →
        BinaryInterfaceBase.call
          (ScalMult.derived { op with policy := { op.policy with
            LeftConsumable := first.is_consumable,
            RightConsumable := second.is_consumable } }) first.eval second.eval = .ok k ∧
        k.action = some (spec_dispatch_table op.perm_.to_bool first.is_consumable
          second.is_consumable))) ∧
    -- an array tile and an ordinary tile
    (∃ k : KernelCall L R S,
      BinaryInterface.call_array_tile op.derived first tile2 = .ok k ∧
      (op.perm_.to_bool = true →
        k = KernelCall.mult_perm first.eval tile2 op.factor_ op.perm_) ∧
      (op.perm_.to_bool = false →
        (k = KernelCall.mult_to_first first.eval tile2 op.factor_ ↔
          first.is_consumable = true) ∧
        (k = KernelCall.mult first.eval tile2 op.factor_ ↔ first.is_consumable = false)) ∧
      k.action ≠ some SpecAction.in_place_right ∧
      (op.policy.Result = op.policy.Left → op.policy.Result = op.policy.Right →
        BinaryInterfaceBase.call
          (ScalMult.derived { op with policy := { op.policy with
            LeftConsumable := first.is_consumable,
            RightConsumable := false } }) first.eval tile2 = .ok k ∧
        k.action = some (spec_dispatch_table op.perm_.to_bool first.is_consumable false))) ∧
    -- an ordinary tile and an array tile
    (∃ k : KernelCall L R S,
      BinaryInterface.call_tile_array op.derived tile1 second = .ok k ∧
      (op.perm_.to_bool = true →
        k = KernelCall.mult_perm tile1 second.eval op.factor_ op.perm_) ∧
      (op.perm_.to_bool = false →
        (k = KernelCall.mult_to_second second.eval tile1 op.factor_ ↔
          second.is_consumable = true) ∧
        (k = KernelCall.mult tile1 second.eval op.factor_ ↔ second.is_consumable = false)) ∧
      k.action ≠ some SpecAction.in_place_left ∧
      (op.policy.Result = op.policy.Left → op.policy.Result = op.policy.Right →
        BinaryInterfaceBase.call
          (ScalMult.derived { op with policy := { op.policy with
            LeftConsumable := false,
            RightConsumable := second.is_consumable } }) tile1 second.eval = .ok k ∧
        k.action = some (spec_dispatch_table op.perm_.to_bool false
          second.is_consumable))) := by
  rcases op with ⟨⟨Res, Lf, Rt, lc, rc⟩, perm, factor⟩
  rcases first with ⟨e1, fc⟩
  rcases second with ⟨e2, sc⟩
  obtain ⟨pb, hpb⟩ : ∃ pb : Bool, pb = perm.to_bool := ⟨_, rfl⟩
  refine ⟨?_, ?_, ?_⟩
  · simp only [BinaryInterface.call_array_array, BinaryInterfaceBase.call, ScalMult.derived,
      ScalMult.no_permute_op, ScalMult.permute_op,
      BinaryTileOpPolicy.left_is_consumable, BinaryTileOpPolicy.right_is_consumable, ← hpb]
    cases pb <;> cases fc <;> cases sc <;>
      simp +contextual [KernelCall.action, spec_dispatch_table, pure, Except.pure]
  · simp only [BinaryInterface.call_array_tile, BinaryInterfaceBase.call, ScalMult.derived,
      ScalMult.no_permute_op, ScalMult.permute_op,
      BinaryTileOpPolicy.left_is_consumable, BinaryTileOpPolicy.right_is_consumable, ← hpb]
    cases pb <;> cases fc <;>
      simp +contextual [KernelCall.action, spec_dispatch_table, pure, Except.pure]
  · simp only [BinaryInterface.call_tile_array, BinaryInterfaceBase.call, ScalMult.derived,
      ScalMult.no_permute_op, ScalMult.permute_op,
      BinaryTileOpPolicy.left_is_consumable, BinaryTileOpPolicy.right_is_consumable, ← hpb]
    cases pb <;> cases sc <;>
      simp +contextual [KernelCall.action, spec_dispatch_table, pure, Except.pure]

/-- Witness of C10 (amended): `Result`, `Left` and `Right` are one type, the
permutation is null and both array tiles are consumable: the product is
stored in the first operand. -/
theorem C10_runtime_dispatch_witness :
    ∃ k : KernelCall Nat Nat Nat,
      BinaryInterface.call_array_array
        (ScalMult.derived
          ({ policy := ⟨0, 0, 0, false, false⟩, perm_ := ⟨[]⟩, factor_ := 2 } : ScalMult Nat Nat))
        ⟨10, true⟩ ⟨20, true⟩ = .ok k ∧
      k = KernelCall.mult_to_first 10 20 2 ∧
      k.action = some (spec_dispatch_table false true true) := by
  obtain ⟨⟨k, hk, _, h2, h3⟩, _, _⟩ := C10_runtime_dispatch
    ({ policy := ⟨0, 0, 0, false, false⟩, perm_ := ⟨[]⟩, factor_ := 2 } : ScalMult Nat Nat)
    rfl rfl (⟨10, true⟩ : ArrayTile Nat) (⟨20, true⟩ : ArrayTile Nat) (1 : Nat) (2 : Nat)
  exact ⟨k, hk, (h2 rfl).1.2 rfl, (h3 rfl rfl).2⟩

end math
end TiledArray


namespace TiledArray
namespace detail
namespace ReduceTask

section measures

variable {R A : Type}

@[simp]
theorem keys_nil : keys ([] : List (ReduceObject A)) = 0 := rfl

@[simp]
theorem keys_cons (o : ReduceObject A) (l : List (ReduceObject A)) :
    keys (o :: l) = {key o} + keys l := rfl

@[simp]
theorem keys_append (l1 l2 : List (ReduceObject A)) :
    keys (l1 ++ l2) = keys l1 + keys l2 := by
  simp [keys, List.map_append, ← Multiset.coe_add]

@[simp]
theorem taskq_folds_nil : taskq_folds ([] : List (SubTask R A)) = 0 := rfl

@[simp]
theorem taskq_folds_cons (t : SubTask R A) (q : List (SubTask R A)) :
    taskq_folds (t :: q) = (t.pc.map Instr.fold_keys).sum + taskq_folds q := rfl

@[simp]
theorem taskq_folds_append (q1 q2 : List (SubTask R A)) :
    taskq_folds (q1 ++ q2) = taskq_folds q1 + taskq_folds q2 := by
  simp [taskq_folds, List.map_append, List.sum_append]

@[simp]
theorem taskq_destroys_nil : taskq_destroys ([] : List (SubTask R A)) = 0 := rfl

@[simp]
theorem taskq_destroys_cons (t : SubTask R A) (q : List (SubTask R A)) :
    taskq_destroys (t :: q) = (t.pc.map Instr.destroy_keys).sum + taskq_destroys q := rfl

@[simp]
theorem taskq_destroys_append (q1 q2 : List (SubTask R A)) :
    taskq_destroys (q1 ++ q2) = taskq_destroys q1 + taskq_destroys q2 := by
  simp [taskq_destroys, List.map_append, List.sum_append]

@[simp]
theorem taskq_decs_nil : taskq_decs ([] : List (SubTask R A)) = 0 := rfl

@[simp]
theorem taskq_decs_cons (t : SubTask R A) (q : List (SubTask R A)) :
    taskq_decs (t :: q) = (t.pc.map Instr.decs).sum + taskq_decs q := rfl

@[simp]
theorem taskq_decs_append (q1 q2 : List (SubTask R A)) :
    taskq_decs (q1 ++ q2) = taskq_decs q1 + taskq_decs q2 := by
  simp [taskq_decs, List.map_append, List.sum_append]

/-- Splitting a list at a valid position: what `set` and `eraseIdx` do there. -/
theorem getElem?_split {α : Type} : ∀ (l : List α) (i : Nat) (a : α), l[i]? = some a →
    ∃ l1 l2, l = l1 ++ a :: l2 ∧ (∀ b, l.set i b = l1 ++ b :: l2) ∧ l.eraseIdx i = l1 ++ l2
  | [], i, a, h => by simp at h
  | x :: l, 0, a, h => by
    simp at h
    subst h
    exact ⟨[], l, rfl, fun b => rfl, rfl⟩
  | x :: l, i + 1, a, h => by
    simp at h
    obtain ⟨l1, l2, h1, h2, h3⟩ := getElem?_split l i a h
    refine ⟨x :: l1, l2, by simp [h1], fun b => ?_, ?_⟩
    · simp [h2 b]
    · simp [h3]

end measures

section invariant

variable {R A : Type}

theorem reduce_result_object_wf (r : R) (o : ReduceObject A) :
    (reduce_result_object r o).WF := by
  refine ⟨Or.inr ⟨[Instr.fold o, Instr.destroy o, Instr.reduce], rfl⟩, ?_, ?_, ?_, ?_⟩
  · intro _; simp [reduce_result_object]
  · intro _; simp [reduce_result_object]
  · simp [reduce_result_object]
  · intro h; simp [reduce_result_object] at h

theorem reduce_object_object_wf (o1 o2 : ReduceObject A) :
    (reduce_object_object o1 o2 : SubTask R A).WF := by
  refine ⟨Or.inr ⟨[Instr.new_result, Instr.fold o1, Instr.fold o2, Instr.destroy o1,
      Instr.destroy o2, Instr.reduce, Instr.dec], rfl⟩, ?_, ?_, ?_, ?_⟩
  · intro _; simp [reduce_object_object]
  · intro _; simp [reduce_object_object]
  · simp [reduce_object_object]
  · intro _; rfl

theorem pc_decs_le_taskq_decs (q : List (SubTask R A)) (t : SubTask R A) (ht : t ∈ q) :
    (t.pc.map Instr.decs).sum ≤ taskq_decs q := by
  induction q with
  | nil => cases ht
  | cons x q ih =>
    rcases List.mem_cons.1 ht with h | h
    · subst h; simp
    · have := ih h
      simp only [taskq_decs_cons]
      omega

/-- A sub-task that owes no decrement has finished. -/
theorem pc_nil_of_decs_zero (t : SubTask R A) (hwf : t.WF)
    (h : (t.pc.map Instr.decs).sum = 0) : t.pc = [] := by
  rcases hwf.last_dec with h1 | ⟨pc, h1⟩
  · exact h1
  · rw [h1] at h
    simp [Instr.decs] at h

theorem wf_pop (t : SubTask R A) (i : Instr R A) (rest : List (Instr R A)) (r : Option R)
    (hwf : t.WF) (hpc : t.pc = i :: rest) (hr : r.isSome = true → Instr.reduce ∈ rest) :
    SubTask.WF { result := r, pc := rest } := by
  have hnew : Instr.new_result ∉ rest := by
    have := hwf.new_head
    rw [hpc] at this
    exact this
  refine ⟨?_, hr, fun h => absurd h hnew, fun h => hnew (List.mem_of_mem_tail h),
    fun h => absurd h hnew⟩
  rcases hwf.last_dec with h1 | ⟨pc, h1⟩
  · rw [hpc] at h1; cases h1
  · rw [hpc] at h1
    cases pc with
    | nil =>
      simp at h1
      left; exact h1.2
    | cons x pc =>
      simp at h1
      right; exact ⟨pc, h1.2⟩

theorem wf_push (t : SubTask R A) (X rest : List (Instr R A)) (r : Option R)
    (hwf : t.WF) (hpc : t.pc = Instr.reduce :: rest) (hX : Instr.new_result ∉ X) :
    SubTask.WF { result := r, pc := X ++ Instr.reduce :: rest } := by
  have hnew : Instr.new_result ∉ rest := by
    have := hwf.new_head
    rw [hpc] at this
    exact this
  have hnew2 : Instr.new_result ∉ X ++ Instr.reduce :: rest := by
    intro h2
    rcases List.mem_append.1 h2 with h3 | h3
    · exact hX h3
    · rcases List.mem_cons.1 h3 with h4 | h4
      · cases h4
      · exact hnew h4
  refine ⟨?_, fun _ => by simp, fun _ => by simp, fun h => hnew2 (List.mem_of_mem_tail h),
    fun h => absurd h hnew2⟩
  rcases hwf.last_dec with h1 | ⟨pc, h1⟩
  · rw [hpc] at h1; cases h1
  · right
    refine ⟨X ++ pc, ?_⟩
    show X ++ Instr.reduce :: rest = X ++ pc ++ [Instr.dec]
    rw [← hpc, h1, List.append_assoc]

/-- Once `run` has been called nothing can happen any more. -/
theorem quiescent (op : ReduceOp R A) (s : State R A) (h : Inv op s) (hran : s.ran = true)
    (e : Event A) : step op s e = none := by
  obtain ⟨hdep0, hsub⟩ := h.ran_dep hran
  have hdep := h.dep
  rw [hdep0, hsub] at hdep
  simp only [if_true] at hdep
  have hw : s.waiting.length = 0 := by omega
  have hd : taskq_decs s.taskq = 0 := by omega
  cases e with
  | add arg probe => simp [step, add, hsub]
  | notify j =>
    have : s.waiting = [] := List.length_eq_zero.1 hw
    simp [step, notify, this]
  | task i =>
    simp only [step, task]
    cases hq : s.taskq[i]? with
    | none => rfl
    | some t =>
      have hmem : t ∈ s.taskq := List.getElem?_mem hq
      have h1 := pc_decs_le_taskq_decs s.taskq t hmem
      have h2 := pc_nil_of_decs_zero t (h.wf t hmem) (by omega)
      simp [h2]
  | submit => simp [step, submit, hsub]
  | run => simp [step, run, hran]

@[simp]
theorem ready_count_ (s : State R A) (o : ReduceObject A) :
    (ready s o).count_ = s.count_ := by
  unfold ready
  cases s.ready_result_ with
  | some r => rfl
  | none =>
    cases s.ready_object_ with
    | some o2 => rfl
    | none => rfl

/-- The invariant after `ready(object)`, from a state that satisfies it up to
the one argument `object`, which is accounted for nowhere yet. -/
theorem ready_inv (op : ReduceOp R A) (s0 : State R A) (o : ReduceObject A) (c : Nat)
    (hdep : s0.ndep = (if s0.submitted then 0 else 1) + (s0.waiting.length : Int)
      + ((s0.ready_object_.toList.length + taskq_decs s0.taskq : Nat) : Int) + 1)
    (hfolds : keys s0.added = keys s0.waiting
      + (keys s0.ready_object_.toList + taskq_folds s0.taskq) + keys s0.folded + {key o})
    (hdestroys : keys s0.added = keys s0.waiting
      + (keys s0.ready_object_.toList + taskq_destroys s0.taskq) + keys s0.destroyed + {key o})
    (hwf : ∀ t ∈ s0.taskq, t.WF)
    (hids : s0.added.map (fun o => o.id) = List.range c)
    (hran : s0.ran = false) (hres : s0.result_ = none) (hfail : s0.assert_failed = false) :
    Inv op { ready s0 o with count_ := c } := by
  unfold ready
  cases hr : s0.ready_result_ with
  | some r =>
    refine ⟨?_, ?_, ?_, ?_, hids, ?_, ?_, ?_⟩
    · simp only [hdep, taskq_decs_append, taskq_decs_cons, taskq_decs_nil, reduce_result_object,
        List.map_cons, List.map_nil, List.sum_cons, List.sum_nil, Instr.decs]
      push_cast
      omega
    · simp only [hfolds, taskq_folds_append, taskq_folds_cons, taskq_folds_nil,
        reduce_result_object, List.map_cons, List.map_nil, List.sum_cons, List.sum_nil,
        Instr.fold_keys]
      abel
    · simp only [hdestroys, taskq_destroys_append, taskq_destroys_cons, taskq_destroys_nil,
        reduce_result_object, List.map_cons, List.map_nil, List.sum_cons, List.sum_nil,
        Instr.destroy_keys]
      abel
    · intro t ht
      rcases List.mem_append.1 ht with ht | ht
      · exact hwf t ht
      · rw [List.mem_singleton.1 ht]; exact reduce_result_object_wf r o
    · intro h; simp [hran] at h
    · simp [hran, hres]
    · simp [hran, hfail]
  | none =>
    cases ho : s0.ready_object_ with
    | some o2 =>
      rw [ho] at hdep hfolds hdestroys
      refine ⟨?_, ?_, ?_, ?_, hids, ?_, ?_, ?_⟩
      · simp only [hdep, taskq_decs_append, taskq_decs_cons, taskq_decs_nil,
          reduce_object_object, List.map_cons, List.map_nil, List.sum_cons, List.sum_nil,
          Instr.decs, Option.toList, List.length_cons, List.length_nil]
        push_cast
        omega
      · simp only [hfolds, taskq_folds_append, taskq_folds_cons, taskq_folds_nil,
          reduce_object_object, List.map_cons, List.map_nil, List.sum_cons, List.sum_nil,
          Instr.fold_keys, Option.toList, keys_cons, keys_nil]
        abel
      · simp only [hdestroys, taskq_destroys_append, taskq_destroys_cons, taskq_destroys_nil,
          reduce_object_object, List.map_cons, List.map_nil, List.sum_cons, List.sum_nil,
          Instr.destroy_keys, Option.toList, keys_cons, keys_nil]
        abel
      · intro t ht
        rcases List.mem_append.1 ht with ht | ht
        · exact hwf t ht
        · rw [List.mem_singleton.1 ht]; exact reduce_object_object_wf o o2
      · intro h; simp [hran] at h
      · simp [hran, hres]
      · simp [hran, hfail]
    | none =>
      rw [ho] at hdep hfolds hdestroys
      refine ⟨?_, ?_, ?_, hwf, hids, ?_, ?_, ?_⟩
      · simp only [hdep, Option.toList, List.length_cons, List.length_nil]
        push_cast
        omega
      · simp only [hfolds, Option.toList, keys_cons, keys_nil]
        abel
      · simp only [hdestroys, Option.toList, keys_cons, keys_nil]
        abel
      · intro h; simp [hran] at h
      · simp [hran, hres]
      · simp [hran, hfail]

theorem add_inv (op : ReduceOp R A) (s s1 : State R A) (arg : A) (probe : Probe)
    (h : Inv op s) (hran : s.ran = false) (hs : add s arg probe = some s1) : Inv op s1 := by
  have hres : s.result_ = none := by rw [h.result_ran, hran]; rfl
  have hfail : s.assert_failed = false := by rw [h.failed_ran, hran]; rfl
  have hdep := h.dep
  have hfolds := h.folds
  have hdestroys := h.destroys
  cases hsub : s.submitted with
  | true => simp [add, hsub] at hs
  | false =>
    rw [hsub] at hdep
    cases hreg : register_callbacks probe with
    | none =>
      simp only [add, hsub, hreg] at hs
      simp only [Bool.false_eq_true, if_false, Option.some.injEq] at hs
      subst hs
      apply ready_inv
      · simp only [hsub, hdep]
      · simp only [keys_append, hfolds, keys_cons, keys_nil]
        abel
      · simp only [keys_append, hdestroys, keys_cons, keys_nil]
        abel
      · exact h.wf
      · simp [List.range_succ, h.ids]
      · exact hran
      · exact hres
      · exact hfail
    | some c =>
      simp only [add, hsub, hreg] at hs
      simp only [Bool.false_eq_true, if_false, Option.some.injEq] at hs
      subst hs
      refine ⟨?_, ?_, ?_, h.wf, ?_, ?_, ?_, ?_⟩
      · simp only [hsub, hdep]
        push_cast
        simp
        omega
      · simp only [keys_append, hfolds, keys_cons, keys_nil]
        abel
      · simp only [keys_append, hdestroys, keys_cons, keys_nil]
        abel
      · simp [List.range_succ, h.ids]
      · intro hr
        simp [hran] at hr
      · simp [hran, hres]
      · simp [hran, hfail]

theorem ready_eta (s : State R A) (o : ReduceObject A) :
    ready s o = { ready s o with count_ := s.count_ } := by
  unfold ready
  cases s.ready_result_ with
  | some r => rfl
  | none =>
    cases s.ready_object_ with
    | some o2 => rfl
    | none => rfl

theorem notify_inv (op : ReduceOp R A) (s s1 : State R A) (j : Nat)
    (h : Inv op s) (hran : s.ran = false) (hs : notify s j = some s1) : Inv op s1 := by
  have hres : s.result_ = none := by rw [h.result_ran, hran]; rfl
  have hfail : s.assert_failed = false := by rw [h.failed_ran, hran]; rfl
  have hdep := h.dep
  have hfolds := h.folds
  have hdestroys := h.destroys
  unfold notify at hs
  cases hw : s.waiting[j]? with
  | none => simp [hw] at hs
  | some o =>
    obtain ⟨l1, l2, e1, e2, e3⟩ := getElem?_split s.waiting j o hw
    simp only [hw] at hs
    rw [e1] at hdep hfolds hdestroys
    by_cases hc : o.count_ - 1 = 0
    · simp only [hc, if_true, Option.some.injEq] at hs
      subst hs
      rw [ready_eta]
      apply ready_inv
      · simp only [hdep, e3, List.length_append, List.length_cons]
        push_cast
        omega
      · simp only [hfolds, e3, keys_append, keys_cons]
        show _ = _ + {key o}
        abel
      · simp only [hdestroys, e3, keys_append, keys_cons]
        show _ = _ + {key o}
        abel
      · exact h.wf
      · exact h.ids
      · exact hran
      · exact hres
      · exact hfail
    · simp only [hc, if_false, Option.some.injEq] at hs
      subst hs
      refine ⟨?_, ?_, ?_, h.wf, h.ids, ?_, ?_, ?_⟩
      · simp only [hdep, e2, List.length_append, List.length_cons]
      · simp only [hfolds, e2, keys_append, keys_cons]
        rfl
      · simp only [hdestroys, e2, keys_append, keys_cons]
        rfl
      · intro hr
        simp [hran] at hr
      · simp [hran, hres]
      · simp [hran, hfail]

theorem submit_inv (op : ReduceOp R A) (s s1 : State R A)
    (h : Inv op s) (hran : s.ran = false) (hs : submit s = some s1) : Inv op s1 := by
  have hres : s.result_ = none := by rw [h.result_ran, hran]; rfl
  have hfail : s.assert_failed = false := by rw [h.failed_ran, hran]; rfl
  have hdep := h.dep
  cases hsub : s.submitted with
  | true => simp [submit, hsub] at hs
  | false =>
    simp only [submit, hsub, Bool.false_eq_true, if_false, Option.some.injEq] at hs
    subst hs
    rw [hsub] at hdep
    refine ⟨?_, h.folds, h.destroys, h.wf, h.ids, ?_, ?_, ?_⟩
    · simp only [hdep]
      simp
      omega
    · intro hr
      simp [hran] at hr
    · simp [hran, hres]
    · simp [hran, hfail]

theorem run_inv (op : ReduceOp R A) (s s1 : State R A)
    (h : Inv op s) (hran : s.ran = false) (hs : run op s = some s1) : Inv op s1 := by
  have hfail : s.assert_failed = false := by rw [h.failed_ran, hran]; rfl
  have hdep := h.dep
  unfold run at hs
  by_cases hc : (s.submitted && decide (s.ndep = 0) && !s.ran) = true
  · simp only [hc, if_true] at hs
    simp only [Bool.and_eq_true, decide_eq_true_eq] at hc
    obtain ⟨⟨hsub, hz⟩, -⟩ := hc
    cases hr : s.ready_result_ with
    | some r =>
      simp only [hr, Option.some.injEq] at hs
      subst hs
      refine ⟨hdep, h.folds, h.destroys, h.wf, h.ids, fun _ => ⟨hz, hsub⟩, ?_, ?_⟩
      · simp [hr]
      · simp [hr, hfail]
    | none =>
      simp only [hr, Option.some.injEq] at hs
      subst hs
      have hres : s.result_ = none := by rw [h.result_ran, hran]; rfl
      refine ⟨hdep, h.folds, h.destroys, h.wf, h.ids, fun _ => ⟨hz, hsub⟩, ?_, ?_⟩
      · simp [hr, hres]
      · simp [hr]
  · simp only [hc] at hs
    simp at hs

/-- The invariant after a statement of one sub-task: the sub-task `t` becomes
`t1`, and what it takes from or gives to the parked slot, the dependency
counter and the history balances. -/
theorem task_frame (op : ReduceOp R A) (s s1 : State R A) (h : Inv op s)
    (hran : s.ran = false) (l1 l2 : List (SubTask R A)) (t t1 : SubTask R A)
    (e : s.taskq = l1 ++ t :: l2) (e1 : s1.taskq = l1 ++ t1 :: l2)
    (hsub : s1.submitted = s.submitted) (hwait : s1.waiting = s.waiting)
    (hadd : s1.added = s.added) (hcount : s1.count_ = s.count_) (hran1 : s1.ran = s.ran)
    (hres1 : s1.result_ = s.result_) (hfail1 : s1.assert_failed = s.assert_failed)
    (hD : s1.ndep + ((s.ready_object_.toList.length + (t.pc.map Instr.decs).sum : Nat) : Int)
      = s.ndep + ((s1.ready_object_.toList.length + (t1.pc.map Instr.decs).sum : Nat) : Int))
    (hF : keys s1.ready_object_.toList + (t1.pc.map Instr.fold_keys).sum + keys s1.folded
      = keys s.ready_object_.toList + (t.pc.map Instr.fold_keys).sum + keys s.folded)
    (hDs : keys s1.ready_object_.toList + (t1.pc.map Instr.destroy_keys).sum
        + keys s1.destroyed
      = keys s.ready_object_.toList + (t.pc.map Instr.destroy_keys).sum + keys s.destroyed)
    (hwf : t.WF → t1.WF) : Inv op s1 := by
  have hres : s.result_ = none := by rw [h.result_ran, hran]; rfl
  have hfail : s.assert_failed = false := by rw [h.failed_ran, hran]; rfl
  have hdep := h.dep
  have hfolds := h.folds
  have hdestroys := h.destroys
  rw [e] at hdep hfolds hdestroys
  simp only [taskq_decs_append, taskq_decs_cons, taskq_folds_append, taskq_folds_cons,
    taskq_destroys_append, taskq_destroys_cons] at hdep hfolds hdestroys
  refine ⟨?_, ?_, ?_, ?_, ?_, ?_, ?_, ?_⟩
  · rw [e1, hsub, hwait]
    simp only [taskq_decs_append, taskq_decs_cons]
    push_cast at hD hdep ⊢
    omega
  · rw [e1, hwait, hadd, hfolds]
    simp only [taskq_folds_append, taskq_folds_cons]
    calc keys s.waiting + (keys s.ready_object_.toList + (taskq_folds l1 +
            ((t.pc.map Instr.fold_keys).sum + taskq_folds l2))) + keys s.folded
        = (keys s.ready_object_.toList + (t.pc.map Instr.fold_keys).sum + keys s.folded)
            + (keys s.waiting + taskq_folds l1 + taskq_folds l2) := by abel
      _ = (keys s1.ready_object_.toList + (t1.pc.map Instr.fold_keys).sum + keys s1.folded)
            + (keys s.waiting + taskq_folds l1 + taskq_folds l2) := by rw [hF]
      _ = _ := by abel
  · rw [e1, hwait, hadd, hdestroys]
    simp only [taskq_destroys_append, taskq_destroys_cons]
    calc keys s.waiting + (keys s.ready_object_.toList + (taskq_destroys l1 +
            ((t.pc.map Instr.destroy_keys).sum + taskq_destroys l2))) + keys s.destroyed
        = (keys s.ready_object_.toList + (t.pc.map Instr.destroy_keys).sum
            + keys s.destroyed) + (keys s.waiting + taskq_destroys l1 + taskq_destroys l2) := by
          abel
      _ = (keys s1.ready_object_.toList + (t1.pc.map Instr.destroy_keys).sum
            + keys s1.destroyed) + (keys s.waiting + taskq_destroys l1 + taskq_destroys l2) := by
          rw [hDs]
      _ = _ := by abel
  · intro x hx
    rw [e1] at hx
    have hw := h.wf
    rw [e] at hw
    rcases List.mem_append.1 hx with hx | hx
    · exact hw x (List.mem_append.2 (Or.inl hx))
    · rcases List.mem_cons.1 hx with hx | hx
      · rw [hx]
        exact hwf (hw t (List.mem_append.2 (Or.inr (List.mem_cons_self _ _))))
      · exact hw x (List.mem_append.2 (Or.inr (List.mem_cons_of_mem _ hx)))
  · rw [hadd, hcount]; exact h.ids
  · intro hr
    rw [hran1, hran] at hr
    cases hr
  · rw [hres1, hran1, hran, hres]; rfl
  · rw [hfail1, hran1, hran, hfail]; rfl

theorem task_inv (op : ReduceOp R A) (s s1 : State R A) (i : Nat)
    (h : Inv op s) (hran : s.ran = false) (hs : task op s i = some s1) : Inv op s1 := by
  unfold task at hs
  cases hq : s.taskq[i]? with
  | none => simp [hq] at hs
  | some t =>
    obtain ⟨l1, l2, e1, e2, -⟩ := getElem?_split s.taskq i t hq
    simp only [hq] at hs
    rcases t with ⟨res, pc⟩
    cases pc with
    | nil => simp at hs
    | cons instr rest =>
      cases instr with
      | new_result =>
        simp only [Option.some.injEq] at hs
        subst hs
        refine task_frame op s _ h hran l1 l2 _ _ e1 (e2 _) rfl rfl rfl rfl rfl rfl rfl
          ?_ ?_ ?_ ?_
        · simp [Instr.decs]
        · simp [Instr.fold_keys]
        · simp [Instr.destroy_keys]
        · intro hwf
          refine wf_pop _ _ rest _ hwf rfl ?_
          intro _
          have := hwf.new_reduce (by simp)
          simpa using this
      | fold object =>
        cases res with
        | none => simp at hs
        | some r =>
          simp only [Option.some.injEq] at hs
          subst hs
          refine task_frame op s _ h hran l1 l2 _ _ e1 (e2 _) rfl rfl rfl rfl rfl rfl rfl
            ?_ ?_ ?_ ?_
          · simp [Instr.decs]
          · simp [Instr.fold_keys]
            simp only [← Multiset.singleton_add]
            abel
          · simp [Instr.destroy_keys]
          · intro hwf
            refine wf_pop _ _ rest _ hwf rfl ?_
            intro _
            have := hwf.result_reduce (by simp)
            simpa using this
      | combine ready_result =>
        cases res with
        | none => simp at hs
        | some r =>
          simp only [Option.some.injEq] at hs
          subst hs
          refine task_frame op s _ h hran l1 l2 _ _ e1 (e2 _) rfl rfl rfl rfl rfl rfl rfl
            ?_ ?_ ?_ ?_
          · simp [Instr.decs]
          · simp [Instr.fold_keys]
          · simp [Instr.destroy_keys]
          · intro hwf
            refine wf_pop _ _ rest _ hwf rfl ?_
            intro _
            have := hwf.result_reduce (by simp)
            simpa using this
      | destroy object =>
        simp only [Option.some.injEq] at hs
        subst hs
        refine task_frame op s _ h hran l1 l2 _ _ e1 (e2 _) rfl rfl rfl rfl rfl rfl rfl
          ?_ ?_ ?_ ?_
        · simp [Instr.decs]
        · simp [Instr.fold_keys]
        · simp [Instr.destroy_keys]
          simp only [← Multiset.singleton_add]
          abel
        · intro hwf
          refine wf_pop _ _ rest _ hwf rfl ?_
          intro hr
          have := hwf.result_reduce hr
          simpa using this
      | dec =>
        simp only [Option.some.injEq] at hs
        subst hs
        refine task_frame op s _ h hran l1 l2 _ _ e1 (e2 _) rfl rfl rfl rfl rfl rfl rfl
          ?_ ?_ ?_ ?_
        · simp [Instr.decs]
          omega
        · simp [Instr.fold_keys]
        · simp [Instr.destroy_keys]
        · intro hwf
          refine wf_pop _ _ rest _ hwf rfl ?_
          intro hr
          have := hwf.result_reduce hr
          simpa using this
      | reduce =>
        cases res with
        | none =>
          simp only [Option.some.injEq] at hs
          subst hs
          refine task_frame op s _ h hran l1 l2 _ _ e1 (e2 _) rfl rfl rfl rfl rfl rfl rfl
            ?_ ?_ ?_ ?_
          · simp [Instr.decs]
          · simp [Instr.fold_keys]
          · simp [Instr.destroy_keys]
          · intro hwf
            refine wf_pop _ _ rest _ hwf rfl ?_
            intro hr
            simp at hr
        | some r =>
          cases ho : s.ready_object_ with
          | some o =>
            simp only [ho, Option.some.injEq] at hs
            subst hs
            refine task_frame op s _ h hran l1 l2 _ _ e1 (e2 _) rfl rfl rfl rfl rfl rfl rfl
              ?_ ?_ ?_ ?_
            · simp [Instr.decs, ho]
            · simp [Instr.fold_keys, ho]
            · simp [Instr.destroy_keys, ho]
            · intro hwf
              exact wf_push _ [Instr.fold o, Instr.destroy o, Instr.dec] rest _ hwf rfl
                (by simp)
          | none =>
            cases hr : s.ready_result_ with
            | some r2 =>
              simp only [ho, hr, Option.some.injEq] at hs
              subst hs
              refine task_frame op s _ h hran l1 l2 _ _ e1 (e2 _) rfl rfl rfl rfl rfl rfl rfl
                ?_ ?_ ?_ ?_
              · simp [Instr.decs, ho]
              · simp [Instr.fold_keys, ho]
              · simp [Instr.destroy_keys, ho]
              · intro hwf
                exact wf_push _ [Instr.combine r2] rest _ hwf rfl (by simp)
            | none =>
              simp only [ho, hr, Option.some.injEq] at hs
              subst hs
              refine task_frame op s _ h hran l1 l2 _ _ e1 (e2 _) rfl rfl rfl rfl rfl rfl rfl
                ?_ ?_ ?_ ?_
              · simp [Instr.decs, ho]
              · simp [Instr.fold_keys, ho]
              · simp [Instr.destroy_keys, ho]
              · intro hwf
                exact wf_push _ [] rest _ hwf rfl (by simp)

/-- Every step of an execution preserves the invariant. -/
theorem step_inv (op : ReduceOp R A) (s s1 : State R A) (e : Event A)
    (h : Inv op s) (hs : step op s e = some s1) : Inv op s1 := by
  cases hran : s.ran with
  | true =>
    rw [quiescent op s h hran e] at hs
    cases hs
  | false =>
    cases e with
    | add arg probe => exact add_inv op s s1 arg probe h hran hs
    | notify j => exact notify_inv op s s1 j h hran hs
    | task i => exact task_inv op s s1 i h hran hs
    | submit => exact submit_inv op s s1 h hran hs
    | run => exact run_inv op s s1 h hran hs

theorem init_inv (op : ReduceOp R A) : Inv op (init op) := by
  refine ⟨?_, ?_, ?_, ?_, ?_, ?_, ?_, ?_⟩ <;> simp [init]

/-- The invariant holds in every state an execution reaches. -/
theorem exec_inv (op : ReduceOp R A) : ∀ (es : List (Event A)) (s s1 : State R A),
    Inv op s → exec op es s = some s1 → Inv op s1
  | [], s, s1, h, hs => by
    simp only [exec, Option.some.injEq] at hs
    rw [← hs]; exact h
  | e :: es, s, s1, h, hs => by
    simp only [exec] at hs
    cases hst : step op s e with
    | none => simp [hst] at hs
    | some s2 =>
      simp only [hst] at hs
      exact exec_inv op es s2 s1 (step_inv op s s2 e h hst) hs

theorem taskq_folds_of_finished (q : List (SubTask R A)) (h : ∀ t ∈ q, t.pc = []) :
    taskq_folds q = 0 ∧ taskq_destroys q = 0 := by
  induction q with
  | nil => exact ⟨rfl, rfl⟩
  | cons t q ih =>
    obtain ⟨h1, h2⟩ := ih (fun x hx => h x (List.mem_cons_of_mem _ hx))
    have ht := h t (List.mem_cons_self _ _)
    simp [ht, h1, h2]

/-- Where `run` has been called: nothing waits, nothing is parked, and every
sub-task has finished. -/
theorem finished_of_ran (op : ReduceOp R A) (s : State R A) (h : Inv op s)
    (hran : s.ran = true) :
    s.waiting = [] ∧ s.ready_object_ = none ∧ ∀ t ∈ s.taskq, t.pc = [] ∧ t.result = none := by
  obtain ⟨hdep0, hsub⟩ := h.ran_dep hran
  have hdep := h.dep
  rw [hdep0, hsub] at hdep
  simp only [if_true] at hdep
  have hw : s.waiting.length = 0 := by omega
  have hd : taskq_decs s.taskq = 0 := by omega
  have hp : s.ready_object_.toList.length = 0 := by omega
  refine ⟨List.length_eq_zero.1 hw, ?_, ?_⟩
  · cases ho : s.ready_object_ with
    | none => rfl
    | some o => simp [ho] at hp
  · intro t ht
    have h1 := pc_decs_le_taskq_decs s.taskq t ht
    have h2 := pc_nil_of_decs_zero t (h.wf t ht) (by omega)
    refine ⟨h2, ?_⟩
    cases hr : t.result with
    | none => rfl
    | some r =>
      have := (h.wf t ht).result_reduce (by simp [hr])
      rw [h2] at this
      cases this

end invariant

section value

variable {R A : Type}

@[simp]
theorem ready_folded (s : State R A) (o : ReduceObject A) :
    (ready s o).folded = s.folded := by
  unfold ready
  cases s.ready_result_ with
  | some r => rfl
  | none =>
    cases s.ready_object_ with
    | some o2 => rfl
    | none => rfl

theorem held_prod_split [CommMonoid R] (s : State R A) (l1 l2 : List (SubTask R A))
    (t : SubTask R A) (e : s.taskq = l1 ++ t :: l2) :
    (held s).prod = s.ready_result_.toList.prod *
      ((l1.map SubTask.held).flatten.prod * (t.held.prod * (l2.map SubTask.held).flatten.prod)) := by
  simp [held, e, List.prod_append]

theorem held_prod_ready [CommMonoid R] (s : State R A) (o : ReduceObject A) :
    (held (ready s o)).prod = (held s).prod := by
  unfold ready
  cases hr : s.ready_result_ with
  | some r =>
    simp [held, hr, SubTask.held, reduce_result_object, Instr.held, List.prod_append]
    exact mul_comm _ _
  | none =>
    cases ho : s.ready_object_ with
    | some o2 =>
      simp [held, hr, SubTask.held, reduce_object_object, Instr.held, List.prod_append]
    | none =>
      simp [held, hr]

/-- The product of all result objects is the product of the arguments reduced
so far, when `op(result, result)` is the product of a commutative monoid with
unit `op()` and `op(result, arg)` multiplies `result` by the image of `arg`. -/
theorem step_value [CommMonoid R] (op : ReduceOp R A)
    (hc : ∀ a b, op.combine a b = a * b) (he : op.empty = 1)
    (hf : ∀ r a, op.fold r a = r * op.fold 1 a) (s s1 : State R A) (e : Event A)
    (hs : step op s e = some s1) (hwf : ∀ t ∈ s.taskq, t.WF)
    (hV : (held s).prod = (s.folded.map (fun o => op.fold 1 o.arg_)).prod) :
    (held s1).prod = (s1.folded.map (fun o => op.fold 1 o.arg_)).prod := by
  cases e with
  | add arg probe =>
    simp only [step, add] at hs
    cases hsub : s.submitted with
    | true => simp [hsub] at hs
    | false =>
      simp only [hsub, Bool.false_eq_true, if_false, Option.some.injEq] at hs
      subst hs
      cases hreg : register_callbacks probe with
      | none =>
        show (held (ready _ _)).prod = ((ready _ _).folded.map _).prod
        rw [held_prod_ready, ready_folded]
        exact hV
      | some c => exact hV
  | notify j =>
    simp only [step, notify] at hs
    cases hw : s.waiting[j]? with
    | none => simp [hw] at hs
    | some o =>
      simp only [hw] at hs
      by_cases hcz : o.count_ - 1 = 0
      · simp only [hcz, if_true, Option.some.injEq] at hs
        subst hs
        rw [held_prod_ready, ready_folded]
        exact hV
      · simp only [hcz, if_false, Option.some.injEq] at hs
        subst hs
        exact hV
  | submit =>
    simp only [step, submit] at hs
    cases hsub : s.submitted with
    | true => simp [hsub] at hs
    | false =>
      simp only [hsub, Bool.false_eq_true, if_false, Option.some.injEq] at hs
      subst hs
      exact hV
  | run =>
    simp only [step, run] at hs
    by_cases hcnd : (s.submitted && decide (s.ndep = 0) && !s.ran) = true
    · simp only [hcnd, if_true] at hs
      cases hr : s.ready_result_ with
      | some r =>
        simp only [hr, Option.some.injEq] at hs
        subst hs
        simpa [held, hr] using hV
      | none =>
        simp only [hr, Option.some.injEq] at hs
        subst hs
        simpa [held, hr] using hV
    · simp only [hcnd] at hs
      simp at hs
  | task i =>
    simp only [step, task] at hs
    cases hq : s.taskq[i]? with
    | none => simp [hq] at hs
    | some t =>
      obtain ⟨l1, l2, e1, e2, -⟩ := getElem?_split s.taskq i t hq
      simp only [hq] at hs
      rw [held_prod_split s l1 l2 t e1] at hV
      rcases t with ⟨res, pc⟩
      cases pc with
      | nil => simp at hs
      | cons instr rest =>
        cases instr with
        | new_result =>
          simp only [Option.some.injEq] at hs
          subst hs
          rw [held_prod_split _ l1 l2 _ (e2 _)]
          have hres : res = none :=
            (hwf _ (List.getElem?_mem hq)).new_none (List.mem_cons_self _ _)
          subst hres
          simpa [SubTask.held, Instr.held, he] using hV
        | fold object =>
          cases res with
          | none => simp at hs
          | some r =>
            simp only [Option.some.injEq] at hs
            subst hs
            rw [held_prod_split _ l1 l2 _ (e2 _)]
            simp only [SubTask.held, Instr.held, Option.toList, List.map_cons, List.flatten_cons,
              List.nil_append, List.singleton_append, List.prod_cons, List.map_append,
              List.prod_append, List.map_nil, List.prod_nil, mul_one] at hV ⊢
            rw [← hV, hf r]
            simp only [mul_assoc, mul_comm, mul_left_comm]
        | combine ready_result =>
          cases res with
          | none => simp at hs
          | some r =>
            simp only [Option.some.injEq] at hs
            subst hs
            rw [held_prod_split _ l1 l2 _ (e2 _)]
            simp only [SubTask.held, Instr.held, Option.toList, List.map_cons, List.flatten_cons,
              List.nil_append, List.singleton_append, List.prod_cons] at hV ⊢
            rw [← hV, hc]
            simp only [mul_assoc, mul_comm, mul_left_comm]
        | destroy object =>
          simp only [Option.some.injEq] at hs
          subst hs
          rw [held_prod_split _ l1 l2 _ (e2 _)]
          simpa [SubTask.held, Instr.held] using hV
        | dec =>
          simp only [Option.some.injEq] at hs
          subst hs
          rw [held_prod_split _ l1 l2 _ (e2 _)]
          simpa [SubTask.held, Instr.held] using hV
        | reduce =>
          cases res with
          | none =>
            simp only [Option.some.injEq] at hs
            subst hs
            rw [held_prod_split _ l1 l2 _ (e2 _)]
            simpa [SubTask.held, Instr.held] using hV
          | some r =>
            cases ho : s.ready_object_ with
            | some o =>
              simp only [ho, Option.some.injEq] at hs
              subst hs
              rw [held_prod_split _ l1 l2 _ (e2 _)]
              simpa [SubTask.held, Instr.held] using hV
            | none =>
              cases hr : s.ready_result_ with
              | some r2 =>
                simp only [ho, hr, Option.some.injEq] at hs
                subst hs
                rw [held_prod_split _ l1 l2 _ (e2 _)]
                simp only [hr, SubTask.held, Instr.held, Option.toList, List.map_cons,
                  List.flatten_cons, List.nil_append, List.singleton_append, List.prod_cons,
                  List.prod_nil, one_mul, mul_one] at hV ⊢
                rw [← hV]
                simp only [mul_assoc, mul_comm, mul_left_comm]
              | none =>
                simp only [ho, hr, Option.some.injEq] at hs
                subst hs
                rw [held_prod_split _ l1 l2 _ (e2 _)]
                simp only [hr, SubTask.held, Instr.held, Option.toList, List.map_cons,
                  List.flatten_cons, List.nil_append, List.singleton_append, List.prod_cons,
                  List.prod_nil, one_mul, mul_one] at hV ⊢
                rw [← hV]
                simp only [mul_assoc, mul_comm, mul_left_comm]

theorem exec_value [CommMonoid R] (op : ReduceOp R A)
    (hc : ∀ a b, op.combine a b = a * b) (he : op.empty = 1)
    (hf : ∀ r a, op.fold r a = r * op.fold 1 a) :
    ∀ (es : List (Event A)) (s s1 : State R A), Inv op s →
      (held s).prod = (s.folded.map (fun o => op.fold 1 o.arg_)).prod →
      exec op es s = some s1 →
      (held s1).prod = (s1.folded.map (fun o => op.fold 1 o.arg_)).prod
  | [], s, s1, _, hV, hs => by
    simp only [exec, Option.some.injEq] at hs
    rw [← hs]; exact hV
  | e :: es, s, s1, h, hV, hs => by
    simp only [exec] at hs
    cases hst : step op s e with
    | none => simp [hst] at hs
    | some s2 =>
      simp only [hst] at hs
      exact exec_value op hc he hf es s2 s1 (step_inv op s s2 e h hst)
        (step_value op hc he hf s s2 e hst h.wf hV) hs

theorem foldl_fold_eq [CommMonoid R] (op : ReduceOp R A)
    (hf : ∀ r a, op.fold r a = r * op.fold 1 a) :
    ∀ (l : List A) (x : R), l.foldl op.fold x = x * (l.map (fun a => op.fold 1 a)).prod
  | [], x => by simp
  | a :: l, x => by
    rw [List.foldl_cons, foldl_fold_eq op hf l, hf x a, List.map_cons, List.prod_cons, mul_assoc]

/-- The value delivered by an execution, when `op(result, result)` is the
product of a commutative monoid. -/
theorem result_value [CommMonoid R] (op : ReduceOp R A)
    (hc : ∀ a b, op.combine a b = a * b) (he : op.empty = 1)
    (hf : ∀ r a, op.fold r a = r * op.fold 1 a) (es : List (Event A)) (s : State R A)
    (v : R) (hexec : exec op es (init op) = some s) (hv : s.result_ = some v) :
    v = op.post ((s.added.map (fun o => op.fold 1 o.arg_)).prod) := by
  have h := exec_inv op es (init op) s (init_inv op) hexec
  have hV := exec_value op hc he hf es (init op) s (init_inv op)
    (by simp [held, init, he]) hexec
  have hrr := h.result_ran
  rw [hv] at hrr
  cases hran : s.ran with
  | false => simp [hran] at hrr
  | true =>
    simp only [hran, if_true] at hrr
    cases hr : s.ready_result_ with
    | none => simp [hr] at hrr
    | some r =>
      simp only [hr, Option.map_some', Option.some.injEq] at hrr
      obtain ⟨hw, hp, ht⟩ := finished_of_ran op s h hran
      obtain ⟨hfo, -⟩ := taskq_folds_of_finished s.taskq (fun t ht1 => (ht t ht1).1)
      have hheld : (s.taskq.map SubTask.held).flatten = [] := by
        rw [List.flatten_eq_nil_iff]
        intro l hl
        obtain ⟨t, ht1, rfl⟩ := List.mem_map.1 hl
        obtain ⟨h1, h2⟩ := ht t ht1
        simp [SubTask.held, h1, h2]
      have hfolds := h.folds
      rw [hw, hp, hfo] at hfolds
      simp only [Option.toList, keys_nil, zero_add, add_zero] at hfolds
      have p1 : (s.added.map key).Perm (s.folded.map key) := Multiset.coe_eq_coe.1 hfolds
      have p2 : (s.added.map (fun o => op.fold 1 o.arg_)).Perm
          (s.folded.map (fun o => op.fold 1 o.arg_)) := by
        have := p1.map (fun k : Nat × A => op.fold 1 k.2)
        simpa [List.map_map, Function.comp_def, key] using this
      rw [p2.prod_eq, ← hV, hrr]
      simp [held, hr, hheld]

end value

/-- Summation of natural numbers satisfies the laws of a reduction operation. -/
theorem sum_op_lawful : sum_op.Lawful :=
  ⟨fun a b c => Nat.add_assoc a b c, fun a b => Nat.add_comm a b, fun a => Nat.zero_add a,
    fun r a => by show r + a = r + (0 + a); rw [Nat.zero_add]⟩


/-- C5: in every execution of a ReduceTask (any interleaving of additions,
ready notifications and statements of spawned sub-tasks) that reaches the
final `run` call, each argument added with `add()` has been folded into an
accumulator by `op(result, arg)` exactly once and destroyed exactly once: the
folded arguments and the destroyed arguments are, up to order, the added
ones, and no object occurs twice among them. -/
theorem C5_every_argument_folded_once {R A : Type} (op : ReduceOp R A) (es : List (Event A))
    (s : State R A) (hexec : exec op es (init op) = some s) (hrun : s.ran = true) :
    (s.folded.map key).Perm (s.added.map key) ∧
    (s.destroyed.map key).Perm (s.added.map key) ∧
    (s.added.map (fun o => o.id)).Nodup ∧
    (∀ o ∈ s.added, (s.folded.map (fun x => x.id)).count o.id = 1 ∧
      (s.destroyed.map (fun x => x.id)).count o.id = 1) ∧
    (∀ x, (∀ o ∈ s.added, o.id ≠ x) → (s.folded.map (fun o => o.id)).count x = 0 ∧
      (s.destroyed.map (fun o => o.id)).count x = 0) := by
  have h := exec_inv op es (init op) s (init_inv op) hexec
  obtain ⟨hw, hp, ht⟩ := finished_of_ran op s h hrun
  obtain ⟨hf, hd⟩ := taskq_folds_of_finished s.taskq (fun t ht1 => (ht t ht1).1)
  have hfolds := h.folds
  have hdestroys := h.destroys
  rw [hw, hp, hf] at hfolds
  rw [hw, hp, hd] at hdestroys
  simp only [Option.toList, keys_nil, zero_add, add_zero] at hfolds hdestroys
  have p1 : (s.folded.map key).Perm (s.added.map key) :=
    (Multiset.coe_eq_coe.1 hfolds).symm
  have p2 : (s.destroyed.map key).Perm (s.added.map key) :=
    (Multiset.coe_eq_coe.1 hdestroys).symm
  have hnd : (s.added.map (fun o => o.id)).Nodup := by
    rw [h.ids]; exact List.nodup_range _
  have q1 : (s.folded.map (fun o => o.id)).Perm (s.added.map (fun o => o.id)) := by
    have := p1.map Prod.fst
    simpa [List.map_map, Function.comp_def, key] using this
  have q2 : (s.destroyed.map (fun o => o.id)).Perm (s.added.map (fun o => o.id)) := by
    have := p2.map Prod.fst
    simpa [List.map_map, Function.comp_def, key] using this
  refine ⟨p1, p2, hnd, ?_, ?_⟩
  · intro o ho
    have hmem : o.id ∈ s.added.map (fun o => o.id) := List.mem_map.2 ⟨o, ho, rfl⟩
    rw [q1.count_eq, q2.count_eq]
    exact ⟨List.count_eq_one_of_mem hnd hmem, List.count_eq_one_of_mem hnd hmem⟩
  · intro x hx
    have hnot : x ∉ s.added.map (fun o => o.id) := by
      intro hmem
      obtain ⟨o, ho, rfl⟩ := List.mem_map.1 hmem
      exact hx o ho rfl
    rw [q1.count_eq, q2.count_eq]
    exact ⟨List.count_eq_zero_of_not_mem hnot, List.count_eq_zero_of_not_mem hnot⟩

/-- Witness of C5: the example schedule of three arguments reaches `run`. -/
theorem C5_every_argument_folded_once_witness :
    ∃ s : State Nat Nat,
      exec sum_op example_schedule (init sum_op) = some s ∧
      s.ran = true ∧
      s.added.map key = [(0, 5), (1, 7), (2, 9)] ∧
      s.folded.map key = [(1, 7), (0, 5), (2, 9)] ∧
      (s.folded.map key).Perm (s.added.map key) ∧
      (s.destroyed.map key).Perm (s.added.map key) :=
  ⟨_, rfl, rfl, rfl, rfl,
    (C5_every_argument_folded_once sum_op example_schedule _ rfl rfl).1,
    (C5_every_argument_folded_once sum_op example_schedule _ rfl rfl).2.1⟩

/-- C6: for a reduction operation whose `op(result, result)` is associative and
commutative with `op()` as its identity and whose `op(result, arg)` is
compatible with it, the value a ReduceTask delivers is the same for every
arrival order and every schedule of the same multiset of arguments: it is
the post-processing `op(result)` applied to the fold of all arguments
starting from `op()`. -/
theorem C6_result_independent_of_schedule {R A : Type} (op : ReduceOp R A)
    (hlaw : op.Lawful) (es1 es2 : List (Event A)) (s1 s2 : State R A) (v1 v2 : R)
    (hexec1 : exec op es1 (init op) = some s1) (hexec2 : exec op es2 (init op) = some s2)
    (hperm : (s1.added.map (fun o => o.arg_)).Perm (s2.added.map (fun o => o.arg_)))
    (hv1 : s1.result_ = some v1) (hv2 : s2.result_ = some v2) :
    v1 = v2 ∧ v1 = op.post ((s1.added.map (fun o => o.arg_)).foldl op.fold op.empty) := by
  letI inst : CommMonoid R :=
    { mul := op.combine
      one := op.empty
      mul_assoc := hlaw.assoc
      one_mul := hlaw.empty_combine
      mul_one := fun a => (hlaw.comm a op.empty).trans (hlaw.empty_combine a)
      mul_comm := hlaw.comm }
  have hc : ∀ a b, op.combine a b = a * b := fun _ _ => rfl
  have he : op.empty = 1 := rfl
  have hf : ∀ r a, op.fold r a = r * op.fold 1 a := hlaw.fold_combine
  have e1 := result_value op hc he hf es1 s1 v1 hexec1 hv1
  have e2 := result_value op hc he hf es2 s2 v2 hexec2 hv2
  have hp : (s1.added.map (fun o => op.fold 1 o.arg_)).Perm
      (s2.added.map (fun o => op.fold 1 o.arg_)) := by
    have := hperm.map (fun a => op.fold 1 a)
    simpa [List.map_map, Function.comp_def] using this
  have hfold : (s1.added.map (fun o => o.arg_)).foldl op.fold op.empty
      = (s1.added.map (fun o => op.fold 1 o.arg_)).prod := by
    rw [foldl_fold_eq op hf, List.map_map]
    show 1 * _ = _
    rw [one_mul]
    rfl
  refine ⟨?_, ?_⟩
  · rw [e1, e2, hp.prod_eq]
  · rw [e1, hfold]

/-- Witness of C6: the two example schedules add the arguments 5, 7, 9 in
different orders and reduce them in different orders; both deliver 21. -/
theorem C6_result_independent_of_schedule_witness :
    ∃ s1 s2 : State Nat Nat,
      exec sum_op example_schedule (init sum_op) = some s1 ∧
      exec sum_op example_schedule_permuted (init sum_op) = some s2 ∧
      s1.added.map (fun o => o.arg_) = [5, 7, 9] ∧
      s2.added.map (fun o => o.arg_) = [9, 5, 7] ∧
      s1.result_ = some 21 ∧ s2.result_ = some 21 ∧
      (21 : Nat) = sum_op.post (([5, 7, 9] : List Nat).foldl sum_op.fold sum_op.empty) :=
  ⟨_, _, rfl, rfl, rfl, rfl, rfl, rfl,
    (C6_result_independent_of_schedule sum_op sum_op_lawful example_schedule
      example_schedule_permuted _ _ 21 21 rfl rfl (by decide) rfl rfl).2⟩

end ReduceTask
end detail
end TiledArray


namespace TiledArray
namespace detail
namespace ReduceTask

section empty_reduction

variable {R A : Type}

/-- Reporting an object ready does not touch the history of added
arguments. -/
theorem ready_added (s : State R A) (object : ReduceObject A) :
    (ready s object).added = s.added := by
  unfold ready
  split
  · rfl
  · split <;> rfl

/-- After `add` the history of added arguments is not empty. -/
theorem add_added_ne_nil (s s1 : State R A) (arg : A) (probe : Probe)
    (h : add s arg probe = some s1) : s1.added ≠ [] := by
  unfold add at h
  split at h
  · cases h
  · simp only [Option.some.injEq] at h
    subst h
    cases hreg : register_callbacks probe with
    | none => simp [ready_added]
    | some c => simp

/-- A statement of a sub-task does not touch the history of added
arguments. -/
theorem task_added (op : ReduceOp R A) (s s1 : State R A) (i : Nat)
    (h : task op s i = some s1) : s1.added = s.added := by
  unfold task at h
  split at h
  · cases h
  · split at h <;> first
      | (cases h <;> rfl)
      | (split at h <;> first
          | (cases h <;> rfl)
          | (split at h <;> first
              | (cases h <;> rfl)
              | (split at h <;> cases h <;> rfl)))

/-- A notification does not touch the history of added arguments. -/
theorem notify_added (s s1 : State R A) (j : Nat)
    (h : notify s j = some s1) : s1.added = s.added := by
  unfold notify at h
  split at h
  · cases h
  · dsimp only at h
    split at h
    · simp only [Option.some.injEq] at h
      subst h
      rw [ready_added]
    · cases h
      rfl

/-- A step of a task no argument has been added to leaves it in that
condition, unless the step adds an argument. -/
theorem step_untouched (op : ReduceOp R A) (s s1 : State R A) (e : Event A)
    (h : step op s e = some s1) (hs : s.added = [] → Untouched op s) :
    s1.added = [] → Untouched op s1 := by
  intro h1
  cases e with
  | add arg probe => exact absurd h1 (add_added_ne_nil s s1 arg probe h)
  | notify j =>
    exfalso
    have hadd : s.added = [] := by rw [← notify_added s s1 j h]; exact h1
    obtain ⟨-, -, hw, -⟩ := hs hadd
    simp only [step, notify, hw, List.getElem?_nil] at h
    cases h
  | task i =>
    exfalso
    have hadd : s.added = [] := by rw [← task_added op s s1 i h]; exact h1
    obtain ⟨-, -, -, ht, -⟩ := hs hadd
    simp only [step, task, ht, List.getElem?_nil] at h
    cases h
  | submit =>
    simp only [step, submit] at h
    split at h
    · cases h
    · rename_i hsub
      simp only [Option.some.injEq] at h
      subst h
      obtain ⟨a, b, c, d, e, f, g⟩ := hs h1
      refine ⟨a, b, c, d, e, ?_, g⟩
      simp only [Bool.not_eq_true] at hsub
      simp only [hsub] at f
      simp [f]
  | run =>
    simp only [step, run] at h
    split at h
    · rename_i hc
      have hadd : s.added = [] := by
        split at h
        all_goals (simp only [Option.some.injEq] at h; subst h; exact h1)
      obtain ⟨a, b, c, d, e, f, g⟩ := hs hadd
      rw [a] at h
      simp only [Option.some.injEq] at h
      subst h
      exact ⟨rfl, b, c, d, e, f, by simp⟩
    · cases h

/-- Every state of an execution in which no argument has been added is
`Untouched`. -/
theorem exec_untouched (op : ReduceOp R A) : ∀ (es : List (Event A)) (s s1 : State R A),
    exec op es s = some s1 → (s.added = [] → Untouched op s) →
    s1.added = [] → Untouched op s1
  | [], s, s1, h, hs => by
    simp only [exec, Option.some.injEq] at h
    subst h
    exact hs
  | e :: es, s, s1, h, hs => by
    simp only [exec] at h
    cases hstep : step op s e with
    | none => rw [hstep] at h; cases h
    | some s2 =>
      rw [hstep] at h
      exact exec_untouched op es s2 s1 h (step_untouched op s s2 e hstep hs)

/-- The initial state is `Untouched`. -/
theorem init_untouched (op : ReduceOp R A) : Untouched op (init op) := by
  refine ⟨rfl, rfl, rfl, rfl, rfl, ?_, ?_⟩ <;> simp [init]

/-- C13, as stated, fails: for the summation whose post-processing adds one,
the task submitted with no argument and run delivers `op(op()) = 1`, which is
not the value `op() = 0`. -/
theorem C13_empty_reduction_not_identity :
    ∃ s : State Nat Nat,
      exec offset_sum_op empty_schedule (init offset_sum_op) = some s ∧
      s.added = [] ∧ s.submitted = true ∧ s.ran = true ∧
      s.result_ = some 1 ∧ s.result_ ≠ some offset_sum_op.empty :=
  ⟨_, rfl, rfl, rfl, rfl, rfl, by decide⟩

/-- C13, amended: a ReduceTask that is submitted with no argument added
resolves its result future to `op(op())`, the post-processing of the identity
`op()`; this is the value `op()` when the post-processing leaves `op()`
unchanged. In every execution in which no argument has been added: the result
is unset until the task has run, it is `op(op())` once it has run, no
assertion has failed, and as soon as the task is submitted the task queue can
run it, which sets the result to `op(op())`. -/
theorem C13_empty_reduction_result {R A : Type} (op : ReduceOp R A) (es : List (Event A))
    (s : State R A) (hexec : exec op es (init op) = some s) (hadd : s.added = []) :
    (s.ran = true → s.result_ = some (op.post op.empty)) ∧
    (s.ran = false → s.result_ = none) ∧
    s.assert_failed = false ∧
    (s.submitted = true → s.ran = false →
      ∃ s1, step op s Event.run = some s1 ∧ s1.ran = true ∧
        s1.result_ = some (op.post op.empty)) ∧
    (op.post op.empty = op.empty → s.ran = true → s.result_ = some op.empty) := by
  obtain ⟨a, b, c, d, e, f, g⟩ :=
    exec_untouched op es (init op) s hexec (fun _ => init_untouched op) hadd
  refine ⟨?_, ?_, e, ?_, ?_⟩
  · intro hran
    rw [g, hran]
    rfl
  · intro hran
    rw [g, hran]
    rfl
  · intro hsub hran
    rw [hsub] at f
    simp only [if_true] at f
    refine ⟨{ s with result_ := some (op.post op.empty), ran := true }, ?_, rfl, rfl⟩
    simp [step, run, hsub, f, hran, a]
  · intro hpost hran
    rw [g, hran, hpost]
    rfl

/-- Witness of C13 (amended): the summation with no post-processing, submitted
with no argument and run, delivers 0. -/
theorem C13_empty_reduction_result_witness :
    ∃ s : State Nat Nat,
      exec sum_op empty_schedule (init sum_op) = some s ∧ s.added = [] ∧
      s.ran = true ∧ s.result_ = some 0 :=
  ⟨_, rfl, rfl, rfl,
    (C13_empty_reduction_result sum_op empty_schedule _ rfl rfl).1 rfl⟩

end empty_reduction

end ReduceTask
end detail
end TiledArray


namespace TiledArray
namespace expressions
namespace Expr

section make_array

variable {TR Sh V VL Tile : Type}

/-- Every element of the left list of a `Forall₂` has a partner in the right
list. -/
theorem forall2_mem_left {α β : Type} {r : α → β → Prop} :
    ∀ {l1 : List α} {l2 : List β}, List.Forall₂ r l1 l2 → ∀ a ∈ l1, ∃ b ∈ l2, r a b
  | _, _, List.Forall₂.nil, a, h => by cases h
  | _, _, List.Forall₂.cons h1 h2, a, h => by
    rcases List.mem_cons.1 h with rfl | h
    · exact ⟨_, List.mem_cons_self _ _, h1⟩
    · obtain ⟨b, hb, hr⟩ := forall2_mem_left h2 a h
      exact ⟨b, List.mem_cons_of_mem _ hb, hr⟩

/-- Every element of the right list of a `Forall₂` has a partner in the left
list. -/
theorem forall2_mem_right {α β : Type} {r : α → β → Prop} :
    ∀ {l1 : List α} {l2 : List β}, List.Forall₂ r l1 l2 → ∀ b ∈ l2, ∃ a ∈ l1, r a b
  | _, _, List.Forall₂.nil, b, h => by cases h
  | _, _, List.Forall₂.cons h1 h2, b, h => by
    rcases List.mem_cons.1 h with rfl | h
    · exact ⟨_, List.mem_cons_self _ _, h1⟩
    · obtain ⟨a, ha, hr⟩ := forall2_mem_right h2 b h
      exact ⟨a, List.mem_cons_of_mem _ ha, hr⟩

/-- A list related to `l` by a relation that fixes the image under `f` has
the image `l`. -/
theorem forall2_map_eq {α β : Type} {r : α → β → Prop} (f : β → α)
    (hr : ∀ a b, r a b → f b = a) :
    ∀ {l1 : List α} {l2 : List β}, List.Forall₂ r l1 l2 → l2.map f = l1
  | _, _, List.Forall₂.nil => rfl
  | _, _, List.Forall₂.cons h1 h2 => by
    rw [List.map_cons, hr _ _ h1, forall2_map_eq f hr h2]

/-- What the tile loop of `make_array` does on the rest `l` of the iteration:
`get` is called on a prefix of the non-zero tiles of `l`, in order; when the
loop succeeds it has called `get` on all of them and has set, in the same
order, exactly those tiles, each to the tile `get` returned; it fails only
with the error of a failed `get`; and it succeeds when every `get` does. -/
theorem move_tiles_spec (dist_eval : DistEval TR Sh V) (convert : Future V → Future Tile) :
    ∀ (l : List Nat) (result : Array TR Sh Tile) (gets : List Nat),
    (∃ done, (move_tiles dist_eval convert l result gets).1 = gets ++ done ∧
      done <+: l.filter (fun t => !dist_eval.is_zero t)) ∧
    (∀ a, (move_tiles dist_eval convert l result gets).2 = .ok a →
      (move_tiles dist_eval convert l result gets).1
        = gets ++ l.filter (fun t => !dist_eval.is_zero t) ∧
      ∃ new, a = { result with tiles := result.tiles ++ new } ∧
        List.Forall₂ (fun t p => p.1 = t ∧ ∃ tile, dist_eval.get t = .ok tile ∧
          p.2 = convert tile) (l.filter (fun t => !dist_eval.is_zero t)) new) ∧
    (∀ e, (move_tiles dist_eval convert l result gets).2 = .error e →
      ∃ t ∈ l.filter (fun t => !dist_eval.is_zero t), dist_eval.get t = .error e) ∧
    ((∀ t ∈ l.filter (fun t => !dist_eval.is_zero t), ∃ tile, dist_eval.get t = .ok tile) →
      ∃ a, (move_tiles dist_eval convert l result gets).2 = .ok a)
  | [], result, gets => by
    refine ⟨⟨[], by simp [move_tiles], by simp⟩, ?_, ?_, ?_⟩
    · intro a h
      simp only [move_tiles, Except.ok.injEq] at h
      subst h
      exact ⟨by simp [move_tiles], [], by simp, List.Forall₂.nil⟩
    · intro e h
      simp [move_tiles] at h
    · intro _
      exact ⟨result, rfl⟩
  | index :: it, result, gets => by
    by_cases hz : dist_eval.is_zero index = true
    · have e : move_tiles dist_eval convert (index :: it) result gets
          = move_tiles dist_eval convert it result gets := by
        simp [move_tiles, hz]
      have ef : (index :: it).filter (fun t => !dist_eval.is_zero t)
          = it.filter (fun t => !dist_eval.is_zero t) := by
        simp [List.filter_cons, hz]
      rw [e, ef]
      exact move_tiles_spec dist_eval convert it result gets
    · have hz2 : dist_eval.is_zero index = false := by simpa using hz
      have ef : (index :: it).filter (fun t => !dist_eval.is_zero t)
          = index :: it.filter (fun t => !dist_eval.is_zero t) := by
        simp [List.filter_cons, hz2]
      rw [ef]
      cases hget : dist_eval.get index with
      | error e0 =>
        have e : move_tiles dist_eval convert (index :: it) result gets
            = (gets ++ [index], .error e0) := by
          simp [move_tiles, hz2, hget]
        rw [e]
        refine ⟨⟨[index], rfl, by simp⟩, ?_, ?_, ?_⟩
        · intro a h
          cases h
        · intro e1 h
          simp only [Except.error.injEq] at h
          subst h
          exact ⟨index, by simp, hget⟩
        · intro h
          obtain ⟨tile, ht⟩ := h index (by simp)
          rw [hget] at ht
          cases ht
      | ok tile =>
        have e : move_tiles dist_eval convert (index :: it) result gets
            = move_tiles dist_eval convert it (set_tile convert result index tile)
                (gets ++ [index]) := by
          simp [move_tiles, hz2, hget]
        rw [e]
        obtain ⟨⟨done, hd1, hd2⟩, hok, herr, hex⟩ :=
          move_tiles_spec dist_eval convert it (set_tile convert result index tile)
            (gets ++ [index])
        refine ⟨⟨index :: done, by rw [hd1]; simp, by simpa using hd2⟩, ?_, ?_, ?_⟩
        · intro a h
          obtain ⟨h1, new, h2, h3⟩ := hok a h
          refine ⟨by rw [h1]; simp, (index, convert tile) :: new, ?_, ?_⟩
          · rw [h2]
            simp [set_tile, Array.set]
          · exact List.Forall₂.cons ⟨rfl, tile, hget, rfl⟩ h3
        · intro e1 h
          obtain ⟨t, ht, hte⟩ := herr e1 h
          exact ⟨t, List.mem_cons_of_mem _ ht, hte⟩
        · intro h
          exact hex (fun t ht => h t (List.mem_cons_of_mem _ ht))

/-- When `make_array` returns an array, every step before has succeeded. -/
theorem make_array_ok_stages (expr : Expr TR Sh V VL) (convert : Future V → Future Tile)
    (world : World) (pmap : Option Pmap) (target_vars : VL) (a : Array TR Sh Tile)
    (h : (make_array expr convert world pmap target_vars).2 = .ok a) :
    ∃ engine dist_eval, expr.init world pmap target_vars = .ok engine ∧
      engine.make_dist_eval = .ok dist_eval ∧ dist_eval.eval = .ok () ∧
      (∀ t ∈ dist_eval.local_nonzero, ∃ tile, dist_eval.get t = .ok tile) ∧
      dist_eval.wait = .ok () := by
  unfold make_array at h
  cases hinit : expr.init world pmap target_vars with
  | error e => rw [hinit] at h; cases h
  | ok engine =>
    rw [hinit] at h
    dsimp only at h
    cases hde : engine.make_dist_eval with
    | error e => rw [hde] at h; cases h
    | ok dist_eval =>
      rw [hde] at h
      dsimp only at h
      cases heval : dist_eval.eval with
      | error e => rw [heval] at h; cases h
      | ok u =>
        rw [heval] at h
        dsimp only at h
        obtain ⟨-, hok, -, -⟩ := move_tiles_spec dist_eval convert dist_eval.pmap.local_
          { world := dist_eval.world, trange := dist_eval.trange, shape := dist_eval.shape,
            pmap := dist_eval.pmap, tiles := ([] : List (Nat × Future Tile)) } []
        rcases hm : move_tiles dist_eval convert dist_eval.pmap.local_
          { world := dist_eval.world, trange := dist_eval.trange, shape := dist_eval.shape,
            pmap := dist_eval.pmap, tiles := ([] : List (Nat × Future Tile)) } []
          with ⟨gets, e | result⟩
        · rw [hm] at h
          cases h
        · rw [hm] at h hok
          dsimp only at h
          cases hwait : dist_eval.wait with
          | error e => rw [hwait] at h; cases h
          | ok u2 =>
            obtain ⟨-, new, -, hall⟩ := hok result rfl
            refine ⟨engine, dist_eval, rfl, hde, heval, ?_, hwait⟩
            intro t ht
            obtain ⟨p, -, -, tile, htile, -⟩ := forall2_mem_left hall t ht
            exact ⟨tile, htile⟩

/-- The tile loop `make_array` runs on the evaluator `dist_eval`: it starts
from the empty result array that carries the world, tiled range, shape and
process map of the evaluator. -/
theorem make_array_eq (expr : Expr TR Sh V VL) (convert : Future V → Future Tile)
    (world : World) (pmap : Option Pmap) (target_vars : VL) (engine : Engine TR Sh V VL)
    (dist_eval : DistEval TR Sh V) (hinit : expr.init world pmap target_vars = .ok engine)
    (hde : engine.make_dist_eval = .ok dist_eval) :
    make_array expr convert world pmap target_vars =
      match dist_eval.eval with
      | .error e => ([], .error e)
      | .ok _ =>
        ((move_tiles dist_eval convert dist_eval.pmap.local_
            { world := dist_eval.world, trange := dist_eval.trange, shape := dist_eval.shape,
              pmap := dist_eval.pmap, tiles := ([] : List (Nat × Future Tile)) } []).1,
          match (move_tiles dist_eval convert dist_eval.pmap.local_
            { world := dist_eval.world, trange := dist_eval.trange, shape := dist_eval.shape,
              pmap := dist_eval.pmap, tiles := ([] : List (Nat × Future Tile)) } []).2 with
          | .error e => .error e
          | .ok result =>
            match dist_eval.wait with
            | .error e => .error e
            | .ok _ => .ok result) := by
  unfold make_array
  rw [hinit]
  dsimp only
  rw [hde]
  dsimp only
  cases dist_eval.eval with
  | error e => rfl
  | ok u =>
    dsimp only
    rcases move_tiles dist_eval convert dist_eval.pmap.local_
      { world := dist_eval.world, trange := dist_eval.trange, shape := dist_eval.shape,
        pmap := dist_eval.pmap, tiles := ([] : List (Nat × Future Tile)) } []
      with ⟨gets, e | result⟩
    · rfl
    · dsimp only
      cases dist_eval.wait <;> rfl

/-- C11: `make_array` calls `dist_eval.get(t)` only for ordinals `t` that the
iteration over the evaluator's process map yields and for which `is_zero(t)`
is false, in the order of the iteration (the calls made are a prefix of the
local non-zero tiles, also when a step fails). When it returns an array, it
has called `get` on exactly the local non-zero tiles and has set exactly
those tiles of the result, each to the tile `get` returned; with a
duplicate-free iteration each such tile is requested once and set once; no
zero or non-local tile is set; and the result carries the evaluator's world,
tiled range, shape and process map. It returns an array when `eval`, every
`get` of a local non-zero tile, and `wait` succeed. -/
theorem C11_make_array_moves_local_nonzero_tiles (expr : Expr TR Sh V VL)
    (convert : Future V → Future Tile) (world : World) (pmap : Option Pmap)
    (target_vars : VL) (engine : Engine TR Sh V VL) (dist_eval : DistEval TR Sh V)
    (hinit : expr.init world pmap target_vars = .ok engine)
    (hde : engine.make_dist_eval = .ok dist_eval) :
    ((make_array expr convert world pmap target_vars : List Nat × Except Exception
        (Array TR Sh Tile)).1 <+: dist_eval.local_nonzero) ∧
    (∀ t ∈ (make_array expr convert world pmap target_vars : List Nat × Except Exception
        (Array TR Sh Tile)).1, t ∈ dist_eval.pmap.local_ ∧ dist_eval.is_zero t = false) ∧
    (∀ a : Array TR Sh Tile, (make_array expr convert world pmap target_vars).2 = .ok a →
      (make_array expr convert world pmap target_vars : List Nat × Except Exception
        (Array TR Sh Tile)).1 = dist_eval.local_nonzero ∧
      a.tiles.map Prod.fst = dist_eval.local_nonzero ∧
      List.Forall₂ (fun t p => p.1 = t ∧ ∃ tile, dist_eval.get t = .ok tile ∧
        p.2 = convert tile) dist_eval.local_nonzero a.tiles ∧
      (∀ p ∈ a.tiles, p.1 ∈ dist_eval.pmap.local_ ∧ dist_eval.is_zero p.1 = false) ∧
      (dist_eval.pmap.local_.Nodup → ∀ t, t ∈ dist_eval.pmap.local_ →
        dist_eval.is_zero t = false →
        (make_array expr convert world pmap target_vars : List Nat × Except Exception
          (Array TR Sh Tile)).1.count t = 1 ∧ (a.tiles.map Prod.fst).count t = 1) ∧
      a.world = dist_eval.world ∧ a.trange = dist_eval.trange ∧
      a.shape = dist_eval.shape ∧ a.pmap = dist_eval.pmap) ∧
    (dist_eval.eval = .ok () →
      (∀ t ∈ dist_eval.local_nonzero, ∃ tile, dist_eval.get t = .ok tile) →
      dist_eval.wait = .ok () →
      ∃ a : Array TR Sh Tile, (make_array expr convert world pmap target_vars).2 = .ok a) := by
  have hmem : ∀ t ∈ dist_eval.local_nonzero,
      t ∈ dist_eval.pmap.local_ ∧ dist_eval.is_zero t = false := by
    intro t ht
    simpa [DistEval.local_nonzero, List.mem_filter] using ht
  obtain ⟨⟨done, hd1, hd2⟩, hok, -, hex⟩ := move_tiles_spec dist_eval convert
    dist_eval.pmap.local_
    { world := dist_eval.world, trange := dist_eval.trange, shape := dist_eval.shape,
      pmap := dist_eval.pmap, tiles := ([] : List (Nat × Future Tile)) } []
  have hpre : (make_array expr convert world pmap target_vars : List Nat × Except Exception
      (Array TR Sh Tile)).1 <+: dist_eval.local_nonzero := by
    rw [make_array_eq expr convert world pmap target_vars engine dist_eval hinit hde]
    cases dist_eval.eval with
    | error e => exact List.nil_prefix
    | ok u =>
      dsimp only
      rw [hd1]
      exact hd2
  refine ⟨hpre, fun t ht => hmem t (hpre.subset ht), ?_, ?_⟩
  · intro a ha
    rw [make_array_eq expr convert world pmap target_vars engine dist_eval hinit hde] at ha ⊢
    cases heval : dist_eval.eval with
    | error e => rw [heval] at ha; cases ha
    | ok u =>
      rw [heval] at ha
      dsimp only at ha ⊢
      cases hm : (move_tiles dist_eval convert dist_eval.pmap.local_
        { world := dist_eval.world, trange := dist_eval.trange, shape := dist_eval.shape,
          pmap := dist_eval.pmap, tiles := ([] : List (Nat × Future Tile)) } []).2 with
      | error e => rw [hm] at ha; cases ha
      | ok result =>
        rw [hm] at ha
        dsimp only at ha
        cases hwait : dist_eval.wait with
        | error e => rw [hwait] at ha; cases ha
        | ok u2 =>
          rw [hwait] at ha
          simp only [Except.ok.injEq] at ha
          subst ha
          obtain ⟨h1, new, h2, h3⟩ := hok result hm
          have htiles : result.tiles = new := by rw [h2]; simp
          have hgets : (move_tiles dist_eval convert dist_eval.pmap.local_
              { world := dist_eval.world, trange := dist_eval.trange,
                shape := dist_eval.shape, pmap := dist_eval.pmap,
                tiles := ([] : List (Nat × Future Tile)) } []).1
              = dist_eval.local_nonzero := by
            rw [h1]
            rfl
          have hall : List.Forall₂ (fun t p => p.1 = t ∧ ∃ tile, dist_eval.get t = .ok tile ∧
              p.2 = convert tile) dist_eval.local_nonzero result.tiles := by
            rw [htiles]
            exact h3
          have hfst : result.tiles.map Prod.fst = dist_eval.local_nonzero :=
            forall2_map_eq Prod.fst (fun _ _ h => h.1) hall
          refine ⟨hgets, hfst, hall, ?_, ?_, ?_, ?_, ?_, ?_⟩
          · intro p hp
            have : p.1 ∈ dist_eval.local_nonzero := by
              rw [← hfst]
              exact List.mem_map_of_mem _ hp
            exact hmem p.1 this
          · intro hnd t ht hz
            have hnd2 : dist_eval.local_nonzero.Nodup := hnd.filter _
            have ht2 : t ∈ dist_eval.local_nonzero := by
              simp [DistEval.local_nonzero, List.mem_filter, ht, hz]
            rw [hgets, hfst]
            exact ⟨List.count_eq_one_of_mem hnd2 ht2, List.count_eq_one_of_mem hnd2 ht2⟩
          · rw [h2]
          · rw [h2]
          · rw [h2]
          · rw [h2]
  · intro heval hget hwait
    rw [make_array_eq expr convert world pmap target_vars engine dist_eval hinit hde, heval]
    dsimp only
    obtain ⟨a, ha⟩ := hex hget
    rw [ha]
    dsimp only
    rw [hwait]
    exact ⟨a, rfl⟩

/-- Witness of C11: the 4-tile array with the zero mask `{F, T, T, F}`; the
tiles 0 and 3 are requested and set, the tiles 1 and 2, whose `get` would
fail, are not. -/
theorem C11_make_array_moves_local_nonzero_tiles_witness :
    (make_array (example_expr [0, 4] [false, true, true, false] (pure ())) id ⟨0, 1⟩ none
      "i" : List Nat × Except Exception (Array (List Nat) (List Bool) Nat)).1 = [0, 3] ∧
    ((make_array (example_expr [0, 4] [false, true, true, false] (pure ())) id ⟨0, 1⟩ none
      "i" : List Nat × Except Exception (Array (List Nat) (List Bool) Nat)).1 <+:
      (example_dist_eval ⟨0, 1⟩ example_pmap [0, 4] [false, true, true, false]
        (pure ())).local_nonzero) ∧
    (make_array (example_expr [0, 4] [false, true, true, false] (pure ())) id ⟨0, 1⟩ none
      "i" : List Nat × Except Exception (Array (List Nat) (List Bool) Nat)).2.map
        (fun a => a.tiles) = .ok [(0, ⟨1, true⟩), (3, ⟨31, true⟩)] :=
  ⟨rfl, (C11_make_array_moves_local_nonzero_tiles
    (example_expr [0, 4] [false, true, true, false] (pure ())) id ⟨0, 1⟩ none "i" _ _
    rfl rfl).1, rfl⟩

end make_array

section eval_to

variable {TR Sh V VL Tile : Type}

/-- The expression enters `make_array` only through `init` at the given
world, process map and variable list. -/
theorem make_array_congr (expr expr2 : Expr TR Sh V VL) (convert : Future V → Future Tile)
    (world : World) (pmap : Option Pmap) (target_vars : VL)
    (h : expr2.init world pmap target_vars = expr.init world pmap target_vars) :
    (make_array expr2 convert world pmap target_vars : List Nat × Except Exception
      (Array TR Sh Tile)) = make_array expr convert world pmap target_vars := by
  unfold make_array
  rw [h]

/-- C12: the assignment `lhs = expr` (`eval_to`) is atomic with respect to
failure. When it fails, whatever the step that failed, the left-hand side is
exactly as it was. When it succeeds, the variable list has been parsed,
`make_array` has returned an array (so engine `init`, `make_dist_eval`,
`eval`, every `get` of a local non-zero tile and `wait` have all succeeded),
and the left-hand side holds that array and its old variable string. So the
left-hand side changes only after `make_array` has returned successfully. -/
theorem C12_assignment_atomic (globals : Globals VL) (expr : Expr TR Sh V VL)
    (convert : Future V → Future Tile) (tsr : TsrExpr TR Sh Tile) :
    (∀ e, (eval_to globals expr convert tsr).2 = .error e →
      (eval_to globals expr convert tsr).1 = tsr) ∧
    ((eval_to globals expr convert tsr).2 = .ok () →
      ∃ world pmap target_vars result engine dist_eval,
        globals.variable_list tsr.vars_ = .ok target_vars ∧
        (make_array expr convert world pmap target_vars).2 = .ok result ∧
        expr.init world pmap target_vars = .ok engine ∧
        engine.make_dist_eval = .ok dist_eval ∧ dist_eval.eval = .ok () ∧
        (∀ t ∈ dist_eval.local_nonzero, ∃ tile, dist_eval.get t = .ok tile) ∧
        dist_eval.wait = .ok () ∧
        (eval_to globals expr convert tsr).1 = { array_ := some result, vars_ := tsr.vars_ }) ∧
    ((eval_to globals expr convert tsr).1 ≠ tsr →
      (eval_to globals expr convert tsr).2 = .ok ()) := by
  have key : (∀ e, (eval_to globals expr convert tsr).2 = .error e →
      (eval_to globals expr convert tsr).1 = tsr) := by
    intro e h
    unfold eval_to at h ⊢
    dsimp only at h ⊢
    cases hv : globals.variable_list tsr.vars_ with
    | error e1 => rfl
    | ok target_vars =>
      rw [hv] at h
      dsimp only at h ⊢
      split
      · rfl
      · rename_i result hres
        rw [hres] at h
        cases h
  refine ⟨key, ?_, ?_⟩
  · intro h
    unfold eval_to at h ⊢
    dsimp only at h ⊢
    cases hv : globals.variable_list tsr.vars_ with
    | error e1 => rw [hv] at h; cases h
    | ok target_vars =>
      rw [hv] at h
      dsimp only at h ⊢
      split
      · rename_i e1 hres
        rw [hres] at h
        cases h
      · rename_i result hres
        obtain ⟨engine, dist_eval, h1, h2, h3, h4, h5⟩ :=
          make_array_ok_stages expr convert _ _ target_vars result hres
        exact ⟨_, _, target_vars, result, engine, dist_eval, rfl, hres, h1, h2, h3, h4, h5,
          rfl⟩
  · intro hne
    cases hr : (eval_to globals expr convert tsr).2 with
    | error e => exact absurd (key e hr) hne
    | ok u => rfl

/-- Witness of C12: the left-hand side holds an array and the evaluation fails
in `wait`, after all tiles have been moved; the left-hand side still holds its
old array. -/
theorem C12_assignment_atomic_witness :
    (eval_to example_globals (example_expr [0, 2] [false, false] (throw Exception.assertion))
      id ⟨some example_array, "i"⟩).2 = .error Exception.assertion ∧
    (eval_to example_globals (example_expr [0, 2] [false, false] (throw Exception.assertion))
      id ⟨some example_array, "i"⟩).1 = ⟨some example_array, "i"⟩ :=
  ⟨rfl, (C12_assignment_atomic example_globals
    (example_expr [0, 2] [false, false] (throw Exception.assertion)) id
    ⟨some example_array, "i"⟩).1 _ rfl⟩

/-- C19: `eval_to` takes the inputs of the evaluation from the left-hand
side only. With an uninitialised left-hand side the expression is evaluated
by `make_array` in the default world with the null process map; with an
initialised one, in the world and with the process map of its array; in both
cases with the variable list parsed from the annotation string of the
left-hand side, and when that parse fails the expression is not evaluated.
Nothing else of the expression matters: two expressions whose `init` agrees
on these inputs give the same outcome. -/
theorem C19_eval_to_inputs_from_lhs (globals : Globals VL) (expr : Expr TR Sh V VL)
    (convert : Future V → Future Tile) (tsr : TsrExpr TR Sh Tile) :
    (tsr.array_ = none → ∀ target_vars, globals.variable_list tsr.vars_ = .ok target_vars →
      eval_to globals expr convert tsr =
        match (make_array expr convert globals.get_default none target_vars).2 with
        | .error e => (tsr, .error e)
        | .ok result => ({ array_ := some result, vars_ := tsr.vars_ }, .ok ())) ∧
    (∀ array, tsr.array_ = some array →
      ∀ target_vars, globals.variable_list tsr.vars_ = .ok target_vars →
      eval_to globals expr convert tsr =
        match (make_array expr convert array.world (some array.pmap) target_vars).2 with
        | .error e => (tsr, .error e)
        | .ok result => ({ array_ := some result, vars_ := tsr.vars_ }, .ok ())) ∧
    (∀ e, globals.variable_list tsr.vars_ = .error e →
      eval_to globals expr convert tsr = (tsr, .error e)) ∧
    (∀ expr2 : Expr TR Sh V VL,
      (∀ target_vars, globals.variable_list tsr.vars_ = .ok target_vars →
        expr2.init ((tsr.array_.map (fun a => a.world)).getD globals.get_default)
            (tsr.array_.map (fun a => a.pmap)) target_vars
          = expr.init ((tsr.array_.map (fun a => a.world)).getD globals.get_default)
            (tsr.array_.map (fun a => a.pmap)) target_vars) →
      eval_to globals expr2 convert tsr = eval_to globals expr convert tsr) := by
  refine ⟨?_, ?_, ?_, ?_⟩
  · intro hnone target_vars hv
    unfold eval_to
    rw [hv, hnone]
  · intro array hsome target_vars hv
    unfold eval_to
    rw [hv, hsome]
  · intro e hv
    unfold eval_to
    rw [hv]
  · intro expr2 h
    unfold eval_to
    cases hv : globals.variable_list tsr.vars_ with
    | error e => rfl
    | ok target_vars =>
      have h2 := h target_vars hv
      cases ha : tsr.array_ with
      | none =>
        rw [ha] at h2
        dsimp only
        rw [make_array_congr expr expr2 convert globals.get_default none target_vars h2]
      | some array =>
        rw [ha] at h2
        dsimp only
        rw [make_array_congr expr expr2 convert array.world (some array.pmap) target_vars h2]

/-- Witness of C19: an expression that accepts only the world and the process
map of the array of the left-hand side and the variable list `"i"` is
evaluated by the assignment to that left-hand side; and one that accepts only
the default world and the null process map is evaluated by the assignment to
an uninitialised left-hand side. -/
theorem C19_eval_to_inputs_from_lhs_witness :
    (eval_to example_globals
      (example_probe_expr ⟨1, 3⟩ (some example_array.pmap) "i" [0, 2] [false, false]) id
      ⟨some example_array, "i"⟩).2 = .ok () ∧
    (eval_to example_globals
      (example_probe_expr ⟨0, 1⟩ none "i" [0, 4] [false, true, true, false]) id
      (⟨none, "i"⟩ : TsrExpr (List Nat) (List Bool) Nat)).2 = .ok () ∧
    eval_to example_globals
      (example_probe_expr ⟨0, 1⟩ none "i" [0, 4] [false, true, true, false]) id
      (⟨none, "i"⟩ : TsrExpr (List Nat) (List Bool) Nat) =
      match (make_array (example_probe_expr ⟨0, 1⟩ none "i" [0, 4]
        [false, true, true, false]) id example_globals.get_default none "i").2 with
      | .error e => (⟨none, "i"⟩, .error e)
      | .ok result => (⟨some result, "i"⟩, .ok ()) :=
  ⟨rfl, rfl, (C19_eval_to_inputs_from_lhs example_globals
    (example_probe_expr ⟨0, 1⟩ none "i" [0, 4] [false, true, true, false]) id
    ⟨none, "i"⟩).1 rfl "i" rfl⟩

end eval_to

end Expr
end expressions
end TiledArray


namespace TiledArray
namespace detail
namespace ReduceTask

/-- Reporting an object ready does not submit the task. -/
theorem ready_submitted {R A : Type} (s : State R A) (object : ReduceObject A) :
    (ready s object).submitted = s.submitted := by
  unfold ready
  split
  · rfl
  · split <;> rfl

/-- Before `submit()`, `add` accepts an argument and records it as the last
added one. -/
theorem add_spec {R A : Type} (s : State R A) (arg : A) (probe : Probe)
    (hs : s.submitted = false) :
    ∃ s1, add s arg probe = some s1 ∧ s1.submitted = false ∧
      s1.added.map (fun o => o.arg_) = s.added.map (fun o => o.arg_) ++ [arg] := by
  unfold add
  rw [hs]
  simp only [Bool.false_eq_true, if_false]
  cases register_callbacks probe with
  | none =>
    refine ⟨_, rfl, ?_, ?_⟩
    · simp [ready_submitted, hs]
    · simp [ready_added]
  | some c =>
    refine ⟨_, rfl, ?_, ?_⟩
    · simp [hs]
    · simp

/-- A task that has not been submitted accepts any sequence of `add` calls
followed by `submit()`, and has then been handed exactly those arguments, in
that order. -/
theorem exec_adds_submit {R A : Type} (op : ReduceOp R A) :
    ∀ (args : List (A × Probe)) (s : State R A), s.submitted = false →
    ∃ s1, exec op (args.map (fun a => Event.add a.1 a.2) ++ [Event.submit]) s = some s1 ∧
      s1.submitted = true ∧
      s1.added.map (fun o => o.arg_) = s.added.map (fun o => o.arg_) ++ args.map Prod.fst
  | [], s, hs => by
    refine ⟨{ s with ndep := s.ndep - 1, submitted := true }, ?_, rfl, by simp⟩
    simp [exec, step, submit, hs]
  | a :: args, s, hs => by
    obtain ⟨s1, h1, h2, h3⟩ := add_spec s a.1 a.2 hs
    obtain ⟨s2, h4, h5, h6⟩ := exec_adds_submit op args s1 h2
    refine ⟨s2, ?_, h5, ?_⟩
    · simp only [List.map_cons, List.cons_append, exec, step, h1]
      exact h4
    · rw [h6, h3]
      simp

end ReduceTask
end detail

namespace expressions
namespace Expr

section reduce

variable {TR Sh V VL R : Type}

/-- What the tile loop of the unary `reduce` does on the rest `l` of the
iteration: `get` is called on a prefix of the non-zero tiles of `l`, in
order, and never on the right; when the loop succeeds it has called `get` on
all of them and has added, in the same order, exactly the tiles `get`
returned; it fails only with the error of a failed `get`; and it succeeds
when every `get` does. -/
theorem reduce_loop_spec (dist_eval : DistEval TR Sh V) :
    ∀ (l : List Nat) (trace : ReduceTrace V),
    (∃ done, (reduce_loop dist_eval l trace).1.left_gets = trace.left_gets ++ done ∧
      done <+: l.filter (fun t => !dist_eval.is_zero t)) ∧
    ((reduce_loop dist_eval l trace).2 = .ok () →
      ∃ tiles : List (Future V),
        List.Forall₂ (fun t tile => dist_eval.get t = .ok tile)
          (l.filter (fun t => !dist_eval.is_zero t)) tiles ∧
        (reduce_loop dist_eval l trace).1 =
          ⟨trace.left_gets ++ l.filter (fun t => !dist_eval.is_zero t), trace.right_gets,
            trace.task_events ++ tiles.map (fun tile =>
              detail.ReduceTask.Event.add tile.value
                (detail.ReduceTask.Probe.single tile.probe))⟩) ∧
    (∀ e, (reduce_loop dist_eval l trace).2 = .error e →
      ∃ t ∈ l.filter (fun t => !dist_eval.is_zero t), dist_eval.get t = .error e) ∧
    ((∀ t ∈ l.filter (fun t => !dist_eval.is_zero t), ∃ tile, dist_eval.get t = .ok tile) →
      (reduce_loop dist_eval l trace).2 = .ok ())
  | [], trace => by
    refine ⟨⟨[], by simp [reduce_loop], by simp⟩, ?_, ?_, ?_⟩
    · intro _
      exact ⟨[], List.Forall₂.nil, by simp [reduce_loop]⟩
    · intro e h
      simp [reduce_loop] at h
    · intro _
      rfl
  | index :: it, trace => by
    by_cases hz : dist_eval.is_zero index = true
    · have e : reduce_loop dist_eval (index :: it) trace = reduce_loop dist_eval it trace := by
        simp [reduce_loop, hz]
      have ef : (index :: it).filter (fun t => !dist_eval.is_zero t)
          = it.filter (fun t => !dist_eval.is_zero t) := by
        simp [List.filter_cons, hz]
      rw [e, ef]
      exact reduce_loop_spec dist_eval it trace
    · have hz2 : dist_eval.is_zero index = false := by simpa using hz
      have ef : (index :: it).filter (fun t => !dist_eval.is_zero t)
          = index :: it.filter (fun t => !dist_eval.is_zero t) := by
        simp [List.filter_cons, hz2]
      rw [ef]
      cases hget : dist_eval.get index with
      | error e0 =>
        have e : reduce_loop dist_eval (index :: it) trace
            = ({ trace with left_gets := trace.left_gets ++ [index] }, .error e0) := by
          simp [reduce_loop, hz2, hget]
        rw [e]
        refine ⟨⟨[index], rfl, by simp⟩, ?_, ?_, ?_⟩
        · intro h
          cases h
        · intro e1 h
          simp only [Except.error.injEq] at h
          subst h
          exact ⟨index, by simp, hget⟩
        · intro h
          obtain ⟨tile, ht⟩ := h index (by simp)
          rw [hget] at ht
          cases ht
      | ok tile =>
        have e : reduce_loop dist_eval (index :: it) trace
            = reduce_loop dist_eval it
              { trace with
                left_gets := trace.left_gets ++ [index]
                task_events := trace.task_events ++
                  [detail.ReduceTask.Event.add tile.value
                    (detail.ReduceTask.Probe.single tile.probe)] } := by
          simp [reduce_loop, hz2, hget]
        rw [e]
        obtain ⟨⟨done, hd1, hd2⟩, hok, herr, hex⟩ :=
          reduce_loop_spec dist_eval it
            { trace with
              left_gets := trace.left_gets ++ [index]
              task_events := trace.task_events ++
                [detail.ReduceTask.Event.add tile.value
                  (detail.ReduceTask.Probe.single tile.probe)] }
        refine ⟨⟨index :: done, by rw [hd1]; simp, by simpa using hd2⟩, ?_, ?_, ?_⟩
        · intro h
          obtain ⟨tiles, h1, h2⟩ := hok h
          refine ⟨tile :: tiles, List.Forall₂.cons hget h1, ?_⟩
          rw [h2]
          simp
        · intro e1 h
          obtain ⟨t, ht, hte⟩ := herr e1 h
          exact ⟨t, List.mem_cons_of_mem _ ht, hte⟩
        · intro h
          exact hex (fun t ht => h t (List.mem_cons_of_mem _ ht))

/-- C14: when the engine, the evaluator, `eval` and every `get` of a local
non-zero tile succeed, the unary `reduce(op)` calls `get` on exactly the
tiles that the iteration over the evaluator's process map yields and that are
not zero, in order, and adds exactly the tiles `get` returned to its local
ReduceTask, each by one `add`, followed by `submit()`; it returns the
all-reduce under `op`, keyed by the evaluator's identifier, of the future
`submit()` returned. The local task accepts these calls and has then been
handed exactly the values of those tiles. -/
theorem C14_unary_reduce_adds_local_nonzero_tiles (globals : Globals VL)
    (expr : Expr TR Sh V VL) (op : detail.ReduceOp R V) (world : World)
    (engine : Engine TR Sh V VL) (dist_eval : DistEval TR Sh V)
    (hinit : expr.init world none globals.empty_variable_list = .ok engine)
    (hde : engine.make_dist_eval = .ok dist_eval) (heval : dist_eval.eval = .ok ())
    (hget : ∀ t ∈ dist_eval.local_nonzero, ∃ tile, dist_eval.get t = .ok tile) :
    ∃ tiles : List (Future V),
      List.Forall₂ (fun t tile => dist_eval.get t = .ok tile) dist_eval.local_nonzero tiles ∧
      reduce globals expr op world =
        (⟨dist_eval.local_nonzero, [],
          tiles.map (fun tile => detail.ReduceTask.Event.add tile.value
            (detail.ReduceTask.Probe.single tile.probe)) ++ [detail.ReduceTask.Event.submit]⟩,
          .ok ⟨dist_eval.id, op⟩) ∧
      ∃ s, detail.ReduceTask.exec op (reduce globals expr op world).1.task_events
          (detail.ReduceTask.init op) = some s ∧
        s.submitted = true ∧ s.added.map (fun o => o.arg_) = tiles.map (fun tile => tile.value)
      := by
  obtain ⟨-, hok, -, hex⟩ := reduce_loop_spec dist_eval dist_eval.pmap.local_ ⟨[], [], []⟩
  have h2 := hex hget
  obtain ⟨tiles, hall, h1⟩ := hok h2
  have hloop : reduce_loop dist_eval dist_eval.pmap.local_ ⟨[], [], []⟩ =
      (⟨dist_eval.local_nonzero, [],
        tiles.map (fun tile => detail.ReduceTask.Event.add tile.value
          (detail.ReduceTask.Probe.single tile.probe))⟩, .ok ()) := by
    apply Prod.ext
    · rw [h1]
      simp [DistEval.local_nonzero]
    · exact h2
  have hred : reduce globals expr op world =
      (⟨dist_eval.local_nonzero, [],
        tiles.map (fun tile => detail.ReduceTask.Event.add tile.value
          (detail.ReduceTask.Probe.single tile.probe)) ++ [detail.ReduceTask.Event.submit]⟩,
        .ok ⟨dist_eval.id, op⟩) := by
    unfold reduce
    rw [hinit]
    dsimp only
    rw [hde]
    dsimp only
    rw [heval]
    dsimp only
    rw [hloop]
  refine ⟨tiles, hall, hred, ?_⟩
  rw [hred]
  obtain ⟨s, hs1, hs2, hs3⟩ := detail.ReduceTask.exec_adds_submit op
    (tiles.map (fun tile => (tile.value, detail.ReduceTask.Probe.single tile.probe)))
    (detail.ReduceTask.init op) rfl
  refine ⟨s, ?_, hs2, ?_⟩
  · simpa [List.map_map, Function.comp_def] using hs1
  · rw [hs3]
    simp [detail.ReduceTask.init, List.map_map, Function.comp_def]

/-- Witness of C14: the sum over the 4-tile array with the zero mask
`{F, T, T, F}` reduces only the tiles 0 and 3. -/
theorem C14_unary_reduce_adds_local_nonzero_tiles_witness :
    (reduce example_globals (example_expr [0, 4] [false, true, true, false] (pure ()))
      detail.ReduceTask.sum_op ⟨0, 1⟩).1.left_gets = [0, 3] ∧
    ∃ tiles : List (Future Nat),
      List.Forall₂ (fun t tile =>
          (example_dist_eval ⟨0, 1⟩ example_pmap [0, 4] [false, true, true, false]
            (pure ())).get t = .ok tile)
        (example_dist_eval ⟨0, 1⟩ example_pmap [0, 4] [false, true, true, false]
          (pure ())).local_nonzero tiles ∧
      reduce example_globals (example_expr [0, 4] [false, true, true, false] (pure ()))
          detail.ReduceTask.sum_op ⟨0, 1⟩ =
        (⟨(example_dist_eval ⟨0, 1⟩ example_pmap [0, 4] [false, true, true, false]
            (pure ())).local_nonzero, [],
          tiles.map (fun tile => detail.ReduceTask.Event.add tile.value
            (detail.ReduceTask.Probe.single tile.probe)) ++ [detail.ReduceTask.Event.submit]⟩,
          .ok ⟨(example_dist_eval ⟨0, 1⟩ example_pmap [0, 4] [false, true, true, false]
            (pure ())).id, detail.ReduceTask.sum_op⟩) ∧
      ∃ s, detail.ReduceTask.exec detail.ReduceTask.sum_op
          (reduce example_globals (example_expr [0, 4] [false, true, true, false] (pure ()))
            detail.ReduceTask.sum_op ⟨0, 1⟩).1.task_events
          (detail.ReduceTask.init detail.ReduceTask.sum_op) = some s ∧
        s.submitted = true ∧ s.added.map (fun o => o.arg_) = tiles.map (fun tile => tile.value) :=
  ⟨rfl, C14_unary_reduce_adds_local_nonzero_tiles example_globals
    (example_expr [0, 4] [false, true, true, false] (pure ())) detail.ReduceTask.sum_op ⟨0, 1⟩
    _ (example_dist_eval ⟨0, 1⟩ example_pmap [0, 4] [false, true, true, false] (pure ()))
    rfl rfl rfl (by
      intro t ht
      have h : t = 0 ∨ t = 3 := by
        have e : (example_dist_eval ⟨0, 1⟩ example_pmap [0, 4] [false, true, true, false]
          (pure ())).local_nonzero = [0, 3] := rfl
        rw [e] at ht
        simpa using ht
      rcases h with rfl | rfl
      · exact ⟨_, rfl⟩
      · exact ⟨_, rfl⟩)⟩

/-- The tile loop of the binary `reduce` succeeds when every `get` of a local
non-zero tile of either evaluator succeeds. -/
theorem reduce_pair_loop_ok {VR : Type} (left_dist_eval : DistEval TR Sh V)
    (right_dist_eval : DistEval TR Sh VR) :
    ∀ (l : List Nat) (trace : ReduceTrace (V × VR)),
    (∀ t ∈ l, left_dist_eval.is_zero t = false → ∃ tile, left_dist_eval.get t = .ok tile) →
    (∀ t ∈ l, right_dist_eval.is_zero t = false → ∃ tile, right_dist_eval.get t = .ok tile) →
    (reduce_pair_loop left_dist_eval right_dist_eval l trace).2 = .ok ()
  | [], trace, _, _ => rfl
  | index :: it, trace, hl, hr => by
    have ih := fun trace1 => reduce_pair_loop_ok left_dist_eval right_dist_eval it trace1
      (fun t ht => hl t (List.mem_cons_of_mem _ ht))
      (fun t ht => hr t (List.mem_cons_of_mem _ ht))
    cases hzl : left_dist_eval.is_zero index with
    | false =>
      obtain ⟨left, hleft⟩ := hl index (List.mem_cons_self _ _) hzl
      cases hzr : right_dist_eval.is_zero index with
      | false =>
        obtain ⟨right, hright⟩ := hr index (List.mem_cons_self _ _) hzr
        simp only [reduce_pair_loop, hzl, hzr, hleft, hright, Bool.not_false, Bool.and_self,
          if_true]
        exact ih _
      | true =>
        simp only [reduce_pair_loop, hzl, hzr, hleft, Bool.not_false, Bool.not_true,
          Bool.and_false, Bool.false_eq_true, if_false, if_true]
        exact ih _
    | true =>
      cases hzr : right_dist_eval.is_zero index with
      | false =>
        obtain ⟨right, hright⟩ := hr index (List.mem_cons_self _ _) hzr
        simp only [reduce_pair_loop, hzl, hzr, hright, Bool.not_false, Bool.not_true,
          Bool.false_and, Bool.false_eq_true, if_false, if_true]
        exact ih _
      | true =>
        simp only [reduce_pair_loop, hzl, hzr, Bool.not_true, Bool.and_self,
          Bool.false_eq_true, if_false]
        exact ih _

/-- C15: in a debug build, once both evaluators have been built and
evaluated, the binary `reduce(right_expr, op)` fails with the error raised by
`TA_EXCEPTION` whenever the tiled ranges of the left and the right evaluator
are not equal, whichever of the two comes first in lexicographic order, and
it does so before any `get` and before any tile pair is added to the
reduction. When the tiled ranges are equal the check does not fail: the
outcome is that of the build without the check, and the reduction succeeds
when every `get` of a local non-zero tile succeeds. -/
theorem C15_binary_reduce_requires_equal_tranges {VR : Type} [DecidableEq TR]
    (globals : Globals VL) (expr : Expr TR Sh V VL) (right_expr : Expr TR Sh VR VL)
    (op : detail.ReduceOp R (V × VR)) (world : World)
    (left_engine : Engine TR Sh V VL) (left_dist_eval : DistEval TR Sh V)
    (right_engine : Engine TR Sh VR VL) (right_dist_eval : DistEval TR Sh VR)
    (hinit : expr.init world none globals.empty_variable_list = .ok left_engine)
    (hde : left_engine.make_dist_eval = .ok left_dist_eval)
    (heval : left_dist_eval.eval = .ok ())
    (hrinit : right_expr.init world left_engine.pmap left_engine.vars = .ok right_engine)
    (hrde : right_engine.make_dist_eval = .ok right_dist_eval)
    (hreval : right_dist_eval.eval = .ok ()) :
    (left_dist_eval.trange ≠ right_dist_eval.trange →
      reduce_pair globals true expr right_expr op world =
        (⟨[], [], []⟩, .error Exception.user)) ∧
    (left_dist_eval.trange = right_dist_eval.trange →
      reduce_pair globals true expr right_expr op world =
        reduce_pair globals false expr right_expr op world ∧
      ((∀ t ∈ left_dist_eval.pmap.local_, left_dist_eval.is_zero t = false →
          ∃ tile, left_dist_eval.get t = .ok tile) →
        (∀ t ∈ left_dist_eval.pmap.local_, right_dist_eval.is_zero t = false →
          ∃ tile, right_dist_eval.get t = .ok tile) →
        (reduce_pair globals true expr right_expr op world).2 = .ok ⟨left_dist_eval.id, op⟩))
    := by
  have hstart : ∀ debug, reduce_pair globals debug expr right_expr op world =
      if debug && decide (left_dist_eval.trange ≠ right_dist_eval.trange) then
        (⟨[], [], []⟩, TA_EXCEPTION)
      else
        match reduce_pair_loop left_dist_eval right_dist_eval
            left_dist_eval.pmap.local_ ⟨[], [], []⟩ with
        | (trace, .error e) => (trace, .error e)
        | (trace, .ok _) =>
          ({ trace with
              task_events := trace.task_events ++ [detail.ReduceTask.Event.submit] },
            .ok { key := left_dist_eval.id, op := op }) := by
    intro debug
    unfold reduce_pair
    rw [hinit]
    dsimp only
    rw [hde]
    dsimp only
    rw [heval]
    dsimp only
    rw [hrinit]
    dsimp only
    rw [hrde]
    dsimp only
    rw [hreval]
  refine ⟨?_, ?_⟩
  · intro hne
    rw [hstart true]
    simp [hne, TA_EXCEPTION]
    rfl
  · intro heq
    refine ⟨?_, ?_⟩
    · rw [hstart true, hstart false]
      simp [heq]
    · intro hl hr
      have hloop := reduce_pair_loop_ok left_dist_eval right_dist_eval
        left_dist_eval.pmap.local_ ⟨[], [], []⟩ hl hr
      rw [hstart true]
      simp only [heq, ne_eq, not_true_eq_false, decide_False, Bool.and_false,
        Bool.false_eq_true, if_false]
      rcases hm : reduce_pair_loop left_dist_eval right_dist_eval
        left_dist_eval.pmap.local_ ⟨[], [], []⟩ with ⟨trace, e | u⟩
      · rw [hm] at hloop
        cases hloop
      · rfl

/-- Witness of C15: the dot product of two 4-tile arrays whose tiled ranges
`[0, 2, 4]` and `[0, 3, 4]` differ fails before any tile is requested,
although the left one comes first in lexicographic order. -/
theorem C15_binary_reduce_requires_equal_tranges_witness :
    reduce_pair example_globals true
      (example_expr [0, 2, 4] [false, true, true, false] (pure ()))
      (example_expr [0, 3, 4] [false, true, true, false] (pure ())) dot_op ⟨0, 1⟩ =
      (⟨[], [], []⟩, .error Exception.user) :=
  (C15_binary_reduce_requires_equal_tranges example_globals
    (example_expr [0, 2, 4] [false, true, true, false] (pure ()))
    (example_expr [0, 3, 4] [false, true, true, false] (pure ())) dot_op ⟨0, 1⟩ _ _ _ _
    rfl rfl rfl rfl rfl rfl).1 (by decide)

end reduce

end Expr
end expressions
end TiledArray


namespace TiledArray
namespace expressions
namespace Expr

section reduce_pair

variable {TR Sh V VL R VR : Type}

/-- Once both evaluators are built and evaluated, the binary `reduce` is the
check of the tiled ranges followed by the tile loop and `submit()`. -/
theorem reduce_pair_eq [DecidableEq TR] (globals : Globals VL) (debug : Bool)
    (expr : Expr TR Sh V VL) (right_expr : Expr TR Sh VR VL)
    (op : detail.ReduceOp R (V × VR)) (world : World)
    (left_engine : Engine TR Sh V VL) (left_dist_eval : DistEval TR Sh V)
    (right_engine : Engine TR Sh VR VL) (right_dist_eval : DistEval TR Sh VR)
    (hinit : expr.init world none globals.empty_variable_list = .ok left_engine)
    (hde : left_engine.make_dist_eval = .ok left_dist_eval)
    (heval : left_dist_eval.eval = .ok ())
    (hrinit : right_expr.init world left_engine.pmap left_engine.vars = .ok right_engine)
    (hrde : right_engine.make_dist_eval = .ok right_dist_eval)
    (hreval : right_dist_eval.eval = .ok ()) :
    reduce_pair globals debug expr right_expr op world =
      if debug && decide (left_dist_eval.trange ≠ right_dist_eval.trange) then
        (⟨[], [], []⟩, TA_EXCEPTION)
      else
        match reduce_pair_loop left_dist_eval right_dist_eval
            left_dist_eval.pmap.local_ ⟨[], [], []⟩ with
        | (trace, .error e) => (trace, .error e)
        | (trace, .ok _) =>
          ({ trace with
              task_events := trace.task_events ++ [detail.ReduceTask.Event.submit] },
            .ok { key := left_dist_eval.id, op := op }) := by
  unfold reduce_pair
  rw [hinit]
  dsimp only
  rw [hde]
  dsimp only
  rw [heval]
  dsimp only
  rw [hrinit]
  dsimp only
  rw [hrde]
  dsimp only
  rw [hreval]

/-- What the tile loop of the binary `reduce` has done when it succeeds on the
rest `l` of the iteration: it has called `get` of the left evaluator on
exactly the tiles of `l` that are not zero on the left, `get` of the right
evaluator on exactly those that are not zero on the right, and has added, in
order, exactly the pairs of tiles `get` returned at the tiles of `l` that are
not zero on either side. -/
theorem reduce_pair_loop_spec (left_dist_eval : DistEval TR Sh V)
    (right_dist_eval : DistEval TR Sh VR) :
    ∀ (l : List Nat) (trace : ReduceTrace (V × VR)),
    (reduce_pair_loop left_dist_eval right_dist_eval l trace).2 = .ok () →
    ∃ pairs : List (Future V × Future VR),
      List.Forall₂ (fun t p => left_dist_eval.get t = .ok p.1 ∧
          right_dist_eval.get t = .ok p.2)
        (l.filter (fun t => !left_dist_eval.is_zero t && !right_dist_eval.is_zero t)) pairs ∧
      (reduce_pair_loop left_dist_eval right_dist_eval l trace).1 =
        ⟨trace.left_gets ++ l.filter (fun t => !left_dist_eval.is_zero t),
          trace.right_gets ++ l.filter (fun t => !right_dist_eval.is_zero t),
          trace.task_events ++ pairs.map (fun p =>
            detail.ReduceTask.Event.add (p.1.value, p.2.value)
              (detail.ReduceTask.Probe.pair p.1.probe p.2.probe))⟩
  | [], trace, _ => ⟨[], List.Forall₂.nil, by simp [reduce_pair_loop]⟩
  | index :: it, trace, h => by
    cases hzl : left_dist_eval.is_zero index with
    | false =>
      cases hgl : left_dist_eval.get index with
      | error e =>
        cases hzr : right_dist_eval.is_zero index <;>
          simp [reduce_pair_loop, hzl, hzr, hgl] at h
      | ok left =>
        cases hzr : right_dist_eval.is_zero index with
        | false =>
          cases hgr : right_dist_eval.get index with
          | error e => simp [reduce_pair_loop, hzl, hzr, hgl, hgr] at h
          | ok right =>
            have e : reduce_pair_loop left_dist_eval right_dist_eval (index :: it) trace =
                reduce_pair_loop left_dist_eval right_dist_eval it
                  { left_gets := trace.left_gets ++ [index]
                    right_gets := trace.right_gets ++ [index]
                    task_events := trace.task_events ++
                      [detail.ReduceTask.Event.add (left.value, right.value)
                        (detail.ReduceTask.Probe.pair left.probe right.probe)] } := by
              simp [reduce_pair_loop, hzl, hzr, hgl, hgr]
            rw [e] at h ⊢
            obtain ⟨pairs, h1, h2⟩ := reduce_pair_loop_spec left_dist_eval right_dist_eval it _ h
            refine ⟨(left, right) :: pairs, ?_, ?_⟩
            · simp only [List.filter_cons, hzl, hzr, Bool.not_false, Bool.and_self, if_true]
              exact List.Forall₂.cons ⟨hgl, hgr⟩ h1
            · rw [h2]
              simp [List.filter_cons, hzl, hzr]
        | true =>
          have e : reduce_pair_loop left_dist_eval right_dist_eval (index :: it) trace =
              reduce_pair_loop left_dist_eval right_dist_eval it
                { trace with left_gets := trace.left_gets ++ [index] } := by
            simp [reduce_pair_loop, hzl, hzr, hgl]
          rw [e] at h ⊢
          obtain ⟨pairs, h1, h2⟩ := reduce_pair_loop_spec left_dist_eval right_dist_eval it _ h
          refine ⟨pairs, ?_, ?_⟩
          · simpa [List.filter_cons, hzl, hzr] using h1
          · rw [h2]
            simp [List.filter_cons, hzl, hzr]
    | true =>
      cases hzr : right_dist_eval.is_zero index with
      | false =>
        cases hgr : right_dist_eval.get index with
        | error e => simp [reduce_pair_loop, hzl, hzr, hgr] at h
        | ok right =>
          have e : reduce_pair_loop left_dist_eval right_dist_eval (index :: it) trace =
              reduce_pair_loop left_dist_eval right_dist_eval it
                { trace with right_gets := trace.right_gets ++ [index] } := by
            simp [reduce_pair_loop, hzl, hzr, hgr]
          rw [e] at h ⊢
          obtain ⟨pairs, h1, h2⟩ := reduce_pair_loop_spec left_dist_eval right_dist_eval it _ h
          refine ⟨pairs, ?_, ?_⟩
          · simpa [List.filter_cons, hzl, hzr] using h1
          · rw [h2]
            simp [List.filter_cons, hzl, hzr]
      | true =>
        have e : reduce_pair_loop left_dist_eval right_dist_eval (index :: it) trace =
            reduce_pair_loop left_dist_eval right_dist_eval it trace := by
          simp [reduce_pair_loop, hzl, hzr]
        rw [e] at h ⊢
        obtain ⟨pairs, h1, h2⟩ := reduce_pair_loop_spec left_dist_eval right_dist_eval it _ h
        refine ⟨pairs, ?_, ?_⟩
        · simpa [List.filter_cons, hzl, hzr] using h1
        · rw [h2]
          simp [List.filter_cons, hzl, hzr]

/-- Whether it succeeds or not, the tile loop of the binary `reduce` calls
`get` of an evaluator only on tiles of the iteration that are not zero in that
evaluator. -/
theorem reduce_pair_loop_gets_sound (left_dist_eval : DistEval TR Sh V)
    (right_dist_eval : DistEval TR Sh VR) :
    ∀ (l : List Nat) (trace : ReduceTrace (V × VR)),
    (∀ t ∈ (reduce_pair_loop left_dist_eval right_dist_eval l trace).1.left_gets,
      t ∈ trace.left_gets ∨ (t ∈ l ∧ left_dist_eval.is_zero t = false)) ∧
    (∀ t ∈ (reduce_pair_loop left_dist_eval right_dist_eval l trace).1.right_gets,
      t ∈ trace.right_gets ∨ (t ∈ l ∧ right_dist_eval.is_zero t = false))
  | [], trace => by simp [reduce_pair_loop]
  | index :: it, trace => by
    have ih := fun trace1 =>
      reduce_pair_loop_gets_sound left_dist_eval right_dist_eval it trace1
    have lift : ∀ (trace1 : ReduceTrace (V × VR)),
        (∀ t ∈ trace1.left_gets,
          t ∈ trace.left_gets ∨ (t = index ∧ left_dist_eval.is_zero index = false)) →
        (∀ t ∈ trace1.right_gets,
          t ∈ trace.right_gets ∨ (t = index ∧ right_dist_eval.is_zero index = false)) →
        (∀ t ∈ (reduce_pair_loop left_dist_eval right_dist_eval it trace1).1.left_gets,
          t ∈ trace.left_gets ∨ (t ∈ index :: it ∧ left_dist_eval.is_zero t = false)) ∧
        (∀ t ∈ (reduce_pair_loop left_dist_eval right_dist_eval it trace1).1.right_gets,
          t ∈ trace.right_gets ∨ (t ∈ index :: it ∧ right_dist_eval.is_zero t = false)) := by
      intro trace1 hl hr
      obtain ⟨h1, h2⟩ := ih trace1
      constructor
      · intro t ht
        rcases h1 t ht with h | ⟨h, hz⟩
        · rcases hl t h with h | ⟨rfl, hz⟩
          · exact Or.inl h
          · exact Or.inr ⟨List.mem_cons_self _ _, hz⟩
        · exact Or.inr ⟨List.mem_cons_of_mem _ h, hz⟩
      · intro t ht
        rcases h2 t ht with h | ⟨h, hz⟩
        · rcases hr t h with h | ⟨rfl, hz⟩
          · exact Or.inl h
          · exact Or.inr ⟨List.mem_cons_self _ _, hz⟩
        · exact Or.inr ⟨List.mem_cons_of_mem _ h, hz⟩
    cases hzl : left_dist_eval.is_zero index with
    | false =>
      cases hgl : left_dist_eval.get index with
      | error e =>
        cases hzr : right_dist_eval.is_zero index <;>
          simp +contextual [reduce_pair_loop, hzl, hzr, hgl, or_imp]
      | ok left =>
        cases hzr : right_dist_eval.is_zero index with
        | false =>
          cases hgr : right_dist_eval.get index with
          | error e => simp +contextual [reduce_pair_loop, hzl, hzr, hgl, hgr, or_imp]
          | ok right =>
            have e : reduce_pair_loop left_dist_eval right_dist_eval (index :: it) trace =
                reduce_pair_loop left_dist_eval right_dist_eval it
                  { left_gets := trace.left_gets ++ [index]
                    right_gets := trace.right_gets ++ [index]
                    task_events := trace.task_events ++
                      [detail.ReduceTask.Event.add (left.value, right.value)
                        (detail.ReduceTask.Probe.pair left.probe right.probe)] } := by
              simp [reduce_pair_loop, hzl, hzr, hgl, hgr]
            rw [e]
            exact lift _ (by simp +contextual [or_imp, hzl]) (by simp +contextual [or_imp, hzr])
        | true =>
          have e : reduce_pair_loop left_dist_eval right_dist_eval (index :: it) trace =
              reduce_pair_loop left_dist_eval right_dist_eval it
                { trace with left_gets := trace.left_gets ++ [index] } := by
            simp [reduce_pair_loop, hzl, hzr, hgl]
          rw [e]
          exact lift _ (by simp +contextual [or_imp, hzl]) (by simp +contextual [or_imp])
    | true =>
      cases hzr : right_dist_eval.is_zero index with
      | false =>
        cases hgr : right_dist_eval.get index with
        | error e => simp +contextual [reduce_pair_loop, hzl, hzr, hgr, or_imp]
        | ok right =>
          have e : reduce_pair_loop left_dist_eval right_dist_eval (index :: it) trace =
              reduce_pair_loop left_dist_eval right_dist_eval it
                { trace with right_gets := trace.right_gets ++ [index] } := by
            simp [reduce_pair_loop, hzl, hzr, hgr]
          rw [e]
          exact lift _ (by simp +contextual [or_imp]) (by simp +contextual [or_imp, hzr])
      | true =>
        have e : reduce_pair_loop left_dist_eval right_dist_eval (index :: it) trace =
            reduce_pair_loop left_dist_eval right_dist_eval it trace := by
          simp [reduce_pair_loop, hzl, hzr]
        rw [e]
        exact lift _ (by simp +contextual [or_imp]) (by simp +contextual [or_imp])

/-- C35: once both evaluators are built and evaluated, the binary `reduce`
calls `get` of an evaluator only on tiles that the iteration over the left
evaluator's process map yields and that are not zero in that evaluator,
whether it succeeds or not. When the check of the tiled ranges passes and
every `get` of a local non-zero tile succeeds, it calls `get` of the left
evaluator on exactly the local tiles that are not zero on the left and `get`
of the right evaluator on exactly those that are not zero on the right, each
once when the iteration has no duplicates; it adds to the pair-reduce task,
in order, exactly the pairs (left tile, right tile) of the local tiles that
are not zero on either side, so that a tile requested where only one side is
not zero is discarded; then it submits the task. -/
theorem C35_pair_reduce_adds_where_both_nonzero [DecidableEq TR] (globals : Globals VL)
    (debug : Bool) (expr : Expr TR Sh V VL) (right_expr : Expr TR Sh VR VL)
    (op : detail.ReduceOp R (V × VR)) (world : World)
    (left_engine : Engine TR Sh V VL) (left_dist_eval : DistEval TR Sh V)
    (right_engine : Engine TR Sh VR VL) (right_dist_eval : DistEval TR Sh VR)
    (hinit : expr.init world none globals.empty_variable_list = .ok left_engine)
    (hde : left_engine.make_dist_eval = .ok left_dist_eval)
    (heval : left_dist_eval.eval = .ok ())
    (hrinit : right_expr.init world left_engine.pmap left_engine.vars = .ok right_engine)
    (hrde : right_engine.make_dist_eval = .ok right_dist_eval)
    (hreval : right_dist_eval.eval = .ok ()) :
    (∀ t ∈ (reduce_pair globals debug expr right_expr op world).1.left_gets,
      t ∈ left_dist_eval.pmap.local_ ∧ left_dist_eval.is_zero t = false) ∧
    (∀ t ∈ (reduce_pair globals debug expr right_expr op world).1.right_gets,
      t ∈ left_dist_eval.pmap.local_ ∧ right_dist_eval.is_zero t = false) ∧
    ((debug = true → left_dist_eval.trange = right_dist_eval.trange) →
      (∀ t ∈ left_dist_eval.pmap.local_, left_dist_eval.is_zero t = false →
        ∃ tile, left_dist_eval.get t = .ok tile) →
      (∀ t ∈ left_dist_eval.pmap.local_, right_dist_eval.is_zero t = false →
        ∃ tile, right_dist_eval.get t = .ok tile) →
      ∃ pairs : List (Future V × Future VR),
        List.Forall₂ (fun t p => left_dist_eval.get t = .ok p.1 ∧
            right_dist_eval.get t = .ok p.2)
          (left_dist_eval.pmap.local_.filter
            (fun t => !left_dist_eval.is_zero t && !right_dist_eval.is_zero t)) pairs ∧
        reduce_pair globals debug expr right_expr op world =
          (⟨left_dist_eval.pmap.local_.filter (fun t => !left_dist_eval.is_zero t),
            left_dist_eval.pmap.local_.filter (fun t => !right_dist_eval.is_zero t),
            pairs.map (fun p => detail.ReduceTask.Event.add (p.1.value, p.2.value)
              (detail.ReduceTask.Probe.pair p.1.probe p.2.probe))
              ++ [detail.ReduceTask.Event.submit]⟩,
            .ok ⟨left_dist_eval.id, op⟩) ∧
        (left_dist_eval.pmap.local_.Nodup → ∀ t ∈ left_dist_eval.pmap.local_,
          (left_dist_eval.is_zero t = false →
            (reduce_pair globals debug expr right_expr op world).1.left_gets.count t = 1) ∧
          (right_dist_eval.is_zero t = false →
            (reduce_pair globals debug expr right_expr op world).1.right_gets.count t = 1)))
    := by
  have hstart := reduce_pair_eq globals debug expr right_expr op world left_engine
    left_dist_eval right_engine right_dist_eval hinit hde heval hrinit hrde hreval
  have hsound := reduce_pair_loop_gets_sound left_dist_eval right_dist_eval
    left_dist_eval.pmap.local_ ⟨[], [], []⟩
  refine ⟨?_, ?_, ?_⟩
  · intro t ht
    rw [hstart] at ht
    split at ht
    · simp at ht
    · rcases hm : reduce_pair_loop left_dist_eval right_dist_eval
        left_dist_eval.pmap.local_ ⟨[], [], []⟩ with ⟨trace, e | u⟩
      all_goals
        rw [hm] at ht hsound
        rcases hsound.1 t ht with h | h
        · simp at h
        · exact h
  · intro t ht
    rw [hstart] at ht
    split at ht
    · simp at ht
    · rcases hm : reduce_pair_loop left_dist_eval right_dist_eval
        left_dist_eval.pmap.local_ ⟨[], [], []⟩ with ⟨trace, e | u⟩
      all_goals
        rw [hm] at ht hsound
        rcases hsound.2 t ht with h | h
        · simp at h
        · exact h
  · intro htr hl hr
    have hok := reduce_pair_loop_ok left_dist_eval right_dist_eval
      left_dist_eval.pmap.local_ ⟨[], [], []⟩ hl hr
    obtain ⟨pairs, h1, h2⟩ := reduce_pair_loop_spec left_dist_eval right_dist_eval
      left_dist_eval.pmap.local_ ⟨[], [], []⟩ hok
    have hcheck : (debug && decide (left_dist_eval.trange ≠ right_dist_eval.trange))
        = false := by
      cases debug with
      | false => rfl
      | true => simp [htr rfl]
    have hloop : reduce_pair_loop left_dist_eval right_dist_eval
        left_dist_eval.pmap.local_ ⟨[], [], []⟩ =
        (⟨left_dist_eval.pmap.local_.filter (fun t => !left_dist_eval.is_zero t),
          left_dist_eval.pmap.local_.filter (fun t => !right_dist_eval.is_zero t),
          pairs.map (fun p => detail.ReduceTask.Event.add (p.1.value, p.2.value)
            (detail.ReduceTask.Probe.pair p.1.probe p.2.probe))⟩, .ok ()) := by
      apply Prod.ext
      · rw [h2]
        simp
      · exact hok
    have hred : reduce_pair globals debug expr right_expr op world =
        (⟨left_dist_eval.pmap.local_.filter (fun t => !left_dist_eval.is_zero t),
          left_dist_eval.pmap.local_.filter (fun t => !right_dist_eval.is_zero t),
          pairs.map (fun p => detail.ReduceTask.Event.add (p.1.value, p.2.value)
            (detail.ReduceTask.Probe.pair p.1.probe p.2.probe))
            ++ [detail.ReduceTask.Event.submit]⟩,
          .ok ⟨left_dist_eval.id, op⟩) := by
      rw [hstart, hcheck, hloop]
      rfl
    refine ⟨pairs, h1, hred, ?_⟩
    intro hnd t ht
    rw [hred]
    constructor
    · intro hz
      exact List.count_eq_one_of_mem (hnd.filter _) (by simp [List.mem_filter, ht, hz])
    · intro hz
      exact List.count_eq_one_of_mem (hnd.filter _) (by simp [List.mem_filter, ht, hz])

/-- Witness of C35: the dot product of two 4-tile arrays with the zero masks
`{F, T, T, F}` and `{F, F, T, T}`: the left tiles 0 and 3 and the right tiles
0 and 1 are requested, and only the pair at tile 0 is added. -/
theorem C35_pair_reduce_adds_where_both_nonzero_witness :
    reduce_pair example_globals true
      (example_expr [0, 4] [false, true, true, false] (pure ()))
      (example_expr [0, 4] [false, false, true, true] (pure ())) dot_op ⟨0, 1⟩ =
      (⟨[0, 3], [0, 1],
        [detail.ReduceTask.Event.add (1, 1) (detail.ReduceTask.Probe.pair true true),
          detail.ReduceTask.Event.submit]⟩, .ok ⟨7, dot_op⟩) ∧
    ∀ t ∈ (reduce_pair example_globals true
      (example_expr [0, 4] [false, true, true, false] (pure ()))
      (example_expr [0, 4] [false, false, true, true] (pure ())) dot_op ⟨0, 1⟩).1.left_gets,
      t ∈ example_pmap.local_ ∧
      (example_dist_eval ⟨0, 1⟩ example_pmap [0, 4] [false, true, true, false]
        (pure ())).is_zero t = false :=
  ⟨rfl, (C35_pair_reduce_adds_where_both_nonzero example_globals true
    (example_expr [0, 4] [false, true, true, false] (pure ()))
    (example_expr [0, 4] [false, false, true, true] (pure ())) dot_op ⟨0, 1⟩ _
    (example_dist_eval ⟨0, 1⟩ example_pmap [0, 4] [false, true, true, false] (pure ())) _
    (example_dist_eval ⟨0, 1⟩ example_pmap [0, 4] [false, false, true, true] (pure ()))
    rfl rfl rfl rfl rfl rfl).1⟩

end reduce_pair

end Expr
end expressions
end TiledArray


namespace TiledArray
namespace math

/-- C20: `Noop` returns a tile equal in value to its argument whenever no
permutation is given (default constructor) or the permutation is null: when
the argument is consumable the argument itself is returned, otherwise a
clone of it. With a non-null permutation it returns `permute(arg, perm)`
whatever the consumable flag, in storage other than that of the argument, so
the argument is not consumed. Hence a list of tiles passed tile by tile
through a `Noop` without permutation is equal in value, tile by tile, to the
input. -/
theorem C20_noop_returns_equal_tile {Ty T Val : Type} [DecidableEq Ty]
    (kernels : TileKernels T Val) (policy : UnaryTileOpPolicy Ty) (perm : Permutation)
    (arg : T) :
    kernels.value (UnaryInterface.call kernels (Noop.new policy) arg) = kernels.value arg ∧
    (perm.to_bool = false →
      kernels.value (UnaryInterface.call kernels (Noop.new_perm policy perm) arg)
        = kernels.value arg) ∧
    (∀ op : Noop Ty, op.perm_.to_bool = false →
      (op.policy.is_consumable = true → UnaryInterface.call kernels op arg = arg) ∧
      (op.policy.is_consumable = false →
        UnaryInterface.call kernels op arg = kernels.clone arg)) ∧
    (perm.to_bool = true →
      UnaryInterface.call kernels (Noop.new_perm policy perm) arg = kernels.permute arg perm ∧
      kernels.data (UnaryInterface.call kernels (Noop.new_perm policy perm) arg)
        ≠ kernels.data arg) ∧
    (∀ (op : Noop Ty) (tiles : List T), op.perm_.to_bool = false →
      (tiles.map (UnaryInterface.call kernels op)).map kernels.value
        = tiles.map kernels.value) := by
  have hval : ∀ (op : Noop Ty) (a : T), op.perm_.to_bool = false →
      kernels.value (UnaryInterface.call kernels op a) = kernels.value a := by
    intro op a h
    unfold UnaryInterface.call Noop.no_permute_op
    rw [h]
    cases op.policy.is_consumable
    · simp [kernels.clone_value]
    · simp
  refine ⟨hval _ arg rfl, fun h => hval _ arg h, ?_, ?_, ?_⟩
  · intro op h
    unfold UnaryInterface.call Noop.no_permute_op
    rw [h]
    constructor
    · intro hc
      simp [hc]
    · intro hc
      simp [hc]
  · intro h
    have e : UnaryInterface.call kernels (Noop.new_perm policy perm) arg
        = kernels.permute arg perm := by
      unfold UnaryInterface.call Noop.permute_op
      simp [Noop.new_perm, h]
    rw [e]
    exact ⟨rfl, kernels.permute_data arg perm⟩
  · intro op tiles h
    rw [List.map_map]
    apply List.map_congr_left
    intro a _
    exact hval op a h

/-- Witness of C20: a non-consumable tensor passed through a `Noop` with the
non-null permutation `[2, 0, 1]` comes back permuted, in storage of its
own. -/
theorem C20_noop_returns_equal_tile_witness :
    UnaryInterface.call example_kernels (Noop.new_perm (⟨0, 0, false⟩ : UnaryTileOpPolicy Nat)
        ⟨[2, 0, 1]⟩) ⟨100, [1, 2, 3]⟩
      = example_kernels.permute ⟨100, [1, 2, 3]⟩ ⟨[2, 0, 1]⟩ ∧
    example_kernels.data (UnaryInterface.call example_kernels
        (Noop.new_perm (⟨0, 0, false⟩ : UnaryTileOpPolicy Nat) ⟨[2, 0, 1]⟩) ⟨100, [1, 2, 3]⟩)
      ≠ example_kernels.data ⟨100, [1, 2, 3]⟩ :=
  (C20_noop_returns_equal_tile example_kernels (⟨0, 0, false⟩ : UnaryTileOpPolicy Nat)
    ⟨[2, 0, 1]⟩ ⟨100, [1, 2, 3]⟩).2.2.2.1 rfl

end math
end TiledArray


namespace TiledArray
namespace detail
namespace ReduceTask

section dispatch

variable {R A : Type}

/-- C26: the destructor of a `ReduceTask` that has not been submitted does
not submit it, although its documentation says so: it deletes the
implementation object, whereas `submit()` on the same task would have
decremented the dependency counter and handed the task to the task queue. -/
theorem C26_destructor_does_not_submit (s : State R A) (hs : s.submitted = false) :
    destructor (some s) = none ∧
    submit s = some { s with ndep := s.ndep - 1, submitted := true } ∧
    destructor (some s) ≠ submit s := by
  have h : submit s = some { s with ndep := s.ndep - 1, submitted := true } := by
    simp [submit, hs]
  refine ⟨rfl, h, ?_⟩
  rw [h]
  intro h2
  cases h2

/-- Witness of C26: a new task that nothing was added to. -/
theorem C26_destructor_does_not_submit_witness :
    destructor (some (init sum_op)) = none ∧
    submit (init sum_op)
      = some { init sum_op with ndep := (init sum_op).ndep - 1, submitted := true } ∧
    destructor (some (init sum_op)) ≠ submit (init sum_op) :=
  C26_destructor_does_not_submit (init sum_op) rfl

/-- C27: `ready(object)` takes exactly one of three branches, chosen by the
two slots. If the accumulator slot `ready_result_` is occupied, it empties
that slot and spawns one sub-task, `reduce_result_object`, whose first
statement folds the argument into that accumulator. Otherwise, if the argument
slot `ready_object_` holds another argument, it empties that slot and spawns
one sub-task, `reduce_object_object`, which makes a fresh accumulator `op()`
and folds the new argument and then the parked one into it. Otherwise it
parks the argument in the argument slot and spawns nothing. -/
theorem C27_ready_dispatch (op : ReduceOp R A) (s : State R A) (object : ReduceObject A) :
    (∀ r, s.ready_result_ = some r →
      ready s object =
        { s with ready_result_ := none
                 taskq := s.taskq ++ [reduce_result_object r object] } ∧
      task op (ready s object) s.taskq.length =
        some { s with
          ready_result_ := none
          taskq := s.taskq ++ [⟨some (op.fold r object.arg_),
            [Instr.destroy object, Instr.reduce, Instr.dec]⟩]
          folded := s.folded ++ [object] }) ∧
    (s.ready_result_ = none → ∀ o, s.ready_object_ = some o →
      ready s object =
        { s with ready_object_ := none
                 taskq := s.taskq ++ [reduce_object_object object o] } ∧
      exec op [Event.task s.taskq.length, Event.task s.taskq.length,
          Event.task s.taskq.length] (ready s object) =
        some { s with
          ready_object_ := none
          taskq := s.taskq ++ [⟨some (op.fold (op.fold op.empty object.arg_) o.arg_),
            [Instr.destroy object, Instr.destroy o, Instr.reduce, Instr.dec, Instr.dec]⟩]
          folded := s.folded ++ [object, o] }) ∧
    (s.ready_result_ = none → s.ready_object_ = none →
      ready s object = { s with ready_object_ := some object }) ∧
    ((∃ r, s.ready_result_ = some r) ∨
      (s.ready_result_ = none ∧ ∃ o, s.ready_object_ = some o) ∨
      (s.ready_result_ = none ∧ s.ready_object_ = none)) := by
  refine ⟨?_, ?_, ?_, ?_⟩
  · intro r hr
    have e : ready s object =
        { s with ready_result_ := none
                 taskq := s.taskq ++ [reduce_result_object r object] } := by
      simp [ready, hr]
    refine ⟨e, ?_⟩
    rw [e]
    simp [task, reduce_result_object]
  · intro hr o ho
    have e : ready s object =
        { s with ready_object_ := none
                 taskq := s.taskq ++ [reduce_object_object object o] } := by
      simp [ready, hr, ho]
    refine ⟨e, ?_⟩
    rw [e]
    simp [exec, step, task, reduce_object_object]
  · intro hr ho
    simp [ready, hr, ho]
  · cases hr : s.ready_result_ with
    | some r => exact Or.inl ⟨r, rfl⟩
    | none =>
      cases ho : s.ready_object_ with
      | some o => exact Or.inr (Or.inl ⟨rfl, o, rfl⟩)
      | none => exact Or.inr (Or.inr ⟨rfl, rfl⟩)

/-- Witness of C27: on a new task, whose accumulator slot holds `op()`, the
first ready argument spawns a sub-task that folds it into `op()`. -/
theorem C27_ready_dispatch_witness :
    ready (init sum_op) ⟨0, 5, 0⟩ =
      { init sum_op with ready_result_ := none
                         taskq := [reduce_result_object 0 ⟨0, 5, 0⟩] } ∧
    task sum_op (ready (init sum_op) ⟨0, 5, 0⟩) 0 =
      some { init sum_op with
        ready_result_ := none
        taskq := [⟨some 5, [Instr.destroy ⟨0, 5, 0⟩, Instr.reduce, Instr.dec]⟩]
        folded := [⟨0, 5, 0⟩] } :=
  (C27_ready_dispatch sum_op (init sum_op) ⟨0, 5, 0⟩).1 0 rfl

/-- Erasing the last element of a list. -/
theorem eraseIdx_append_singleton {α : Type} (l : List α) (x : α) :
    (l ++ [x]).eraseIdx l.length = l := by
  induction l with
  | nil => rfl
  | cons a l ih => simp [List.eraseIdx, ih]

/-- In a state an execution reaches, every waiting object has been created
by an earlier `add`, so its identifier is below the number of arguments
added. -/
theorem waiting_id_lt (op : ReduceOp R A) (s : State R A) (h : Inv op s) :
    ∀ o ∈ s.waiting, o.id < s.count_ := by
  intro o ho
  have h1 : key o ∈ keys s.waiting := by
    simp only [keys, Multiset.mem_coe]
    exact List.mem_map_of_mem _ ho
  have h2 : key o ∈ keys s.added := by
    rw [h.folds]
    exact Multiset.mem_add.2 (Or.inl (Multiset.mem_add.2 (Or.inl h1)))
  simp only [keys, Multiset.mem_coe, List.mem_map] at h2
  obtain ⟨o2, ho2, hk⟩ := h2
  have h3 : o2.id ∈ s.added.map (fun o => o.id) := List.mem_map_of_mem (fun o => o.id) ho2
  rw [h.ids, List.mem_range] at h3
  have h4 : o2.id = o.id := congrArg Prod.fst hk
  omega

/-- C29: a pair argument added to a task is reported ready to the task
exactly once, and not before both of its futures are set. (1) When both
futures are set at registration, `add` itself reports it. (2) When one of
them is set, `add` leaves the object waiting with the counter at 1 and
reports nothing, and the notification of the other future reports it.
(3) When none is set, `add` leaves the object waiting with the counter at 2
and reports nothing, the first notification lowers the counter to 1 and
reports nothing, and the second notification, which brings the counter to
zero, reports it. (4) In any state, a notification of a waiting object
reports it exactly when its counter stands at 1, and otherwise only lowers the
counter. (5) Once reported, the object waits no more: no waiting object has
its identifier, so no later notification can report it again. -/
theorem C29_pair_ready_exactly_once (op : ReduceOp R A) (es : List (Event A))
    (s : State R A) (arg : A) (hexec : exec op es (init op) = some s)
    (hsub : s.submitted = false) :
    add s arg (Probe.pair true true) =
      some { (ready { s with ndep := s.ndep + 1, added := s.added ++ [⟨s.count_, arg, 0⟩] }
              ⟨s.count_, arg, 0⟩) with count_ := s.count_ + 1 } ∧
    (∀ first second, (first, second) = (true, false) ∨ (first, second) = (false, true) →
      add s arg (Probe.pair first second) =
        some { s with ndep := s.ndep + 1, added := s.added ++ [⟨s.count_, arg, 1⟩],
                      waiting := s.waiting ++ [⟨s.count_, arg, 1⟩],
                      count_ := s.count_ + 1 } ∧
      notify { s with ndep := s.ndep + 1, added := s.added ++ [⟨s.count_, arg, 1⟩],
                      waiting := s.waiting ++ [⟨s.count_, arg, 1⟩],
                      count_ := s.count_ + 1 } s.waiting.length =
        some (ready { s with ndep := s.ndep + 1, added := s.added ++ [⟨s.count_, arg, 1⟩],
                             count_ := s.count_ + 1 } ⟨s.count_, arg, 0⟩)) ∧
    (add s arg (Probe.pair false false) =
        some { s with ndep := s.ndep + 1, added := s.added ++ [⟨s.count_, arg, 2⟩],
                      waiting := s.waiting ++ [⟨s.count_, arg, 2⟩],
                      count_ := s.count_ + 1 } ∧
      notify { s with ndep := s.ndep + 1, added := s.added ++ [⟨s.count_, arg, 2⟩],
                      waiting := s.waiting ++ [⟨s.count_, arg, 2⟩],
                      count_ := s.count_ + 1 } s.waiting.length =
        some { s with ndep := s.ndep + 1, added := s.added ++ [⟨s.count_, arg, 2⟩],
                      waiting := s.waiting ++ [⟨s.count_, arg, 1⟩],
                      count_ := s.count_ + 1 } ∧
      notify { s with ndep := s.ndep + 1, added := s.added ++ [⟨s.count_, arg, 2⟩],
                      waiting := s.waiting ++ [⟨s.count_, arg, 1⟩],
                      count_ := s.count_ + 1 } s.waiting.length =
        some (ready { s with ndep := s.ndep + 1, added := s.added ++ [⟨s.count_, arg, 2⟩],
                             count_ := s.count_ + 1 } ⟨s.count_, arg, 0⟩)) ∧
    (∀ (s2 : State R A) (j : Nat) (o : ReduceObject A), s2.waiting[j]? = some o →
      (o.count_ = 1 →
        notify s2 j = some (ready { s2 with waiting := s2.waiting.eraseIdx j }
          { o with count_ := 0 })) ∧
      (o.count_ ≠ 1 →
        notify s2 j = some { s2 with waiting :=
          (s2.waiting.set j ⟨o.id, o.arg_, o.count_ - 1⟩) })) ∧
    (∀ o ∈ s.waiting, o.id ≠ s.count_) := by
  have hinv : Inv op s := exec_inv op es (init op) s (init_inv op) hexec
  refine ⟨?_, ?_, ?_, ?_, ?_⟩
  · simp [add, hsub, register_callbacks]
  · intro first second h
    have hreg : register_callbacks (Probe.pair first second) = some 1 := by
      rcases h with h | h <;> cases h <;> rfl
    constructor
    · simp [add, hsub, hreg]
    · simp [notify, eraseIdx_append_singleton]
  · refine ⟨?_, ?_, ?_⟩
    · have hreg : register_callbacks (Probe.pair false false) = some 2 := rfl
      simp [add, hsub, hreg]
    · simp [notify]
    · simp [notify, eraseIdx_append_singleton]
  · intro s2 j o ho
    constructor
    · intro hc
      simp [notify, ho, hc]
    · intro hc
      have hc2 : ¬ (o.count_ - 1 = 0) := by omega
      simp [notify, ho, hc2]
  · intro o ho
    have := waiting_id_lt op s hinv o ho
    omega

/-- Witness of C29: a pair argument of a dot product whose futures are both
unset when it is added to a new task. -/
theorem C29_pair_ready_exactly_once_witness :
    add (init expressions.Expr.dot_op) (2, 3) (Probe.pair false false) =
      some { (init expressions.Expr.dot_op) with
        ndep := 2, added := [⟨0, (2, 3), 2⟩], waiting := [⟨0, (2, 3), 2⟩], count_ := 1 } ∧
    notify { (init expressions.Expr.dot_op) with
        ndep := 2, added := [⟨0, (2, 3), 2⟩], waiting := [⟨0, (2, 3), 2⟩], count_ := 1 } 0 =
      some { (init expressions.Expr.dot_op) with
        ndep := 2, added := [⟨0, (2, 3), 2⟩], waiting := [⟨0, (2, 3), 1⟩], count_ := 1 } ∧
    notify { (init expressions.Expr.dot_op) with
        ndep := 2, added := [⟨0, (2, 3), 2⟩], waiting := [⟨0, (2, 3), 1⟩], count_ := 1 } 0 =
      some (ready { (init expressions.Expr.dot_op) with
        ndep := 2, added := [⟨0, (2, 3), 2⟩], count_ := 1 } ⟨0, (2, 3), 0⟩) :=
  (C29_pair_ready_exactly_once expressions.Expr.dot_op [] (init expressions.Expr.dot_op)
    (2, 3) rfl rfl).2.2.1

end dispatch

section alive

variable {R A : Type}

/-- Reporting an object ready keeps an accumulator alive. -/
theorem ready_alive (s : State R A) (o : ReduceObject A) (h : Alive s) :
    Alive (ready s o) := by
  unfold ready
  cases hr : s.ready_result_ with
  | some r =>
    right
    exact ⟨reduce_result_object r o, by simp, Or.inl rfl⟩
  | none =>
    cases ho : s.ready_object_ with
    | some o2 =>
      right
      exact ⟨reduce_object_object o o2, by simp, Or.inr (by simp [reduce_object_object])⟩
    | none =>
      rcases h with h | h
      · rw [hr] at h
        cases h
      · exact Or.inr h

/-- Whether an accumulator is alive depends on the accumulator slot and the
sub-tasks only. -/
theorem alive_congr (s s1 : State R A) (h1 : s1.ready_result_ = s.ready_result_)
    (h2 : s1.taskq = s.taskq) (h : Alive s) : Alive s1 := by
  unfold Alive at h ⊢
  rw [h1, h2]
  exact h

/-- A step of one sub-task keeps an accumulator alive when the sub-task passes
on what it held. -/
theorem alive_set (s s1 : State R A) (l1 l2 : List (SubTask R A)) (t t1 : SubTask R A)
    (e : s.taskq = l1 ++ t :: l2) (e1 : s1.taskq = l1 ++ t1 :: l2)
    (hr : s.ready_result_.isSome = true → s1.ready_result_.isSome = true ∨ t1.live)
    (ht : t.live → s1.ready_result_.isSome = true ∨ t1.live) (h : Alive s) : Alive s1 := by
  have key : s1.ready_result_.isSome = true ∨ t1.live → Alive s1 := by
    intro hk
    rcases hk with hk | hk
    · exact Or.inl hk
    · right
      refine ⟨t1, ?_, hk⟩
      rw [e1]
      simp
  rcases h with h | ⟨t0, ht0, hl⟩
  · exact key (hr h)
  · rw [e] at ht0
    rcases List.mem_append.1 ht0 with hm | hm
    · right
      refine ⟨t0, ?_, hl⟩
      rw [e1]
      exact List.mem_append_left _ hm
    · rcases List.mem_cons.1 hm with hm | hm
      · subst hm
        exact key (ht hl)
      · right
        refine ⟨t0, ?_, hl⟩
        rw [e1]
        exact List.mem_append_right _ (List.mem_cons_of_mem _ hm)

/-- A statement of a sub-task keeps an accumulator alive. -/
theorem task_alive (op : ReduceOp R A) (s s1 : State R A) (i : Nat)
    (hwf : ∀ t ∈ s.taskq, t.WF) (h : Alive s) (hs : task op s i = some s1) : Alive s1 := by
  unfold task at hs
  cases hq : s.taskq[i]? with
  | none => simp [hq] at hs
  | some t =>
    obtain ⟨l1, l2, e1, e2, -⟩ := getElem?_split s.taskq i t hq
    have hwft : t.WF := hwf t (List.getElem?_mem hq)
    simp only [hq] at hs
    rcases t with ⟨res, pc⟩
    cases pc with
    | nil => simp at hs
    | cons instr rest =>
      have htail : Instr.new_result ∉ rest := hwft.new_head
      cases instr with
      | new_result =>
        simp only [Option.some.injEq] at hs
        subst hs
        exact alive_set s _ l1 l2 _ _ e1 (e2 _) (fun _ => Or.inr (Or.inl rfl))
          (fun _ => Or.inr (Or.inl rfl)) h
      | fold object =>
        cases res with
        | none => simp at hs
        | some r =>
          simp only [Option.some.injEq] at hs
          subst hs
          exact alive_set s _ l1 l2 _ _ e1 (e2 _) (fun _ => Or.inr (Or.inl rfl))
            (fun _ => Or.inr (Or.inl rfl)) h
      | combine ready_result =>
        cases res with
        | none => simp at hs
        | some r =>
          simp only [Option.some.injEq] at hs
          subst hs
          exact alive_set s _ l1 l2 _ _ e1 (e2 _) (fun _ => Or.inr (Or.inl rfl))
            (fun _ => Or.inr (Or.inl rfl)) h
      | destroy object =>
        simp only [Option.some.injEq] at hs
        subst hs
        refine alive_set s _ l1 l2 _ _ e1 (e2 _) (fun hr => Or.inl hr) ?_ h
        intro hl
        rcases hl with hl | hl
        · exact Or.inr (Or.inl hl)
        · exfalso
          rcases List.mem_cons.1 hl with hl | hl
          · cases hl
          · exact htail hl
      | dec =>
        simp only [Option.some.injEq] at hs
        subst hs
        refine alive_set s _ l1 l2 _ _ e1 (e2 _) (fun hr => Or.inl hr) ?_ h
        intro hl
        rcases hl with hl | hl
        · exact Or.inr (Or.inl hl)
        · exfalso
          rcases List.mem_cons.1 hl with hl | hl
          · cases hl
          · exact htail hl
      | reduce =>
        cases res with
        | none =>
          simp only [Option.some.injEq] at hs
          subst hs
          refine alive_set s _ l1 l2 _ _ e1 (e2 _) (fun hr => Or.inl hr) ?_ h
          intro hl
          rcases hl with hl | hl
          · cases hl
          · exfalso
            rcases List.mem_cons.1 hl with hl | hl
            · cases hl
            · exact htail hl
        | some r =>
          simp only at hs
          cases ho : s.ready_object_ with
          | some o =>
            simp only [ho, Option.some.injEq] at hs
            subst hs
            exact alive_set s _ l1 l2 _ _ e1 (e2 _) (fun _ => Or.inr (Or.inl rfl))
              (fun _ => Or.inr (Or.inl rfl)) h
          | none =>
            cases hr : s.ready_result_ with
            | some r2 =>
              simp only [ho, hr, Option.some.injEq] at hs
              subst hs
              exact alive_set s _ l1 l2 _ _ e1 (e2 _) (fun _ => Or.inr (Or.inl rfl))
                (fun _ => Or.inr (Or.inl rfl)) h
            | none =>
              simp only [ho, hr, Option.some.injEq] at hs
              subst hs
              exact alive_set s _ l1 l2 _ _ e1 (e2 _) (fun _ => Or.inl rfl)
                (fun _ => Or.inl rfl) h

/-- Every step of an execution keeps an accumulator alive. -/
theorem step_alive (op : ReduceOp R A) (s s1 : State R A) (e : Event A)
    (hinv : Inv op s) (h : Alive s) (hs : step op s e = some s1) : Alive s1 := by
  cases e with
  | add arg probe =>
    simp only [step, add] at hs
    split at hs
    · cases hs
    · simp only [Option.some.injEq] at hs
      subst hs
      cases register_callbacks probe with
      | none =>
        exact alive_congr _ _ rfl rfl (ready_alive _ _ (alive_congr s _ rfl rfl h))
      | some c => exact alive_congr s _ rfl rfl h
  | notify j =>
    simp only [step, notify] at hs
    split at hs
    · cases hs
    · dsimp only at hs
      split at hs
      · simp only [Option.some.injEq] at hs
        subst hs
        exact ready_alive _ _ (alive_congr s _ rfl rfl h)
      · simp only [Option.some.injEq] at hs
        subst hs
        exact alive_congr s _ rfl rfl h
  | task i => exact task_alive op s s1 i hinv.wf h hs
  | submit =>
    simp only [step, submit] at hs
    split at hs
    · cases hs
    · simp only [Option.some.injEq] at hs
      subst hs
      exact alive_congr s _ rfl rfl h
  | run =>
    simp only [step, run] at hs
    split at hs
    · split at hs
      all_goals
        simp only [Option.some.injEq] at hs
        subst hs
        exact alive_congr s _ rfl rfl h
    · cases hs

/-- In every state an execution reaches, the invariant holds and an
accumulator is alive. -/
theorem exec_alive (op : ReduceOp R A) : ∀ (es : List (Event A)) (s s1 : State R A),
    Inv op s → Alive s → exec op es s = some s1 → Inv op s1 ∧ Alive s1
  | [], s, s1, h, ha, hs => by
    simp only [exec, Option.some.injEq] at hs
    rw [← hs]
    exact ⟨h, ha⟩
  | e :: es, s, s1, h, ha, hs => by
    simp only [exec] at hs
    cases hst : step op s e with
    | none => simp [hst] at hs
    | some s2 =>
      simp only [hst] at hs
      exact exec_alive op es s2 s1 (step_inv op s s2 e h hst) (step_alive op s s2 e h ha hst) hs

/-- Where the dependency counter is zero: the task has been submitted, nothing
waits, nothing is parked, and every sub-task has finished and holds no
accumulator. -/
theorem finished_of_dep_zero (op : ReduceOp R A) (s : State R A) (h : Inv op s)
    (hdep0 : s.ndep = 0) :
    s.submitted = true ∧ s.waiting = [] ∧ s.ready_object_ = none ∧
      ∀ t ∈ s.taskq, t.pc = [] ∧ t.result = none := by
  have hdep := h.dep
  rw [hdep0] at hdep
  have hsub : s.submitted = true := by
    cases hsb : s.submitted with
    | true => rfl
    | false =>
      rw [hsb] at hdep
      simp only [Bool.false_eq_true, if_false] at hdep
      omega
  rw [hsub] at hdep
  simp only [if_true] at hdep
  have hw : s.waiting.length = 0 := by omega
  have hd : taskq_decs s.taskq = 0 := by omega
  have hp : s.ready_object_.toList.length = 0 := by omega
  refine ⟨hsub, List.length_eq_zero.1 hw, ?_, ?_⟩
  · cases ho : s.ready_object_ with
    | none => rfl
    | some o => simp [ho] at hp
  · intro t ht
    have h1 := pc_decs_le_taskq_decs s.taskq t ht
    have h2 := pc_nil_of_decs_zero t (h.wf t ht) (by omega)
    refine ⟨h2, ?_⟩
    cases hr : t.result with
    | none => rfl
    | some r =>
      have := (h.wf t ht).result_reduce (by simp [hr])
      rw [h2] at this
      cases this

/-- Finished sub-tasks hold no accumulator. -/
theorem held_of_finished (q : List (SubTask R A))
    (h : ∀ t ∈ q, t.pc = [] ∧ t.result = none) : (q.map SubTask.held).flatten = [] := by
  induction q with
  | nil => rfl
  | cons t q ih =>
    obtain ⟨h1, h2⟩ := h t (List.mem_cons_self _ _)
    have := ih (fun x hx => h x (List.mem_cons_of_mem _ hx))
    simp [SubTask.held, h1, h2, this]

/-- C30: in every state an execution reaches, the assertion of `run()` has
not failed; and whenever the dependency counter is zero, the task has been
submitted, no argument waits, the argument slot `ready_object_` is empty, every
sub-task has finished and holds no accumulator, the accumulator slot
`ready_result_` is occupied and holds the only accumulator left, every added
argument has been folded and destroyed, and `run()`, if it has not been called
yet, can be called, passes its assertion and sets the result to the
post-processed accumulator. -/
theorem C30_accumulator_ready_at_completion (op : ReduceOp R A) (es : List (Event A))
    (s : State R A) (hexec : exec op es (init op) = some s) :
    s.assert_failed = false ∧
    (s.ndep = 0 →
      s.submitted = true ∧ s.waiting = [] ∧ s.ready_object_ = none ∧
      (∀ t ∈ s.taskq, t.pc = [] ∧ t.result = none) ∧
      (∃ r, s.ready_result_ = some r ∧ held s = [r] ∧
        (s.ran = false →
          step op s Event.run = some { s with result_ := some (op.post r), ran := true })) ∧
      keys s.folded = keys s.added ∧ keys s.destroyed = keys s.added) := by
  have halive0 : Alive (init op) := Or.inl rfl
  obtain ⟨h, ha⟩ := exec_alive op es (init op) s (init_inv op) halive0 hexec
  have main : s.ndep = 0 →
      s.submitted = true ∧ s.waiting = [] ∧ s.ready_object_ = none ∧
      (∀ t ∈ s.taskq, t.pc = [] ∧ t.result = none) ∧
      (∃ r, s.ready_result_ = some r ∧ held s = [r] ∧
        (s.ran = false →
          step op s Event.run = some { s with result_ := some (op.post r), ran := true })) ∧
      keys s.folded = keys s.added ∧ keys s.destroyed = keys s.added := by
    intro hdep0
    obtain ⟨hsub, hw, hp, ht⟩ := finished_of_dep_zero op s h hdep0
    obtain ⟨hf, hd⟩ := taskq_folds_of_finished s.taskq (fun t ht1 => (ht t ht1).1)
    have hfolds := h.folds
    have hdestroys := h.destroys
    rw [hw, hp, hf] at hfolds
    rw [hw, hp, hd] at hdestroys
    simp only [Option.toList, keys_nil, zero_add, add_zero] at hfolds hdestroys
    refine ⟨hsub, hw, hp, ht, ?_, hfolds.symm, hdestroys.symm⟩
    have hsome : s.ready_result_.isSome = true := by
      rcases ha with ha | ⟨t, htq, hl⟩
      · exact ha
      · exfalso
        obtain ⟨h1, h2⟩ := ht t htq
        rcases hl with hl | hl
        · rw [h2] at hl
          cases hl
        · rw [h1] at hl
          cases hl
    cases hr : s.ready_result_ with
    | none =>
      rw [hr] at hsome
      cases hsome
    | some r =>
      refine ⟨r, rfl, ?_, ?_⟩
      · simp [held, hr, held_of_finished s.taskq ht]
      · intro hran
        simp [step, run, hsub, hdep0, hran, hr]
  refine ⟨?_, main⟩
  rw [h.failed_ran]
  cases hran : s.ran with
  | false => rfl
  | true =>
    obtain ⟨hdep0, -⟩ := h.ran_dep hran
    obtain ⟨-, -, -, -, ⟨r, hr, -⟩, -⟩ := main hdep0
    simp [hr]

/-- Witness of C30: in the example schedule of three arguments, stopped just
before `run`, the dependency counter is zero and the accumulator slot holds
the sum of the arguments. -/
theorem C30_accumulator_ready_at_completion_witness :
    ∃ s : State Nat Nat,
      exec sum_op example_schedule.dropLast (init sum_op) = some s ∧
      s.ndep = 0 ∧ s.ran = false ∧ s.ready_result_ = some 21 ∧ s.ready_object_ = none ∧
      s.assert_failed = false :=
  ⟨_, rfl, rfl, rfl, rfl, rfl,
    (C30_accumulator_ready_at_completion sum_op example_schedule.dropLast _ rfl).1⟩

/-- Reporting an object ready keeps an accumulator held and the slots
exclusive. -/
theorem ready_slots (s : State R A) (o : ReduceObject A) (h : Holding s) :
    Holding (ready s o) ∧ Exclusive (ready s o) := by
  unfold ready
  cases hr : s.ready_result_ with
  | some r =>
    refine ⟨Or.inr ⟨reduce_result_object r o, by simp, rfl⟩, ?_⟩
    intro _
    rfl
  | none =>
    cases ho : s.ready_object_ with
    | some o2 =>
      refine ⟨?_, fun _ => rfl⟩
      rcases h with h | ⟨t, ht, hl⟩
      · rw [hr] at h
        cases h
      · exact Or.inr ⟨t, by simp [ht], hl⟩
    | none =>
      refine ⟨?_, fun _ => rfl⟩
      rcases h with h | h
      · rw [hr] at h
        cases h
      · exact Or.inr h

/-- Whether an accumulator is held and the slots are exclusive depends on the
two slots and the sub-tasks only. -/
theorem slots_congr (s s1 : State R A) (h1 : s1.ready_result_ = s.ready_result_)
    (h2 : s1.ready_object_ = s.ready_object_) (h3 : s1.taskq = s.taskq)
    (h : Holding s ∧ Exclusive s) : Holding s1 ∧ Exclusive s1 := by
  unfold Holding Exclusive at h ⊢
  rw [h1, h2, h3]
  exact h

/-- A step of one sub-task keeps an accumulator held when the sub-task keeps
its `result` or hands it to the slot. -/
theorem holding_set (s s1 : State R A) (l1 l2 : List (SubTask R A)) (t t1 : SubTask R A)
    (e : s.taskq = l1 ++ t :: l2) (e1 : s1.taskq = l1 ++ t1 :: l2)
    (hr : s.ready_result_.isSome = true →
      s1.ready_result_.isSome = true ∨ t1.result.isSome = true)
    (ht : t.result.isSome = true →
      s1.ready_result_.isSome = true ∨ t1.result.isSome = true)
    (h : Holding s) : Holding s1 := by
  have key : s1.ready_result_.isSome = true ∨ t1.result.isSome = true → Holding s1 := by
    intro hk
    rcases hk with hk | hk
    · exact Or.inl hk
    · right
      refine ⟨t1, ?_, hk⟩
      rw [e1]
      simp
  rcases h with h | ⟨t0, ht0, hl⟩
  · exact key (hr h)
  · rw [e] at ht0
    rcases List.mem_append.1 ht0 with hm | hm
    · right
      refine ⟨t0, ?_, hl⟩
      rw [e1]
      exact List.mem_append_left _ hm
    · rcases List.mem_cons.1 hm with hm | hm
      · subst hm
        exact key (ht hl)
      · right
        refine ⟨t0, ?_, hl⟩
        rw [e1]
        exact List.mem_append_right _ (List.mem_cons_of_mem _ hm)

/-- A statement of a sub-task keeps an accumulator held and the slots
exclusive. -/
theorem task_slots (op : ReduceOp R A) (s s1 : State R A) (i : Nat)
    (h : Holding s) (hx : Exclusive s) (hs : task op s i = some s1) :
    Holding s1 ∧ Exclusive s1 := by
  unfold task at hs
  cases hq : s.taskq[i]? with
  | none => simp [hq] at hs
  | some t =>
    obtain ⟨l1, l2, e1, e2, -⟩ := getElem?_split s.taskq i t hq
    simp only [hq] at hs
    rcases t with ⟨res, pc⟩
    cases pc with
    | nil => simp at hs
    | cons instr rest =>
      cases instr with
      | new_result =>
        simp only [Option.some.injEq] at hs
        subst hs
        exact ⟨holding_set s _ l1 l2 _ _ e1 (e2 _) (fun hr => Or.inl hr)
          (fun _ => Or.inr rfl) h, hx⟩
      | fold object =>
        cases res with
        | none => simp at hs
        | some r =>
          simp only [Option.some.injEq] at hs
          subst hs
          exact ⟨holding_set s _ l1 l2 _ _ e1 (e2 _) (fun hr => Or.inl hr)
            (fun _ => Or.inr rfl) h, hx⟩
      | combine ready_result =>
        cases res with
        | none => simp at hs
        | some r =>
          simp only [Option.some.injEq] at hs
          subst hs
          exact ⟨holding_set s _ l1 l2 _ _ e1 (e2 _) (fun hr => Or.inl hr)
            (fun _ => Or.inr rfl) h, hx⟩
      | destroy object =>
        simp only [Option.some.injEq] at hs
        subst hs
        exact ⟨holding_set s _ l1 l2 _ _ e1 (e2 _) (fun hr => Or.inl hr)
          (fun hl => Or.inr hl) h, hx⟩
      | dec =>
        simp only [Option.some.injEq] at hs
        subst hs
        exact ⟨holding_set s _ l1 l2 _ _ e1 (e2 _) (fun hr => Or.inl hr)
          (fun hl => Or.inr hl) h, hx⟩
      | reduce =>
        cases res with
        | none =>
          simp only [Option.some.injEq] at hs
          subst hs
          exact ⟨holding_set s _ l1 l2 _ _ e1 (e2 _) (fun hr => Or.inl hr)
            (fun hl => Or.inr hl) h, hx⟩
        | some r =>
          simp only at hs
          cases ho : s.ready_object_ with
          | some o =>
            simp only [ho, Option.some.injEq] at hs
            subst hs
            refine ⟨holding_set s _ l1 l2 _ _ e1 (e2 _) (fun hr => Or.inl hr)
              (fun _ => Or.inr rfl) h, ?_⟩
            intro hc
            cases hc
          | none =>
            cases hr : s.ready_result_ with
            | some r2 =>
              simp only [ho, hr, Option.some.injEq] at hs
              subst hs
              exact ⟨holding_set s _ l1 l2 _ _ e1 (e2 _) (fun _ => Or.inr rfl)
                (fun _ => Or.inr rfl) h, fun _ => rfl⟩
            | none =>
              simp only [ho, hr, Option.some.injEq] at hs
              subst hs
              refine ⟨holding_set s _ l1 l2 _ _ e1 (e2 _) (fun _ => Or.inl rfl)
                (fun _ => Or.inl rfl) h, ?_⟩
              intro hc
              cases hc

/-- Every step of an execution keeps an accumulator held and the slots
exclusive. -/
theorem step_slots (op : ReduceOp R A) (s s1 : State R A) (e : Event A)
    (h : Holding s ∧ Exclusive s) (hs : step op s e = some s1) :
    Holding s1 ∧ Exclusive s1 := by
  cases e with
  | add arg probe =>
    simp only [step, add] at hs
    split at hs
    · cases hs
    · simp only [Option.some.injEq] at hs
      subst hs
      cases register_callbacks probe with
      | none =>
        have h2 := slots_congr s
          { s with ndep := s.ndep + 1
                   added := s.added ++ [⟨s.count_, arg, 0⟩] } rfl rfl rfl h
        exact slots_congr _ _ rfl rfl rfl (ready_slots _ ⟨s.count_, arg, 0⟩ h2.1)
      | some c => exact slots_congr s _ rfl rfl rfl h
  | notify j =>
    simp only [step, notify] at hs
    split at hs
    · cases hs
    · dsimp only at hs
      split at hs
      · simp only [Option.some.injEq] at hs
        subst hs
        rename_i object _ _
        have h2 := slots_congr s { s with waiting := s.waiting.eraseIdx j } rfl rfl rfl h
        exact ready_slots _ _ h2.1
      · simp only [Option.some.injEq] at hs
        subst hs
        exact slots_congr s _ rfl rfl rfl h
  | task i => exact task_slots op s s1 i h.1 h.2 hs
  | submit =>
    simp only [step, submit] at hs
    split at hs
    · cases hs
    · simp only [Option.some.injEq] at hs
      subst hs
      exact slots_congr s _ rfl rfl rfl h
  | run =>
    simp only [step, run] at hs
    split at hs
    · split at hs
      all_goals
        simp only [Option.some.injEq] at hs
        subst hs
        exact slots_congr s _ rfl rfl rfl h
    · cases hs

/-- In every state an execution reaches, an accumulator is held and the slots
are exclusive. -/
theorem exec_slots (op : ReduceOp R A) : ∀ (es : List (Event A)) (s s1 : State R A),
    Holding s ∧ Exclusive s → exec op es s = some s1 → Holding s1 ∧ Exclusive s1
  | [], s, s1, h, hs => by
    simp only [exec, Option.some.injEq] at hs
    rw [← hs]
    exact h
  | e :: es, s, s1, h, hs => by
    simp only [exec] at hs
    cases hst : step op s e with
    | none => simp [hst] at hs
    | some s2 =>
      simp only [hst] at hs
      exact exec_slots op es s2 s1 (step_slots op s s2 e h hst) hs

/-- C33: in every state an execution reaches, the accumulator slot
`ready_result_` and the argument slot `ready_object_` are not both occupied;
and while an argument is parked in `ready_object_`, the accumulator slot is
empty and some sub-task is in flight that holds an accumulator: its `result`
is not null and its loop `reduce` is still ahead. -/
theorem C33_slots_never_both_occupied (op : ReduceOp R A) (es : List (Event A))
    (s : State R A) (hexec : exec op es (init op) = some s) :
    ¬ (s.ready_result_.isSome = true ∧ s.ready_object_.isSome = true) ∧
    (∀ o, s.ready_object_ = some o →
      s.ready_result_ = none ∧
      ∃ t ∈ s.taskq, t.result.isSome = true ∧ t.pc ≠ [] ∧ Instr.reduce ∈ t.pc) := by
  have h0 : Holding (init op) ∧ Exclusive (init op) :=
    ⟨Or.inl rfl, fun hc => by cases hc⟩
  obtain ⟨hh, hx⟩ := exec_slots op es (init op) s h0 hexec
  have hinv : Inv op s := exec_inv op es (init op) s (init_inv op) hexec
  refine ⟨?_, ?_⟩
  · rintro ⟨h1, h2⟩
    rw [hx h2] at h1
    cases h1
  · intro o ho
    have hnone : s.ready_result_ = none := hx (by rw [ho]; rfl)
    refine ⟨hnone, ?_⟩
    rcases hh with hh | ⟨t, ht, hl⟩
    · rw [hnone] at hh
      cases hh
    · have hred := (hinv.wf t ht).result_reduce hl
      exact ⟨t, ht, hl, List.ne_nil_of_mem hred, hred⟩

/-- Witness of C33: after two ready arguments have been added to a new task,
the second is parked, the accumulator slot is empty and the sub-task spawned
for the first holds the accumulator. -/
theorem C33_slots_never_both_occupied_witness :
    ∃ s : State Nat Nat,
      exec sum_op (example_schedule_permuted.take 2) (init sum_op) = some s ∧
      s.ready_object_ = some ⟨1, 5, 0⟩ ∧ s.ready_result_ = none ∧
      ¬ (s.ready_result_.isSome = true ∧ s.ready_object_.isSome = true) :=
  ⟨_, rfl, rfl, rfl,
    (C33_slots_never_both_occupied sum_op (example_schedule_permuted.take 2) _ rfl).1⟩

end alive

end ReduceTask
end detail
end TiledArray


namespace TiledArray
namespace math

/-- No sequence comes strictly before itself in lexicographic order. -/
theorem lexicographical_compare_self (l : List Int) : lexicographical_compare l l = false := by
  induction l with
  | nil => rfl
  | cons a l ih => simp [lexicographical_compare, ih]

/-- The size-based constructor rejects every pair of operands whose common
extents are equal. -/
theorem new_sizes_rejects_equal (lsize rsize : List Int) (lc rc : Nat × Nat)
    (h : ContractedArray.get_common_range_iterators lsize lc.1 lc.2
      = ContractedArray.get_common_range_iterators rsize rc.1 rc.2) :
    ContractedArray.new_sizes lsize rsize lc rc
      = .error "The common start dimensions do not match." := by
  simp only [ContractedArray.new_sizes, h, lexicographical_compare_self, TA_ASSERT_MSG]
  rfl

/-- The bounds-based constructor rejects every pair of operands whose common
start bounds are equal. -/
theorem new_bounds_rejects_equal (lstart lfinish rstart rfinish : List Int)
    (lc rc : Nat × Nat)
    (h : ContractedArray.get_common_range_iterators lstart lc.1 lc.2
      = ContractedArray.get_common_range_iterators rstart rc.1 rc.2) :
    ContractedArray.new_bounds lstart lfinish rstart rfinish lc rc
      = .error "The common start dimensions do not match." := by
  simp only [ContractedArray.new_bounds, h, lexicographical_compare_self, TA_ASSERT_MSG]
  rfl

/-- C28: the ContractedArray constructors do not accept their operands
exactly when the common extents agree. For `a[x,i] * b[i,y]` with the sizes
`(4, 3)` and `(3, 5)`, whose common extents are both 3, the size-based
constructor raises "The common start dimensions do not match."; with the sizes
`(4, 2)` and `(3, 5)`, whose common extents 2 and 3 differ, it accepts. The
bounds-based constructor rejects the equal common bounds `[0, 3)` and `[0, 3)`
and accepts the common bounds `[0, 3)` and `[1, 4)`, which differ. -/
theorem C28_contracted_array_checks_order_not_equality :
    ContractedArray.new_sizes [4, 3] [3, 5] (1, 2) (0, 1)
      = .error "The common start dimensions do not match." ∧
    ContractedArray.new_sizes [4, 2] [3, 5] (1, 2) (0, 1) = .ok () ∧
    ContractedArray.new_bounds [0, 0] [4, 3] [0, 0] [3, 5] (1, 2) (0, 1)
      = .error "The common start dimensions do not match." ∧
    ContractedArray.new_bounds [0, 0] [4, 3] [1, 0] [4, 5] (1, 2) (0, 1) = .ok () :=
  ⟨rfl, rfl, rfl, rfl⟩

/-- C32: in the size-based ContractedArray constructor the extent recorded for
a result variable that occurs only in `rvars` is not its extent in the right
operand: both branches of the loop read `lsize[n]`. For `a[x,i] * b[i,y]` with
the sizes `(4, 2)` and `(3, 5)`, which pass the check of the constructor, the
result variables are `x, y`; the constructor records the sizes `(4, 2)`, with
`lsize[1] = 2` for `y`, whose extent in the right operand is `rsize[1] = 5`.
The loop of the bounds-based constructor, run on the same operands with all
starts zero, records `(4, 5)`. -/
theorem C32_size_of_right_variable_read_from_left :
    ContractedArray.vars_product ["x", "i"] ["i", "y"] = ["x", "y"] ∧
    ContractedArray.new_from_sizes [4, 2] ["x", "i"] [3, 5] ["i", "y"] (1, 2) (0, 1)
      = .ok (some { size_ := [4, 2], start_ := [0, 0], finish_ := [4, 2] }) ∧
    ContractedArray.bounds_loop [0, 0] [4, 2] [0, 0] [3, 5] ["x", "i"] ["i", "y"] ["x", "y"]
      = some { size_ := [4, 5], start_ := [0, 0], finish_ := [4, 5] } :=
  ⟨by decide, rfl, by decide⟩

end math
end TiledArray


namespace TiledArray
namespace math

/-- With an unwinding width above 3, `outer_fill` on 3 rows and 1 column runs
its remainder loop only, whatever the width. -/
theorem outer_fill_three_rows (W : Nat) (h : 4 ≤ W) (x y : Nat → Int) (a : Nat → Int)
    (op : Int → Int → Int) :
    outer_fill W 3 1 x y a op = outer_fill 4 3 1 x y a op := by
  have h3 : 3 % W = 3 := Nat.mod_eq_of_lt (by omega)
  have hW : W > 1 := by omega
  unfold outer_fill
  simp [h3, hW]

/-- With an unwinding width above 3, `outer` on 3 rows and 1 column runs its
remainder loop only, whatever the width. -/
theorem outer_three_rows (W : Nat) (h : 4 ≤ W) (x y : Nat → Int) (a : Nat → Int)
    (op : Int → Int → Int → Int) :
    outer W 3 1 x y a op = outer 4 3 1 x y a op := by
  have h3 : 3 % W = 3 := Nat.mod_eq_of_lt (by omega)
  have hW : W > 1 := by omega
  unfold outer
  simp [h3, hW]

/-- With an unwinding width above 1, `outer` on 1 row and 1 column runs its
remainder loop only, whatever the width. -/
theorem outer_one_row (W : Nat) (h : 2 ≤ W) (x y : Nat → Int) (a : Nat → Int)
    (op : Int → Int → Int → Int) :
    outer W 1 1 x y a op = outer 2 1 1 x y a op := by
  have h3 : 1 % W = 1 := Nat.mod_eq_of_lt (by omega)
  have hW : W > 1 := by omega
  unfold outer
  simp [h3, hW]

/-- C23: `outer_fill(m, n, x, y, a, op)` does not leave `a[i*n + j]` equal to
`op(x[i], y[j])`. For `x = (1, 2, 3)`, `y = (10)`, `op(x, y) = x - y` and a
matrix of zeros, the documented result is `(-9, -8, -7)`; for every unwinding
width the element `a[2]` is not `op(x[2], y[0])`. The rows of the non-unwound
remainder are all written to row 0 (`unary_vector_op(n, y, a, ...)` with `a`
instead of `a + i*n`): widths 1, 4 and 8 give `(-7, 0, 0)`. In the unwound
rows the columns of the non-unwound remainder get `op(y[j], x[i])`
(`bind_second` of a value-returning `op` passes the bound value first): width
2 gives `(-7, 8, 0)` and width 3 gives `(9, 8, 7)`. -/
theorem C23_outer_fill_wrong_in_remainder :
    (∀ W, outer_fill W 3 1 example_x example_y example_a example_fill_op 2
      ≠ example_fill_op (example_x 2) (example_y 0)) ∧
    (List.range 3).map (fun i => example_fill_op (example_x i) (example_y 0)) = [-9, -8, -7] ∧
    (List.range 3).map (outer_fill 1 3 1 example_x example_y example_a example_fill_op)
      = [-7, 0, 0] ∧
    (List.range 3).map (outer_fill 2 3 1 example_x example_y example_a example_fill_op)
      = [-7, 8, 0] ∧
    (List.range 3).map (outer_fill 3 3 1 example_x example_y example_a example_fill_op)
      = [9, 8, 7] ∧
    (List.range 3).map (outer_fill 4 3 1 example_x example_y example_a example_fill_op)
      = [-7, 0, 0] ∧
    (List.range 3).map (outer_fill 8 3 1 example_x example_y example_a example_fill_op)
      = [-7, 0, 0] := by
  refine ⟨?_, by decide, by decide, by decide, by decide, by decide, by decide⟩
  intro W
  rcases Nat.lt_or_ge W 4 with h | h
  · interval_cases W <;> decide
  · rw [outer_fill_three_rows W h]
    decide

/-- C24: `outer(m, n, x, y, a, op)` does not apply `op(a[i][j], x[i], y[j])`
once to each element. In the rows of the non-unwound remainder it calls
`op(a[j], y[j], x[i])`, with the operands exchanged (`bind_second(x_i, op)`
binds `x[i]` as the right operand) and on row 0 (`binary_vector_op(n, y, a,
...)` with `a` instead of `a + i*n`). For `x = (1, 2, 3)`, `y = (10)`,
`op(a, x, y): a += 100 * x + y` and a matrix of zeros: with 1 row the element
`a[0]` becomes `op(0, y[0], x[0]) = 1001` instead of 110 for every unwinding
width; with 3 rows the documented result is `(110, 210, 310)`, widths 1, 4
and 8 give `(3006, 0, 0)`, `op` being applied three times to `a[0]` and never
to `a[1]` and `a[2]`, and width 2 gives `(1113, 210, 0)`. -/
theorem C24_outer_wrong_in_remainder_rows :
    (∀ W, outer W 1 1 example_x example_y example_a example_outer_op 0
      = example_outer_op (example_a 0) (example_y 0) (example_x 0)) ∧
    example_outer_op (example_a 0) (example_y 0) (example_x 0) = 1001 ∧
    example_outer_op (example_a 0) (example_x 0) (example_y 0) = 110 ∧
    (List.range 3).map (fun i => example_outer_op (example_a i) (example_x i) (example_y 0))
      = [110, 210, 310] ∧
    (List.range 3).map (outer 1 3 1 example_x example_y example_a example_outer_op)
      = [3006, 0, 0] ∧
    (List.range 3).map (outer 2 3 1 example_x example_y example_a example_outer_op)
      = [1113, 210, 0] ∧
    (List.range 3).map (outer 4 3 1 example_x example_y example_a example_outer_op)
      = [3006, 0, 0] ∧
    (List.range 3).map (outer 8 3 1 example_x example_y example_a example_outer_op)
      = [3006, 0, 0] := by
  refine ⟨?_, by decide, by decide, by decide, by decide, by decide, by decide, by decide⟩
  intro W
  rcases Nat.lt_or_ge W 2 with h | h
  · interval_cases W <;> decide
  · rw [outer_one_row W h]
    decide

/-- C31: `bind_first(t, op)` fixes `t` as the first operand of `op`, for a
value-returning `op` (`op(t, arg)`) and for an in-place one
(`op(result, t, arg)`), and `bind_second(t, op)` of an in-place `op` fixes `t`
as the second operand (`op(result, arg, t)`); but `bind_second(t, op)` of a
value-returning `op` calls `op(t, arg)`, with `t` as the first operand: for
`op(x, y) = x - y`, `bind_second(10, op)(1)` is `10 - 1 = 9`, not
`op(1, 10) = -9`. -/
theorem C31_bind_second_value_binds_first_operand :
    (∀ (T A : Type) (t : T) (op : T → T → A) (arg : T), bind_first t op arg = op t arg) ∧
    (∀ (T A : Type) (t : T) (op : A → T → T → A) (result : A) (arg : T),
      bind_first_void t op result arg = op result t arg) ∧
    (∀ (T A : Type) (t : T) (op : A → T → T → A) (result : A) (arg : T),
      bind_second_void t op result arg = op result arg t) ∧
    (∀ (T A : Type) (t : T) (op : T → T → A) (arg : T), bind_second t op arg = op t arg) ∧
    bind_second 10 example_fill_op 1 = 9 ∧ example_fill_op 1 10 = -9 :=
  ⟨fun _ _ _ _ _ => rfl, fun _ _ _ _ _ _ => rfl, fun _ _ _ _ _ _ => rfl,
    fun _ _ _ _ _ => rfl, by decide, by decide⟩

end math
end TiledArray


namespace TiledArray

section to_sparse_proofs

variable {TR DSh Sh Tile N : Type}

/-- The first loop of `to_sparse` keeps the size of the norm tensor. -/
theorem norms_loop_length (env : SparseEnv TR Sh Tile N) :
    ∀ (l : List (Nat × Future Tile)) (norms : List N),
    (to_sparse.norms_loop env l norms).length = norms.length
  | [], norms => rfl
  | it :: rest, norms => by
    rw [to_sparse.norms_loop, norms_loop_length env rest]
    simp

/-- The first loop of `to_sparse` leaves the entry of an ordinal it does not
visit as it was. -/
theorem norms_loop_not_mem (env : SparseEnv TR Sh Tile N) (ord : Nat) :
    ∀ (l : List (Nat × Future Tile)) (norms : List N), ord ∉ l.map Prod.fst →
    (to_sparse.norms_loop env l norms)[ord]? = norms[ord]?
  | [], norms, _ => rfl
  | it :: rest, norms, h => by
    simp only [List.map_cons, List.mem_cons, not_or] at h
    rw [to_sparse.norms_loop, norms_loop_not_mem env ord rest _ h.2]
    exact List.getElem?_set_ne (fun e => h.1 e.symm)

/-- The first loop of `to_sparse` stores the norm of every tile it visits. -/
theorem norms_loop_mem (env : SparseEnv TR Sh Tile N) (ord : Nat) (tile : Future Tile) :
    ∀ (l : List (Nat × Future Tile)) (norms : List N), (l.map Prod.fst).Nodup →
    (ord, tile) ∈ l → ord < norms.length →
    (to_sparse.norms_loop env l norms)[ord]? = some (env.norm tile.value)
  | [], norms, _, h, _ => by cases h
  | it :: rest, norms, hnd, h, hlt => by
    simp only [List.map_cons, List.nodup_cons] at hnd
    rw [to_sparse.norms_loop]
    rcases List.mem_cons.1 h with h | h
    · subst h
      rw [norms_loop_not_mem env ord rest _ hnd.1]
      simp [List.getElem?_set, hlt]
    · exact norms_loop_mem env ord tile rest _ hnd.2 h (by simpa using hlt)

/-- The second loop of `to_sparse` sets, in the order of the iteration, a
clone of every tile it visits that the shape of the array does not mark
zero, and changes nothing else of the array. -/
theorem set_loop_eq (env : SparseEnv TR Sh Tile N) :
    ∀ (l : List (Nat × Future Tile)) (a : Array TR Sh Tile),
    to_sparse.set_loop env l a =
      { a with tiles := (a.tiles ++
        (l.filter (fun it => !env.is_zero a.shape it.1)).map
          (fun it => (it.1, { value := env.clone it.2.value, probe := true }))) }
  | [], a => by simp [to_sparse.set_loop]
  | it :: rest, a => by
    rw [to_sparse.set_loop]
    cases hz : env.is_zero a.shape it.1 with
    | true =>
      simp only [Bool.not_true, Bool.false_eq_true, if_false]
      rw [set_loop_eq env rest a]
      simp [List.filter_cons, hz]
    | false =>
      simp only [Bool.not_false, if_true]
      rw [set_loop_eq env rest]
      simp [List.filter_cons, hz, Array.set]

/-- C25: `to_sparse` of a dense array returns an array over the same world
and tiled range whose shape is the one the shape constructor builds from the
norm tensor; the norm tensor has one entry per tile, holds `norm(tile)` at
the ordinal of every local tile (the ordinals of the iteration being distinct
and in range) and 0 at every other ordinal; the tiles set in the result are,
in the order of the iteration, clones of exactly those local tiles that the
resulting shape does not mark zero, so a local tile is set if and only if the
shape does not mark it zero; a tile that is set is equal in value to the dense
tile it is cloned from, `clone` preserving the value. `to_sparse` of a sparse
array returns its input. -/
theorem C25_to_sparse (env : SparseEnv TR Sh Tile N) (dense_array : Array TR DSh Tile)
    (sparse_array : Array TR Sh Tile) :
    (to_sparse env dense_array).world = dense_array.world ∧
    (to_sparse env dense_array).trange = dense_array.trange ∧
    (to_sparse env dense_array).shape =
      env.sparse_shape dense_array.world (to_sparse.tile_norms env dense_array)
        dense_array.trange ∧
    (to_sparse.tile_norms env dense_array).length = env.tiles_volume dense_array.trange ∧
    (∀ ord, ord < env.tiles_volume dense_array.trange →
      ord ∉ dense_array.tiles.map Prod.fst →
      (to_sparse.tile_norms env dense_array)[ord]? = some env.zero) ∧
    ((dense_array.tiles.map Prod.fst).Nodup →
      ∀ ord tile, (ord, tile) ∈ dense_array.tiles →
        ord < env.tiles_volume dense_array.trange →
        (to_sparse.tile_norms env dense_array)[ord]? = some (env.norm tile.value)) ∧
    (to_sparse env dense_array).tiles =
      (dense_array.tiles.filter
        (fun it => !env.is_zero (to_sparse env dense_array).shape it.1)).map
        (fun it => (it.1, { value := env.clone it.2.value, probe := true })) ∧
    (∀ ord, ord ∈ dense_array.tiles.map Prod.fst →
      (ord ∈ (to_sparse env dense_array).tiles.map Prod.fst ↔
        env.is_zero (to_sparse env dense_array).shape ord = false)) ∧
    (∀ p ∈ (to_sparse env dense_array).tiles, ∃ it ∈ dense_array.tiles,
      it.1 = p.1 ∧ p.2.value = env.clone it.2.value) ∧
    (∀ (Val : Type) (value : Tile → Val), (∀ tile, value (env.clone tile) = value tile) →
      ∀ p ∈ (to_sparse env dense_array).tiles, ∃ it ∈ dense_array.tiles,
        it.1 = p.1 ∧ value p.2.value = value it.2.value) ∧
    to_sparse_of_sparse sparse_array = sparse_array := by
  have e : to_sparse env dense_array =
      { world := dense_array.world, trange := dense_array.trange,
        shape := env.sparse_shape dense_array.world (to_sparse.tile_norms env dense_array)
          dense_array.trange,
        pmap := env.default_pmap dense_array.world dense_array.trange,
        tiles := (dense_array.tiles.filter
          (fun it => !env.is_zero (env.sparse_shape dense_array.world
            (to_sparse.tile_norms env dense_array) dense_array.trange) it.1)).map
          (fun it => (it.1, { value := env.clone it.2.value, probe := true })) } := by
    unfold to_sparse
    dsimp only
    rw [set_loop_eq]
    simp
  have hlen : (to_sparse.tile_norms env dense_array).length
      = env.tiles_volume dense_array.trange := by
    unfold to_sparse.tile_norms
    rw [norms_loop_length]
    simp
  have hclone : ∀ p ∈ (to_sparse env dense_array).tiles, ∃ it ∈ dense_array.tiles,
      it.1 = p.1 ∧ p.2.value = env.clone it.2.value := by
    intro p hp
    rw [e] at hp
    simp only [List.mem_map, List.mem_filter] at hp
    obtain ⟨it, ⟨hit, -⟩, rfl⟩ := hp
    exact ⟨it, hit, rfl, rfl⟩
  refine ⟨by rw [e], by rw [e], by rw [e], hlen, ?_, ?_, by rw [e], ?_, hclone, ?_, rfl⟩
  · intro ord hlt hnot
    unfold to_sparse.tile_norms
    rw [norms_loop_not_mem env ord _ _ hnot]
    simp [hlt]
  · intro hnd ord tile hmem hlt
    unfold to_sparse.tile_norms
    exact norms_loop_mem env ord tile _ _ hnd hmem (by simpa using hlt)
  · intro ord hmem
    rw [e]
    simp only [List.map_map, List.mem_map, List.mem_filter, Function.comp_def]
    constructor
    · rintro ⟨it, ⟨-, hz⟩, rfl⟩
      simpa using hz
    · intro hz
      obtain ⟨it, hit, rfl⟩ := List.mem_map.1 hmem
      exact ⟨it, ⟨hit, by simpa using hz⟩, rfl⟩
  · intro Val value hv p hp
    obtain ⟨it, hit, h1, h2⟩ := hclone p hp
    exact ⟨it, hit, h1, by rw [h2, hv]⟩

/-- Witness of C25: of the four tiles `[3, 4]`, `[0, 0]`, `[0, 0]`, `[1, 0]`
of the example array, whose norms are 25, 0, 0 and 1, the tiles 0 and 3 are
set in the sparse array. -/
theorem C25_to_sparse_witness :
    to_sparse.tile_norms example_sparse_env example_dense_array = [25, 0, 0, 1] ∧
    (to_sparse example_sparse_env example_dense_array).tiles
      = [(0, ⟨[3, 4], true⟩), (3, ⟨[1, 0], true⟩)] ∧
    (to_sparse example_sparse_env example_dense_array).world = example_dense_array.world :=
  ⟨rfl, rfl, (C25_to_sparse example_sparse_env example_dense_array
    (to_sparse example_sparse_env example_dense_array)).1⟩

end to_sparse_proofs

end TiledArray


namespace TiledArray

namespace Range

/-- The coordinate of an ordinal below the volume lies in the range. -/
theorem idx_includes : ∀ (extents : List Nat) (i : Nat), i < volume extents →
    includes extents (idx extents i)
  | [], _, _ => List.Forall₂.nil
  | e :: extents, i, h => by
    have hv : volume (e :: extents) = e * volume extents := by simp [volume]
    rw [hv] at h
    have hpos : 0 < volume extents := by
      rcases Nat.eq_zero_or_pos (volume extents) with h0 | h0
      · rw [h0] at h
        simp at h
      · exact h0
    refine List.Forall₂.cons ?_ (idx_includes extents _ (Nat.mod_lt _ hpos))
    exact (Nat.div_lt_iff_lt_mul hpos).2 h

/-- The ordinal of the coordinate of an ordinal below the volume is that
ordinal. -/
theorem ord_idx : ∀ (extents : List Nat) (i : Nat), i < volume extents →
    ord extents (idx extents i) = i
  | [], i, h => by
    simp [volume] at h
    simp [ord, idx, h]
  | e :: extents, i, h => by
    have hv : volume (e :: extents) = e * volume extents := by simp [volume]
    rw [hv] at h
    have hpos : 0 < volume extents := by
      rcases Nat.eq_zero_or_pos (volume extents) with h0 | h0
      · rw [h0] at h
        simp at h
      · exact h0
    simp only [idx, ord]
    rw [ord_idx extents _ (Nat.mod_lt _ hpos)]
    exact Nat.div_add_mod' i (volume extents)

/-- The ordinal of a coordinate in the range is below the volume. -/
theorem ord_lt : ∀ (extents index : List Nat), includes extents index →
    ord extents index < volume extents
  | _, _, List.Forall₂.nil => by simp [ord, volume]
  | _, _, @List.Forall₂.cons _ _ _ c e index extents hce h => by
    have ih := ord_lt extents index h
    have hv : volume (e :: extents) = e * volume extents := by simp [volume]
    rw [hv]
    simp only [ord]
    calc c * volume extents + ord extents index
        < c * volume extents + volume extents := by omega
      _ = (c + 1) * volume extents := by rw [Nat.add_mul, Nat.one_mul]
      _ ≤ e * volume extents := Nat.mul_le_mul_right _ hce

/-- The coordinate of the ordinal of a coordinate in the range is that
coordinate. -/
theorem idx_ord : ∀ (extents index : List Nat), includes extents index →
    idx extents (ord extents index) = index
  | _, _, List.Forall₂.nil => rfl
  | _, _, @List.Forall₂.cons _ _ _ c e index extents _ h => by
    have ih := idx_ord extents index h
    have hlt := ord_lt extents index h
    have hpos : 0 < volume extents := by omega
    simp only [ord, idx]
    have h1 : (c * volume extents + ord extents index) / volume extents = c := by
      rw [Nat.add_comm, Nat.add_mul_div_right _ _ hpos, Nat.div_eq_of_lt hlt, Nat.zero_add]
    have h2 : (c * volume extents + ord extents index) % volume extents
        = ord extents index := by
      rw [Nat.add_comm, Nat.add_mul_mod_self_right, Nat.mod_eq_of_lt hlt]
    rw [h1, h2, ih]

/-- A coordinate in a range has one component per dimension, each below its
extent. -/
theorem includes_getD : ∀ (extents index : List Nat), includes extents index →
    index.length = extents.length ∧
      ∀ k, k < index.length → index.getD k 0 < extents.getD k 0
  | _, _, List.Forall₂.nil => ⟨rfl, fun k hk => by simp at hk⟩
  | _, _, @List.Forall₂.cons _ _ _ c e index extents hce h => by
    obtain ⟨h1, h2⟩ := includes_getD extents index h
    refine ⟨by simp [h1], ?_⟩
    intro k hk
    cases k with
    | zero => simpa using hce
    | succ k =>
      simp only [List.length_cons, Nat.add_lt_add_iff_right] at hk
      simpa using h2 k hk

end Range

namespace Permutation

/-- Reading position `m` of a list built over `0 .. n-1`. -/
theorem getD_map_range {α : Type} (n m : Nat) (f : Nat → α) (d : α) (hm : m < n) :
    ((List.range n).map f).getD m d = f m := by
  simp [List.getD_eq_getElem?_getD, List.getElem?_map, List.getElem?_range hm]

/-- Two lists built over the same positions are related wherever their
builders are. -/
theorem forall2_map_same {α β γ : Type} (r : β → γ → Prop) (f : α → β) (g : α → γ) :
    ∀ l : List α, (∀ m ∈ l, r (f m) (g m)) → List.Forall₂ r (l.map f) (l.map g)
  | [], _ => List.Forall₂.nil
  | m :: l, h =>
    List.Forall₂.cons (h m (List.mem_cons_self _ _))
      (forall2_map_same r f g l (fun x hx => h x (List.mem_cons_of_mem _ hx)))

/-- The image sequence of a valid permutation: its length, its entries, and
the position of each value. -/
theorem valid_facts (perm : Permutation) (n : Nat) (hv : perm.valid n) :
    perm.p_.length = n ∧ perm.p_.Nodup ∧ (∀ x ∈ perm.p_, x < n) ∧
      ∀ m, m < n → perm.p_.indexOf m < n := by
  have hlen : perm.p_.length = n := by
    have := List.Perm.length_eq hv
    simpa using this
  refine ⟨hlen, (List.Perm.nodup_iff hv).2 (List.nodup_range n), ?_, ?_⟩
  · intro x hx
    exact List.mem_range.1 ((List.Perm.mem_iff hv).1 hx)
  · intro m hm
    have hmem : m ∈ perm.p_ := (List.Perm.mem_iff hv).2 (List.mem_range.2 hm)
    have := List.indexOf_lt_length.2 hmem
    omega

/-- A permuted coordinate of a range lies in the permuted range. -/
theorem apply_includes (perm : Permutation) (extents index : List Nat)
    (hv : perm.valid extents.length) (h : Range.includes extents index) :
    Range.includes (perm.apply extents) (perm.apply index) := by
  unfold apply
  cases hb : perm.to_bool with
  | false => simpa using h
  | true =>
    simp only [if_true]
    obtain ⟨hlen, hget⟩ := Range.includes_getD extents index h
    obtain ⟨-, -, -, hidx⟩ := valid_facts perm _ hv
    rw [hlen]
    refine forall2_map_same _ _ _ _ ?_
    intro m hm
    exact hget _ (by rw [hlen]; exact hidx m (List.mem_range.1 hm))

/-- Reading a permuted coordinate at the images of the permutation gives the
coordinate back. -/
theorem map_getD_apply (perm : Permutation) (index : List Nat) (hb : perm.to_bool = true)
    (hv : perm.valid index.length) :
    perm.p_.map (fun pk => (perm.apply index).getD pk 0) = index := by
  obtain ⟨hlen, hnd, hlt, -⟩ := valid_facts perm _ hv
  have e : perm.apply index
      = (List.range index.length).map (fun m => index.getD (perm.p_.indexOf m) 0) := by
    unfold apply
    simp [hb]
  have key : ∀ (k : Nat) (hk : k < perm.p_.length),
      (perm.apply index).getD (perm.p_.get ⟨k, hk⟩) 0 = index.getD k 0 := by
    intro k hk
    rw [e, getD_map_range _ _ _ _ (hlt _ (List.get_mem _ _ _))]
    have := List.indexOf_getElem hnd k hk
    simp only [List.get_eq_getElem]
    rw [this]
  apply List.ext_getElem
  · simp [hlen]
  · intro k h1 h2
    have hk : k < perm.p_.length := by simpa using h1
    have := key k hk
    simp only [List.get_eq_getElem] at this
    simp only [List.getElem_map]
    rw [this]
    simp [List.getD_eq_getElem?_getD, h2]

end Permutation

namespace Tensor

/-- The permuting scale kernel puts `factor * a[i]` at the permuted
coordinate of the ordinal `i`. -/
theorem scale_perm_at (a : Tensor) (factor : Int) (perm : Permutation)
    (hb : perm.to_bool = true) (hv : perm.valid a.range.length) (i : Nat)
    (hi : i < Range.volume a.range) :
    (a.scale_perm factor perm).at_idx (perm.apply (Range.idx a.range i))
      = factor * a.at_ord i := by
  have hinc := Range.idx_includes a.range i hi
  have hinc2 := Permutation.apply_includes perm a.range _ hv hinc
  have hlen : (Range.idx a.range i).length = a.range.length :=
    (Range.includes_getD _ _ hinc).1
  have hj := Range.ord_lt _ _ hinc2
  unfold at_idx scale_perm
  simp only
  rw [Permutation.getD_map_range _ _ _ _ hj, Range.idx_ord _ _ hinc2,
    Permutation.map_getD_apply perm _ hb (by rw [hlen]; exact hv)]
  unfold at_idx at_ord
  rw [Range.ord_idx _ _ hi, mul_comm]

end Tensor

namespace math

section scal

variable {Ty : Type} [DecidableEq Ty]

/-- The dispatch of `Noop` is the dispatch of any derived unary operation. -/
theorem noop_call_eq_call_op {T Val : Type} (kernels : TileKernels T Val) (op : Noop Ty)
    (arg : T) :
    UnaryInterface.call kernels op arg = UnaryInterface.call_op (op.derived kernels) arg :=
  rfl

/-- Both non-permuting scale kernels multiply every element by the factor
and keep the range. -/
theorem scale_at (a : Tensor) (factor : Int) (i : Nat) :
    (a.scale factor).at_ord i = factor * a.at_ord i ∧
    (a.scale_to factor).at_ord i = factor * a.at_ord i := by
  unfold Tensor.scale Tensor.scale_to Tensor.at_ord
  simp only [List.getD_eq_getElem?_getD, List.getElem?_map]
  cases a.elems[i]? with
  | none => simp
  | some e => simp [mul_comm]

/-- A `Scal` without a non-null permutation calls the non-permuting kernel
that `is_consumable` selects. -/
theorem scal_call_no_perm (op : Scal Ty) (a : Tensor) (h : op.perm_.to_bool = false) :
    UnaryInterface.call_op op.derived a =
      if op.policy.is_consumable then a.scale_to op.factor_ else a.scale op.factor_ := by
  simp [UnaryInterface.call_op, Scal.derived, Scal.no_permute_op, h]

/-- C21: for every tile `a` and factor `f`, the `Scal` operation returns a
tile `b` with `b[perm * idx(i)] = f * a[i]` for every ordinal `i` of `a`,
where `perm` is the permutation of the operation, a bijection on the
dimensions of `a` or the null permutation, which changes nothing. Without a
permutation, and with the null permutation, `b[i] = f * a[i]` and the range of
`b` is the range of `a`; with a permutation the range of `b` is the permuted
range. -/
theorem C21_scal_scales_every_element (policy : UnaryTileOpPolicy Ty) (factor : Int)
    (perm : Permutation) (a : Tensor) :
    (UnaryInterface.call_op (Scal.new policy factor).derived a).range = a.range ∧
    (∀ i, (UnaryInterface.call_op (Scal.new policy factor).derived a).at_ord i
      = factor * a.at_ord i) ∧
    (perm.to_bool = false →
      (UnaryInterface.call_op (Scal.new_perm policy perm factor).derived a).range = a.range ∧
      ∀ i, (UnaryInterface.call_op (Scal.new_perm policy perm factor).derived a).at_ord i
        = factor * a.at_ord i) ∧
    (perm.to_bool = true →
      (UnaryInterface.call_op (Scal.new_perm policy perm factor).derived a).range
        = perm.apply a.range) ∧
    ((perm.to_bool = true → perm.valid a.range.length) →
      ∀ i, i < Range.volume a.range →
        (UnaryInterface.call_op (Scal.new_perm policy perm factor).derived a).at_idx
          (perm.apply (Range.idx a.range i)) = factor * a.at_ord i) := by
  have hno : ∀ op : Scal Ty, op.perm_.to_bool = false →
      (UnaryInterface.call_op op.derived a).range = a.range ∧
      ∀ i, (UnaryInterface.call_op op.derived a).at_ord i = op.factor_ * a.at_ord i := by
    intro op h
    rw [scal_call_no_perm op a h]
    cases op.policy.is_consumable with
    | true => exact ⟨rfl, fun i => (scale_at a op.factor_ i).2⟩
    | false => exact ⟨rfl, fun i => (scale_at a op.factor_ i).1⟩
  have hperm : perm.to_bool = true →
      UnaryInterface.call_op (Scal.new_perm policy perm factor).derived a
        = a.scale_perm factor perm := by
    intro h
    simp [UnaryInterface.call_op, Scal.derived, Scal.new_perm, Scal.permute_op, h]
  refine ⟨(hno (Scal.new policy factor) rfl).1, (hno (Scal.new policy factor) rfl).2,
    fun h => hno (Scal.new_perm policy perm factor) h, ?_, ?_⟩
  · intro h
    rw [hperm h]
    rfl
  · intro hv i hi
    cases hb : perm.to_bool with
    | true =>
      rw [hperm hb]
      exact Tensor.scale_perm_at a factor perm hb (hv hb) i hi
    | false =>
      obtain ⟨h1, h2⟩ := hno (Scal.new_perm policy perm factor) hb
      have e : perm.apply (Range.idx a.range i) = Range.idx a.range i := by
        simp [Permutation.apply, hb]
      rw [e]
      unfold Tensor.at_idx
      rw [h1, Range.ord_idx _ _ hi]
      exact h2 i

/-- Witness of C21: the factor 7 and the permutation `{2, 0, 1}` on the
example tensor of range `2 x 3 x 2`, at the ordinal 5. -/
theorem C21_scal_scales_every_element_witness :
    (UnaryInterface.call_op
      (Scal.new_perm (⟨0, 0, false⟩ : UnaryTileOpPolicy Nat) ⟨[2, 0, 1]⟩ 7).derived
      example_tensor).at_idx
        ((⟨[2, 0, 1]⟩ : Permutation).apply (Range.idx example_tensor.range 5))
      = 7 * example_tensor.at_ord 5 :=
  (C21_scal_scales_every_element (⟨0, 0, false⟩ : UnaryTileOpPolicy Nat) 7 ⟨[2, 0, 1]⟩
    example_tensor).2.2.2.2
    (fun _ => show ([2, 0, 1] : List Nat).Perm (List.range 3) by decide) 5 (by decide)

/-- C22: storage reuse of `Scal`, for a result type equal to the argument
type. Without a permutation the result occupies the storage of the argument,
with every element multiplied by the factor, when the compile-time flag
`Consumable` is true, when the runtime flag passed to the call is true, and
when `Consumable` is true and the runtime flag is false; it occupies other
storage when `Consumable` is false and no runtime flag is given or the
runtime flag is false. With a non-null permutation the result never occupies
the storage of the argument, whatever the flags. -/
theorem C22_scal_storage_reuse (policy : UnaryTileOpPolicy Ty) (factor : Int)
    (perm : Permutation) (a : Tensor) (consume : Bool) (hty : policy.Result = policy.Arg) :
    (policy.Consumable = true →
      (UnaryInterface.call_op (Scal.new policy factor).derived a).data = a.data ∧
      ∀ i, (UnaryInterface.call_op (Scal.new policy factor).derived a).at_ord i
        = factor * a.at_ord i) ∧
    ((UnaryInterface.call_op_consume (Scal.new policy factor).derived a true).data = a.data ∧
      ∀ i, (UnaryInterface.call_op_consume (Scal.new policy factor).derived a true).at_ord i
        = factor * a.at_ord i) ∧
    (policy.Consumable = true →
      (UnaryInterface.call_op_consume (Scal.new policy factor).derived a false).data = a.data ∧
      ∀ i, (UnaryInterface.call_op_consume (Scal.new policy factor).derived a false).at_ord i
        = factor * a.at_ord i) ∧
    (policy.Consumable = false →
      (UnaryInterface.call_op (Scal.new policy factor).derived a).data ≠ a.data ∧
      (UnaryInterface.call_op_consume (Scal.new policy factor).derived a false).data
        ≠ a.data) ∧
    (perm.to_bool = true →
      (UnaryInterface.call_op (Scal.new_perm policy perm factor).derived a).data ≠ a.data ∧
      (UnaryInterface.call_op_consume (Scal.new_perm policy perm factor).derived a
        consume).data ≠ a.data) := by
  have hcons : policy.is_consumable = policy.Consumable := by
    simp [UnaryTileOpPolicy.is_consumable, hty]
  refine ⟨?_, ?_, ?_, ?_, ?_⟩
  · intro hc
    have e : UnaryInterface.call_op (Scal.new policy factor).derived a
        = a.scale_to factor := by
      simp [UnaryInterface.call_op, Scal.derived, Scal.new, Scal.no_permute_op,
        Permutation.to_bool, hcons, hc]
    rw [e]
    exact ⟨rfl, fun i => (scale_at a factor i).2⟩
  · have e : UnaryInterface.call_op_consume (Scal.new policy factor).derived a true
        = a.scale_to factor := by
      simp [UnaryInterface.call_op_consume, Scal.derived, Scal.new, Scal.no_permute_op,
        Permutation.to_bool]
    rw [e]
    exact ⟨rfl, fun i => (scale_at a factor i).2⟩
  · intro hc
    have e : UnaryInterface.call_op_consume (Scal.new policy factor).derived a false
        = a.scale_to factor := by
      simp [UnaryInterface.call_op_consume, Scal.derived, Scal.new, Scal.no_permute_op,
        Permutation.to_bool, hcons, hc]
    rw [e]
    exact ⟨rfl, fun i => (scale_at a factor i).2⟩
  · intro hc
    have e1 : UnaryInterface.call_op (Scal.new policy factor).derived a
        = a.scale factor := by
      simp [UnaryInterface.call_op, Scal.derived, Scal.new, Scal.no_permute_op,
        Permutation.to_bool, hcons, hc]
    have e2 : UnaryInterface.call_op_consume (Scal.new policy factor).derived a false
        = a.scale factor := by
      simp [UnaryInterface.call_op_consume, Scal.derived, Scal.new, Scal.no_permute_op,
        Permutation.to_bool, hcons, hc]
    rw [e1, e2]
    exact ⟨Nat.succ_ne_self a.data, Nat.succ_ne_self a.data⟩
  · intro hb
    have e1 : UnaryInterface.call_op (Scal.new_perm policy perm factor).derived a
        = a.scale_perm factor perm := by
      simp [UnaryInterface.call_op, Scal.derived, Scal.new_perm, Scal.permute_op, hb]
    have e2 : UnaryInterface.call_op_consume (Scal.new_perm policy perm factor).derived a
        consume = a.scale_perm factor perm := by
      simp [UnaryInterface.call_op_consume, Scal.derived, Scal.new_perm, Scal.permute_op, hb]
    rw [e1, e2]
    exact ⟨Nat.succ_ne_self a.data, Nat.succ_ne_self a.data⟩

/-- Witness of C22: `Scal<..., true>` with the factor 7, called on the example
tensor with the runtime flag false, returns its result in the storage of the
argument. -/
theorem C22_scal_storage_reuse_witness :
    (UnaryInterface.call_op_consume
      (Scal.new (⟨0, 0, true⟩ : UnaryTileOpPolicy Nat) 7).derived example_tensor false).data
      = example_tensor.data ∧
    ∀ i, (UnaryInterface.call_op_consume
      (Scal.new (⟨0, 0, true⟩ : UnaryTileOpPolicy Nat) 7).derived example_tensor false).at_ord i
      = 7 * example_tensor.at_ord i :=
  (C22_scal_storage_reuse (⟨0, 0, true⟩ : UnaryTileOpPolicy Nat) 7 ⟨[]⟩ example_tensor
    false rfl).2.2.1 rfl

end scal

end math

end TiledArray


namespace TiledArray
namespace math

/-- The entry at `i` of a list of scaled products is the scaled product of the
entries at `i`, also beyond the end of either list, where it is 0. -/
theorem zipWith_scaled_getD (f : Int) :
    ∀ (a b : List Int) (i : Nat),
      (List.zipWith (fun l r => f * (l * r)) a b).getD i 0 = f * (a.getD i 0 * b.getD i 0)
  | [], b, i => by simp
  | _ :: _, [], i => by simp
  | x :: a, y :: b, 0 => by simp
  | x :: a, y :: b, i + 1 => by
    simpa using zipWith_scaled_getD f a b i

/-- C36: take kernels whose results hold, at every element `i`, the product of
the operands' elements scaled by the factor: `mult(a, b, f)[i] = f * (a[i] *
b[i])`, and `mult_to(a, b, f)`, which stores into its first argument,
likewise. With commutative element multiplication the three overloads of
`ScalMult::no_permute_op` (`mult(first, second, factor_)` for `<false, false>`,
`mult_to(first, second, factor_)` for `<true, RC>`, `mult_to(second, first,
factor_)` for `<false, true>`) return tiles with the same element values
`factor_ * (first[i] * second[i])`, which is `factor_ * first[i] * second[i]`
when the multiplication is associative as well. A default-constructed
`ScalMult` has the factor 1 and the null permutation, so that its
`operator()` goes to `no_permute_op`. -/
theorem C36_non_permuting_kernels_agree {Ty L R Res E I : Type} [DecidableEq Ty] [Mul E]
    [One E] (kernels : MultKernels L R Res E E I)
    (hcomm : ∀ x y : E, x * y = y * x)
    (hmult : ∀ a b f i, kernels.result_at (kernels.mult a b f) i =
      f * (kernels.left_at a i * kernels.right_at b i))
    (hleft : ∀ a b f i, kernels.result_at (kernels.mult_to_left a b f) i =
      f * (kernels.left_at a i * kernels.right_at b i))
    (hright : ∀ a b f i, kernels.result_at (kernels.mult_to_right a b f) i =
      f * (kernels.right_at a i * kernels.left_at b i))
    (op : ScalMult Ty E) (first : L) (second : R) :
    (op.no_permute_op false false first second =
        .ok (KernelCall.mult first second op.factor_) ∧
      (∀ RC, op.no_permute_op true RC first second =
        .ok (KernelCall.mult_to_first first second op.factor_)) ∧
      op.no_permute_op false true first second =
        .ok (KernelCall.mult_to_second second first op.factor_)) ∧
    (∀ LC RC, ∃ k : KernelCall L R E, op.no_permute_op LC RC first second = .ok k ∧
      ∀ i, kernels.result_at (k.eval kernels) i =
          op.factor_ * (kernels.left_at first i * kernels.right_at second i) ∧
        ((∀ x y z : E, x * y * z = x * (y * z)) →
          kernels.result_at (k.eval kernels) i =
            op.factor_ * kernels.left_at first i * kernels.right_at second i)) ∧
    (∀ policy : BinaryTileOpPolicy Ty,
      (ScalMult.new_default policy : ScalMult Ty E).factor_ = 1 ∧
      (ScalMult.new_default policy : ScalMult Ty E).perm_.to_bool = false ∧
      BinaryInterfaceBase.call (ScalMult.new_default policy : ScalMult Ty E).derived
          first second =
        (ScalMult.new_default policy : ScalMult Ty E).no_permute_op
          policy.left_is_consumable policy.right_is_consumable first second) := by
  refine ⟨⟨rfl, fun RC => by cases RC <;> rfl, rfl⟩, ?_, fun policy => ⟨rfl, rfl, rfl⟩⟩
  intro LC RC
  have key : ∀ k : KernelCall L R E,
      (∀ i, kernels.result_at (k.eval kernels) i =
        op.factor_ * (kernels.left_at first i * kernels.right_at second i)) →
      ∀ i, kernels.result_at (k.eval kernels) i =
          op.factor_ * (kernels.left_at first i * kernels.right_at second i) ∧
        ((∀ x y z : E, x * y * z = x * (y * z)) →
          kernels.result_at (k.eval kernels) i =
            op.factor_ * kernels.left_at first i * kernels.right_at second i) := by
    intro k hk i
    refine ⟨hk i, fun hassoc => ?_⟩
    rw [hk i, hassoc]
  cases LC with
  | true =>
    refine ⟨KernelCall.mult_to_first first second op.factor_, by cases RC <;> rfl, key _ ?_⟩
    intro i
    exact hleft first second op.factor_ i
  | false =>
    cases RC with
    | true =>
      refine ⟨KernelCall.mult_to_second second first op.factor_, rfl, key _ ?_⟩
      intro i
      show kernels.result_at (kernels.mult_to_right second first op.factor_) i = _
      rw [hright, hcomm (kernels.right_at second i)]
    | false =>
      refine ⟨KernelCall.mult first second op.factor_, rfl, key _ ?_⟩
      intro i
      exact hmult first second op.factor_ i

/-- Witness of C36: the example kernels on lists of integers, the factor 2 and
the tiles `[1, 2, 3]` and `[4, 5, 6]`; each of the three kernels returns
`[8, 20, 36]`. -/
theorem C36_non_permuting_kernels_agree_witness :
    ((KernelCall.mult [1, 2, 3] [4, 5, 6] 2 : KernelCall (List Int) (List Int) Int).eval
        example_mult_kernels = [8, 20, 36] ∧
      (KernelCall.mult_to_first [1, 2, 3] [4, 5, 6] 2 : KernelCall (List Int) (List Int) Int).eval
        example_mult_kernels = [8, 20, 36] ∧
      (KernelCall.mult_to_second [4, 5, 6] [1, 2, 3] 2 : KernelCall (List Int) (List Int) Int).eval
        example_mult_kernels = [8, 20, 36]) ∧
    ∀ LC RC, ∃ k : KernelCall (List Int) (List Int) Int,
      (ScalMult.new (⟨0, 0, 0, LC, RC⟩ : BinaryTileOpPolicy Nat) (2 : Int)).no_permute_op LC RC
        [1, 2, 3] [4, 5, 6] = .ok k ∧
      ∀ i, example_mult_kernels.result_at (k.eval example_mult_kernels) i =
          2 * (example_mult_kernels.left_at [1, 2, 3] i *
            example_mult_kernels.right_at [4, 5, 6] i) ∧
        ((∀ x y z : Int, x * y * z = x * (y * z)) →
          example_mult_kernels.result_at (k.eval example_mult_kernels) i =
            2 * example_mult_kernels.left_at [1, 2, 3] i *
              example_mult_kernels.right_at [4, 5, 6] i) :=
  ⟨⟨by decide, by decide, by decide⟩,
    fun LC RC => (C36_non_permuting_kernels_agree example_mult_kernels Int.mul_comm
      (fun a b f i => zipWith_scaled_getD f a b i)
      (fun a b f i => zipWith_scaled_getD f a b i)
      (fun a b f i => zipWith_scaled_getD f a b i)
      (ScalMult.new (⟨0, 0, 0, LC, RC⟩ : BinaryTileOpPolicy Nat) (2 : Int))
      [1, 2, 3] [4, 5, 6]).2.1 LC RC⟩

end math
end TiledArray


namespace ta_dense

set_option maxHeartbeats 2000000 in
/-- With three or more arguments, every `argv[i]` that `main` evaluates is an
argument other than the program name, and the run does not end in an
evaluation outside the argument vector. -/
theorem run_of_three (atol : String → Int) (a0 a1 a2 : String) (rest : List String) :
    (∀ i ∈ (run atol (a0 :: a1 :: a2 :: rest)).2, 1 ≤ i ∧ i < rest.length + 3) ∧
    ∀ i, (run atol (a0 :: a1 :: a2 :: rest)).1 ≠ Outcome.undefined i := by
  rcases rest with _ | ⟨a3, _ | ⟨a4, rest⟩⟩
  · by_cases h1 : atol a1 ≤ 0 <;> by_cases h2 : atol a2 ≤ 0 <;>
      by_cases h3 : (atol a1).tmod (atol a2) = 0 <;>
    simp [run, main, arg, h1, h2, h3, ExceptT.run, StateT.run, bind, ExceptT.bind, ExceptT.mk,
      StateT.bind, ExceptT.bindCont, modify, modifyGet, MonadStateOf.modifyGet,
      StateT.modifyGet, pure, ExceptT.pure, StateT.pure, throw, throwThe, MonadExceptOf.throw,
      liftM, monadLift, MonadLift.monadLift, ExceptT.lift, StateT.map, Functor.map]
  · by_cases h1 : atol a1 ≤ 0 <;> by_cases h2 : atol a2 ≤ 0 <;>
      by_cases h3 : (atol a1).tmod (atol a2) = 0 <;> by_cases h4 : atol a3 ≤ 0 <;>
    simp [run, main, arg, h1, h2, h3, h4, ExceptT.run, StateT.run, bind, ExceptT.bind,
      ExceptT.mk, StateT.bind, ExceptT.bindCont, modify, modifyGet, MonadStateOf.modifyGet,
      StateT.modifyGet, pure, ExceptT.pure, StateT.pure, throw, throwThe, MonadExceptOf.throw,
      liftM, monadLift, MonadLift.monadLift, ExceptT.lift, StateT.map, Functor.map]
  · have g2 : ¬ (rest.length + 1 + 1 + 1 + 1 + 1 < 2) := by omega
    by_cases h1 : atol a1 ≤ 0 <;> by_cases h2 : atol a2 ≤ 0 <;>
      by_cases h3 : (atol a1).tmod (atol a2) = 0 <;> by_cases h4 : atol a3 ≤ 0 <;>
      cases h5 : to_bool a4 <;>
    simp [run, main, arg, g2, h1, h2, h3, h4, h5, ExceptT.run, StateT.run, bind, ExceptT.bind,
      ExceptT.mk, StateT.bind, ExceptT.bindCont, modify, modifyGet, MonadStateOf.modifyGet,
      StateT.modifyGet, pure, ExceptT.pure, StateT.pure, throw, throwThe, MonadExceptOf.throw,
      liftM, monadLift, MonadLift.monadLift, ExceptT.lift, StateT.map, Functor.map]

/-- C37: the usage guard of `main` is `argc < 2`, although `main` goes on to
evaluate `argv[1]` and `argv[2]`. With fewer than two entries in the argument
vector the run prints the usage line and returns 0 without evaluating any
`argv[i]`. With exactly two entries (the program name and `matrix_size`,
`block_size` missing) the guard lets the run continue: it evaluates `argv[1]`
and then `argv[2]`, which is not below `argc`, and the run has no defined
return value. With three or more entries every `argv[i]` evaluated has
`1 <= i < argc`. -/
theorem C37_block_size_read_when_missing (atol : String → Int) :
    (∀ argv : List String, argv.length < 2 → run atol argv = (Outcome.usage, [])) ∧
    (∀ a0 a1 : String,
      run atol [a0, a1] = (Outcome.undefined 2, [1, 2]) ∧
      ¬ (2 < [a0, a1].length) ∧ (run atol [a0, a1]).1.rc = none) ∧
    (∀ argv : List String, 3 ≤ argv.length →
      (∀ i ∈ (run atol argv).2, 1 ≤ i ∧ i < argv.length) ∧
      ∀ i, (run atol argv).1 ≠ Outcome.undefined i) := by
  refine ⟨?_, fun a0 a1 => ⟨rfl, by simp, rfl⟩, ?_⟩
  · intro argv h
    rcases argv with _ | ⟨a0, _ | ⟨a1, rest⟩⟩
    · rfl
    · rfl
    · simp only [List.length_cons] at h
      omega
  · intro argv h
    rcases argv with _ | ⟨a0, _ | ⟨a1, _ | ⟨a2, rest⟩⟩⟩
    · simp at h
    · simp at h
    · simp at h
    · have key := run_of_three atol a0 a1 a2 rest
      simp only [List.length_cons]
      exact key

/-- Witness of C37: `ta_dense` alone prints the usage line; `ta_dense 1024`
evaluates `argv[2]`, one past the last argument; `ta_dense 1024 128` runs the
real multiplication of 1024 x 1024 matrices in blocks of 128 x 128 five times,
having evaluated `argv[1]` and `argv[2]`; with five entries `argv[3]` and
`argv[4]` are evaluated too. -/
theorem C37_block_size_read_when_missing_witness :
    run example_atol ["ta_dense"] = (Outcome.usage, []) ∧
    run example_atol ["ta_dense", "1024"] = (Outcome.undefined 2, [1, 2]) ∧
    (∀ i ∈ (run example_atol ["ta_dense", "1024", "128"]).2, 1 ≤ i ∧ i < 3) ∧
    run example_atol ["ta_dense", "1024", "128"] = (Outcome.gemm false 1024 128 5, [1, 2]) ∧
    run example_atol ["ta_dense", "1024", "128", "3", "yes"] =
      (Outcome.gemm true 1024 128 3, [1, 2, 3, 4]) ∧
    run example_atol ["ta_dense", "1024", "128", "3", "maybe"] =
      (Outcome.error "!! std exception: unrecognized string specification of bool\n",
        [1, 2, 3, 4]) :=
  ⟨(C37_block_size_read_when_missing example_atol).1 ["ta_dense"] (by decide),
    ((C37_block_size_read_when_missing example_atol).2.1 "ta_dense" "1024").1,
    ((C37_block_size_read_when_missing example_atol).2.2 ["ta_dense", "1024", "128"]
      (by decide)).1,
    by decide, by decide, by decide⟩

end ta_dense
